import Mathlib

/-!
libsiedler2: the sound-type sniffer and the LBM raster loader.

A shallow embedding of `baseArchivItem_Sound::findSubType` (ArchivItem_Sound.cpp) and of
`loader::LoadLBM` (LoadLBM.cpp), with the properties the specification states about them.

Bytes are `Fin 256`; wider machine integers are natural numbers reduced modulo `2^16` or
`2^32` at the places where the C++ types would wrap.
-/

namespace libsiedler2

/-! ## The byte cursor -/

/-- One octet of a file. -/
abbrev Byte := Fin 256

/-- The condition of the underlying input stream: `good` (nothing happened), `eofOnly`
(a skip ran into the end of the input: the end-of-input flag alone) and `eofFail` (an
extraction could not be completed: end-of-input flag and failure flag). Over an in-memory
source a failure never comes without the end of the input. -/
inductive IoState where
  | good
  | eofOnly
  | eofFail
deriving DecidableEq, Repr

/-- Modelled from the spec: the endian-aware cursor of section 4.1 (in the sources
`libendian::EndianIStreamAdapter` over an input stream, a library that is not part of the
sources): a finite byte source `data`, the absolute read position `pos` and the
end-of-input tracking `state`, with the operations the two functions call (`getPosition`,
`setPosition`, `>>` and `read`, `ignore`, `eof`, the conversion to `bool`). The adapter
forwards to the `std::istream` the functions are given, so position and flags are those of
that stream: in particular an operation on a stream whose failure flag is raised does
nothing. `fails` counts the extractions that could not be completed; it only indexes the
indeterminate values such extractions leave behind. -/
structure IStream where
  data : List Byte
  pos : Nat
  state : IoState
  fails : Nat
deriving DecidableEq, Repr

namespace IStream

/-- The bytes from the read position to the end of the source. -/
def rest (s : IStream) : List Byte := s.data.drop s.pos

/-- A fresh cursor at the start of `data`. -/
def ofBytes (data : List Byte) : IStream := ⟨data, 0, .good, 0⟩

/-- End-of-input flag (`eof()`). -/
def eof (s : IStream) : Bool := s.state != .good

/-- Failure flag: the conversion of the cursor to `bool` is its negation. -/
def fail (s : IStream) : Bool := s.state == .eofFail

/-- Absolute position of the cursor (`getPosition`), which is `tellg` of the `std::istream`
the adapter wraps: the read position of a good stream, and -1 when a flag is raised (the
stream then fails the check that `tellg` starts with). -/
def getPosition (s : IStream) : Int := if s.state = .good then s.pos else -1

/-- Seek to an absolute position (`setPosition`), which is `seekg` of the `std::istream` the
adapter wraps. On a stream whose failure flag is raised the call does nothing: neither the
position nor the flags change. Otherwise the end-of-input flag is cleared and the position
is set; a seek to a negative position fails instead and raises the failure flag. -/
def setPosition (s : IStream) (newPos : Int) : IStream :=
  if s.fail then s
  else if newPos < 0 then { s with state := .eofFail }
  else { s with pos := newPos.toNat, state := .good }

/-- Extract `n` raw bytes (`readRaw`, and every `>>`). On a cursor that is not good nothing
is extracted and the failure flag is raised. Otherwise the bytes still available, at most
`n`, are extracted; when they are fewer than `n` the cursor ends up at the end of the input
with both flags raised ("the cursor never reads past the source's bound"). -/
def readRaw (s : IStream) (n : Nat) : List Byte × IStream :=
  match s.state with
  | .good =>
    let bs := s.rest.take n
    if bs.length = n then (bs, { s with pos := s.pos + n })
    else (bs, { s with pos := s.pos + bs.length, state := .eofFail, fails := s.fails + 1 })
  | _ => ([], { s with state := .eofFail, fails := s.fails + 1 })

/-- Skip `n` bytes (`ignore`): on a good cursor it advances by `n`, or to the end of the
input, raising the end-of-input flag, when fewer than `n` bytes are left. -/
def ignore (s : IStream) (n : Nat) : IStream :=
  match s.state with
  | .good =>
    if n ≤ s.rest.length then { s with pos := s.pos + n }
    else { s with pos := s.pos + s.rest.length, state := .eofOnly }
  | _ => { s with state := .eofFail }

/-- The cursor moved forward by `n` bytes, its condition unchanged. -/
def skip (s : IStream) (n : Nat) : IStream := { s with pos := s.pos + n }

/-- Read into a `char[4]` buffer: the extracted bytes overwrite the front of the buffer,
the bytes behind them keep their old content. -/
def readChars (s : IStream) (buf : List Byte) : List Byte × IStream :=
  let r := s.readRaw 4
  (r.1 ++ buf.drop r.1.length, r.2)

end IStream

/-! ## Sound subtype detection (ArchivItem_Sound.cpp) -/

/-- The closed enumeration of sound subtypes (`SOUNDTYPE_*`). -/
inductive SoundType where
  | NONE
  | WAVE
  | XMIDI
  | MIDI
  | OGG
  | MP3
deriving DecidableEq, Repr

/-- Modelled from the spec: `isChunk` of fileFormatHelpers.h, which is not part of the
sources. Section 4.2 reads `isChunk(header, "FORM")` as "header is FORM" and
`isChunk(header, "ID3")` as "header starts with ID3": the header begins with the
characters of the tag. -/
def isChunk (header tag : List Byte) : Bool := header.take tag.length == tag

def tagFORM : List Byte := [0x46, 0x4F, 0x52, 0x4D]
def tagRIFF : List Byte := [0x52, 0x49, 0x46, 0x46]
def tagXMID : List Byte := [0x58, 0x4D, 0x49, 0x44]
def tagXDIR : List Byte := [0x58, 0x44, 0x49, 0x52]
def tagWAVE : List Byte := [0x57, 0x41, 0x56, 0x45]
def tagMThd : List Byte := [0x4D, 0x54, 0x68, 0x64]
def tagOggS : List Byte := [0x4F, 0x67, 0x67, 0x53]
def tagID3 : List Byte := [0x49, 0x44, 0x33]
def tagFFFB : List Byte := [0xFF, 0xFB]
def tagPBM : List Byte := [0x50, 0x42, 0x4D, 0x20]
def tagBHMD : List Byte := [0x42, 0x4D, 0x48, 0x44]
def tagCMAP : List Byte := [0x43, 0x4D, 0x41, 0x50]
def tagBODY : List Byte := [0x42, 0x4F, 0x44, 0x59]

/-- The function `baseArchivItem_Sound::findSubType`. The result is the subtype handed to
the item factory, `none` for the `NULL` return, together with the cursor afterwards. -/
def findSubType (file : IStream) : Option SoundType × IStream :=
  let oldpos := file.getPosition
  -- char header[4] = "\0\0\0"; fs >> header;
  let r1 := file.readChars [0, 0, 0, 0]
  let header := r1.1
  if isChunk header tagFORM || isChunk header tagRIFF then
    -- fs >> length >> header;
    let r2 := (r1.2.readRaw 4).2.readChars header
    let header := r2.1
    if isChunk header tagXMID || isChunk header tagXDIR then
      (some .XMIDI, r2.2.setPosition oldpos)
    else if isChunk header tagWAVE then
      (some .WAVE, r2.2.setPosition oldpos)
    else
      (none, r2.2.setPosition oldpos)
  else if isChunk header tagMThd then
    (some .MIDI, r1.2.setPosition oldpos)
  else if isChunk header tagOggS then
    (some .OGG, r1.2.setPosition oldpos)
  else if isChunk header tagID3 || isChunk header tagFFFB then
    (some .MP3, r1.2.setPosition oldpos)
  else
    (some .WAVE, r1.2.setPosition oldpos)

/-- The header buffer of the sniffer after its first read on a good cursor: the first four
bytes of the input, or fewer of them followed by the zero bytes the buffer started with. -/
def sniffHeader (input : List Byte) : List Byte :=
  input.take 4 ++ List.replicate (4 - (input.take 4).length) 0

/-! ## The LBM loader (LoadLBM.cpp) -/

/-- The values the loader can see without having set them: what a failed extraction leaves
in its destination (`junk k` for the extraction that failed when `k` had failed before),
and the initial contents of the locals `header`, `pbm`, `width`, `height` and
`compression`, which are declared without an initialiser. Every theorem about the loader
holds for all of them. -/
structure Env where
  junk : Nat → Nat
  header0 : List Byte
  pbm0 : List Byte
  width0 : Nat
  height0 : Nat
  compression0 : Nat

/-- Big-endian value of a byte string. -/
def beNat (bs : List Byte) : Nat := bs.foldl (fun acc b => acc * 256 + b.val) 0

namespace IStream

/-- Read an unsigned big-endian integer of `n` bytes (`lbm >> x` for `uint16_t` and
`uint32_t`, `lbm.read(chunk)`). -/
def readBE (s : IStream) (junk : Nat → Nat) (n : Nat) : Nat × IStream :=
  let r := s.readRaw n
  if r.1.length = n then (beNat r.1, r.2) else (junk s.fails % 256 ^ n, r.2)

/-- Read one byte (`lbm >> color`, `lbm >> ctype`). -/
def readByte (s : IStream) (junk : Nat → Nat) : Byte × IStream :=
  let r := s.readRaw 1
  match r.1 with
  | [b] => (b, r.2)
  | _ => (Fin.ofNat (junk s.fails), r.2)

end IStream

/-- Modelled from the spec: the palette item (`ArchivItem_Palette`, not part of the
sources): the payload of 256 RGB triples, as the bytes read for it. -/
abbrev Palette := List Byte

/-- Modelled from the spec: `ArchivItem_Palette::load(stream, false)`, not part of the
sources. Section 4.4: "decode 256 RGB triples via the Palette's own chunk format ...
fail with PaletteDecodeError if that sub-decode fails": 768 bytes are read, and the load
reports a failure (a non-zero code) when the cursor cannot deliver them. -/
def Palette.load (s : IStream) : Nat × Palette × IStream :=
  let r := s.readRaw (256 * 3)
  (if r.1.length = 256 * 3 then 0 else 1, r.1, r.2)

/-- Modelled from the spec: the raster image item (`baseArchivItem_Bitmap`, not part of the
sources): width, height, the optional palette, whether the pixel buffer has been allocated,
and the pixel sink of section 4.5, which "accepts (x, y, paletteIndex) writes": `writes`
lists the calls of `tex_setPixel` in the order they were made. -/
structure Bitmap where
  width : Nat
  height : Nat
  palette : Option Palette
  allocated : Bool
  writes : List (Nat × Nat × Byte)
deriving DecidableEq, Repr

namespace Bitmap

/-- The item the factory hands out: no size, no palette, no pixel buffer. -/
def new : Bitmap := ⟨0, 0, none, false, []⟩

def setWidth (b : Bitmap) (w : Nat) : Bitmap := { b with width := w }

def setHeight (b : Bitmap) (h : Nat) : Bitmap := { b with height := h }

def setPalette (b : Bitmap) (p : Palette) : Bitmap := { b with palette := some p }

def tex_alloc (b : Bitmap) : Bitmap := { b with allocated := true }

def tex_setPixel (b : Bitmap) (x y : Nat) (color : Byte) : Bitmap :=
  { b with writes := b.writes ++ [(x, y, color)] }

end Bitmap

/-- Modelled from the spec: the output collection (`ArchivInfo`, not part of the sources),
"the higher-level archive/collection container that merely stores decoded items by index".
-/
abbrev ArchivInfo := List (Option Bitmap)

/-- Put an item at index 0 (`items.set(0, item)`). -/
def ArchivInfo.set0 (items : ArchivInfo) (b : Bitmap) : ArchivInfo := some b :: items.drop 1

/-- How a run of the loader ends: a `return` with its code, or a member call through the
`bitmap` handle after `release()` emptied it, for which the language defines no
behaviour. -/
inductive Outcome where
  | returned (code : Nat)
  | nullDeref
deriving DecidableEq, Repr

/-- The loader's variables: the cursor `lbm`, the owning handle `bitmap` (`none` when it
owns no item), the output collection `items` and the locals `length`, `width`, `height`
and `compression`. -/
structure LbmState where
  lbm : IStream
  bitmap : Option Bitmap
  items : ArchivInfo
  length : Nat
  width : Nat
  height : Nat
  compression : Nat
deriving DecidableEq, Repr

/-- What one pass through the `switch` does: `break` (on to the next chunk) or leave the
function. -/
inductive Step where
  | next (st : LbmState)
  | stop (res : Outcome) (st : LbmState)
deriving DecidableEq, Repr

/-- The statement `if(length & 1) ++length;` on a `uint32_t`. -/
def roundUpEven (length : Nat) : Nat :=
  if length % 2 = 1 then (length + 1) % 2 ^ 32 else length

/-- The statement `--length` on a `uint32_t`. -/
def dec32 (length : Nat) : Nat := (length + 2 ^ 32 - 1) % 2 ^ 32

/-- The value of a `signed char`. -/
def toSigned (b : Byte) : Int := if b.val < 128 then (b.val : Int) else (b.val : Int) - 256

/-- Case `0x424D4844`, "BHMD". -/
def chunkBHMD (env : Env) (st : LbmState) : Step :=
  let rl := st.lbm.readBE env.junk 4
  let length := roundUpEven rl.1
  let rw := rl.2.readBE env.junk 2
  let rh := rw.2.readBE env.junk 2
  let st := { st with lbm := rh.2, length := length, width := rw.1, height := rh.1 }
  match st.bitmap with
  | none => .stop .nullDeref st
  | some bmp =>
    let st := { st with bitmap := some ((bmp.setWidth rw.1).setHeight rh.1) }
    let rd := (rh.2.ignore 4).readBE env.junk 2
    if rd.1 ≠ 256 * 8 then .stop (.returned 13) { st with lbm := rd.2 }
    else
      let rc := rd.2.readBE env.junk 2
      let st := { st with lbm := rc.2, compression := rc.1 }
      if rc.1 ≠ 0 ∧ rc.1 ≠ 256 then .stop (.returned 15) st
      else
        let length := (length + 2 ^ 32 - 12) % 2 ^ 32
        .next { st with lbm := rc.2.ignore length, length := length }

/-- Case `0x434D4150`, "CMAP". -/
def chunkCMAP (env : Env) (st : LbmState) : Step :=
  let rl := st.lbm.readBE env.junk 4
  let length := roundUpEven rl.1
  let st := { st with lbm := rl.2, length := length }
  if length ≠ 256 * 3 then .stop (.returned 17) st
  else
    match st.bitmap with
    | none => .stop .nullDeref st
    | some bmp =>
      let rp := Palette.load rl.2
      let st := { st with lbm := rp.2.2, bitmap := some (bmp.setPalette rp.2.1) }
      if rp.1 ≠ 0 then .stop (.returned 18) st else .next st

/-- The inner loop `for(int x = 0; x < width; ++x)` of the uncompressed case: `n` pixels
of row `y` from column `x` on. -/
def rawRow (junk : Nat → Nat) (y : Nat) : Nat → Nat → Bitmap × IStream → Bitmap × IStream
  | 0, _, acc => acc
  | n + 1, x, acc =>
    let r := acc.2.readByte junk
    rawRow junk y n (x + 1) (acc.1.tex_setPixel x y r.1, r.2)

/-- The outer loop `for(int y = 0; y < height; ++y)` of the uncompressed case: `n` rows
from row `y` on. -/
def rawRows (junk : Nat → Nat) (width : Nat) : Nat → Nat → Bitmap × IStream → Bitmap × IStream
  | 0, _, acc => acc
  | n + 1, y, acc => rawRows junk width n (y + 1) (rawRow junk y width 0 acc)

/-- The variables of the run-length loop: cursor, image, remaining `length` and the
position `x`, `y` (both `uint16_t`). -/
structure RleState where
  lbm : IStream
  bmp : Bitmap
  length : Nat
  x : Nat
  y : Nat
deriving DecidableEq, Repr

/-- The statements `bitmap->tex_setPixel(x++, y, color); if(x >= width) { ++y; x = 0; }`. -/
def rlePut (width : Nat) (st : RleState) (color : Byte) : RleState :=
  let bmp := st.bmp.tex_setPixel st.x st.y color
  let x := (st.x + 1) % 2 ^ 16
  if x ≥ width then { st with bmp := bmp, x := 0, y := (st.y + 1) % 2 ^ 16 }
  else { st with bmp := bmp, x := x }

/-- The loop of a literal run: `count` times read a colour, count it and write it. -/
def rleLiteral (junk : Nat → Nat) (width : Nat) : Nat → RleState → RleState
  | 0, st => st
  | n + 1, st =>
    let r := st.lbm.readByte junk
    rleLiteral junk width n (rlePut width { st with lbm := r.2, length := dec32 st.length } r.1)

/-- The loop of a repeat run: `count` times write the colour. -/
def rleRepeat (width : Nat) (color : Byte) : Nat → RleState → RleState
  | 0, st => st
  | n + 1, st => rleRepeat width color n (rlePut width st color)

/-- The loop `while(length > 0 && !lbm.eof())` of the compressed case. `fuel` bounds the
number of passes; `none` says that it did not suffice. -/
def rleLoop (junk : Nat → Nat) (width : Nat) : Nat → RleState → Option RleState
  | 0, st => if st.length > 0 ∧ st.lbm.eof = false then none else some st
  | fuel + 1, st =>
    if st.length > 0 ∧ st.lbm.eof = false then
      let r := st.lbm.readByte junk
      let ctype := toSigned r.1
      let st := { st with lbm := r.2, length := dec32 st.length }
      if st.length = 0 then rleLoop junk width fuel st
      else if ctype > 0 then
        rleLoop junk width fuel (rleLiteral junk width (1 + ctype).toNat st)
      else
        let rc := st.lbm.readByte junk
        rleLoop junk width fuel
          (rleRepeat width rc.1 (1 - ctype).toNat
            { st with lbm := rc.2, length := dec32 st.length })
    else some st

/-- Case `0x424F4459`, "BODY". The product `width * height` is formed in `int` and cast to
`uint32_t`: its value modulo `2^32`. -/
def chunkBODY (env : Env) (st : LbmState) : Option Step :=
  let rl := st.lbm.readBE env.junk 4
  let length := roundUpEven rl.1
  let st := { st with lbm := rl.2, length := length }
  match st.bitmap with
  | none => some (.stop .nullDeref st)
  | some bmp =>
    if bmp.palette = none then some (.stop (.returned 20) st)
    else
      let bmp := bmp.tex_alloc
      let st := { st with bitmap := some bmp }
      if st.compression = 0 then
        if length ≠ (st.width * st.height) % 2 ^ 32 then some (.stop (.returned 222) st)
        else
          let r := rawRows env.junk st.width st.height 0 (bmp, rl.2)
          some (.next { st with lbm := r.2, bitmap := none, items := st.items.set0 r.1 })
      else if st.compression = 256 then
        match rleLoop env.junk st.width (rl.2.rest.length + 1) ⟨rl.2, bmp, length, 0, 0⟩ with
        | none => none
        | some r =>
          some (.next { st with lbm := r.lbm, length := r.length, bitmap := none,
                                items := st.items.set0 r.bmp })
      else
        some (.next { st with bitmap := none, items := st.items.set0 bmp })

/-- The `default` case: any other chunk is skipped. -/
def chunkDefault (env : Env) (st : LbmState) : Step :=
  let rl := st.lbm.readBE env.junk 4
  let length := roundUpEven rl.1
  .next { st with lbm := rl.2.ignore length, length := length }

/-- The `switch(chunk)`. -/
def handleChunk (env : Env) (st : LbmState) (chunk : Nat) : Option Step :=
  if chunk = 0x424D4844 then some (chunkBHMD env st)
  else if chunk = 0x434D4150 then some (chunkCMAP env st)
  else if chunk = 0x424F4459 then chunkBODY env st
  else some (chunkDefault env st)

/-- The loop `while(lbm.read(chunk))` and the check behind it. `fuel` bounds the number of
chunks; `none` says that it did not suffice. -/
def chunkLoop (env : Env) : Nat → LbmState → Option (Outcome × LbmState)
  | 0, _ => none
  | fuel + 1, st =>
    let r := st.lbm.readBE env.junk 4
    let st := { st with lbm := r.2 }
    if r.2.fail = false then
      match handleChunk env st r.1 with
      | none => none
      | some (.stop res st) => some (res, st)
      | some (.next st) => chunkLoop env fuel st
    else if st.items.isEmpty ∨ st.lbm.eof = false then some (.returned 25, st)
    else some (.returned 0, st)

/-- The loader's variables when it enters the chunk loop, after the twelve bytes of a valid
header: a new image item in the handle, `length` as read from the header. -/
def loopStart (env : Env) (file : List Byte) (items : ArchivInfo) (length : Nat) : LbmState :=
  ⟨(IStream.ofBytes file).skip 12, some Bitmap.new, items, length, env.width0 % 2 ^ 16,
    env.height0 % 2 ^ 16, env.compression0 % 2 ^ 16⟩

/-- The function `loader::LoadLBM` on the contents `file` of the opened file and the output
collection `items`. The checks of the file name and of the opening of the file (return
codes 1 and 2) come before any byte is read and are not part of the model; the item factory
is taken to deliver the items asked for. -/
def LoadLBM (env : Env) (file : List Byte) (items : ArchivInfo) : Option (Outcome × LbmState) :=
  let lbm := IStream.ofBytes file
  -- lbm >> header;
  let rh := lbm.readChars env.header0
  let st : LbmState := ⟨rh.2, none, items, 0, env.width0 % 2 ^ 16, env.height0 % 2 ^ 16,
    env.compression0 % 2 ^ 16⟩
  if rh.1.take 4 ≠ tagFORM then some (.returned 4, st)
  else
    -- lbm >> length; lbm >> pbm;
    let rl := rh.2.readBE env.junk 4
    let rp := rl.2.readChars env.pbm0
    let st := { st with lbm := rp.2, length := rl.1 }
    if rp.1.take 4 ≠ tagPBM then some (.returned 7, st)
    else chunkLoop env (file.length + 1) { st with bitmap := some Bitmap.new }

/-! ## Files, runs and states the theorems speak about -/

/-- The loader's variables a pass through the `switch` ends with. -/
def Step.state : Step → LbmState
  | .next st => st
  | .stop _ st => st

/-- The first `k` passes of the chunk loop, when each of them reads a tag and ends in
`break`: the tags read and the loader's variables at the head of the loop after them. -/
def chunkSteps (env : Env) : Nat → LbmState → Option (List Nat × LbmState)
  | 0, st => some ([], st)
  | k + 1, st =>
    let r := st.lbm.readBE env.junk 4
    if r.2.fail = false then
      match handleChunk env { st with lbm := r.2 } r.1 with
      | some (.next st') => (chunkSteps env k st').map (fun p => (r.1 :: p.1, p.2))
      | _ => none
    else none

/-- The bytes of an LBM file: "FORM", the four bytes `len` of the length field, "PBM " and
the chunks. -/
def lbmFile (len chunks : List Byte) : List Byte := tagFORM ++ (len ++ (tagPBM ++ chunks))

/-- The two bytes of a big-endian `uint16_t`. -/
def u16be (n : Nat) : List Byte := [Fin.ofNat (n / 2 ^ 8), Fin.ofNat n]

/-- The four bytes of a big-endian `uint32_t`. -/
def u32be (n : Nat) : List Byte :=
  [Fin.ofNat (n / 2 ^ 24), Fin.ofNat (n / 2 ^ 16), Fin.ofNat (n / 2 ^ 8), Fin.ofNat n]

/-- A header-info chunk of declared length 12: width, height, four reserved bytes, depth
2048 and the compression mode. -/
def bhmdChunk (w h compression : Nat) (reserved : List Byte) : List Byte :=
  tagBHMD ++ (u32be 12 ++ (u16be w ++ (u16be h ++ (reserved ++
    (u16be 2048 ++ (u16be compression ++ []))))))

/-- A palette chunk of declared length `len`. -/
def cmapChunk (len : Nat) (palette : List Byte) : List Byte :=
  tagCMAP ++ (u32be len ++ palette)

/-- The writes that lay the bytes `bs` out in row-major order in rows of `w` pixels,
the first of them being pixel number `i`: pixel number `j` goes to column `j % w` of row
`j / w`. -/
def gridWrites (w : Nat) : Nat → List Byte → List (Nat × Nat × Byte)
  | _, [] => []
  | i, b :: bs => (i % w, i / w, b) :: gridWrites w (i + 1) bs

/-- A pixel-data chunk of declared length `len`. -/
def bodyChunk (len : Nat) (payload : List Byte) : List Byte := tagBODY ++ (u32be len ++ payload)

/-- The loader's variables at the head of the chunk loop after a header-info chunk of
length 12 and a palette chunk: the cursor is 808 bytes into the file. -/
def pixelsNext (file : List Byte) (items : ArchivInfo) (w h compression : Nat)
    (palette : List Byte) : LbmState :=
  ⟨(IStream.ofBytes file).skip 808, some ⟨w, h, some palette, false, []⟩, items, 768, w, h,
    compression⟩

/-- The loader still owns its image item, nothing has been written to it, and the output
collection is `items0`; with `pal = false` also: no palette is attached to the item. -/
def LbmState.Holds (st : LbmState) (items0 : ArchivInfo) (pal : Bool) : Prop :=
  st.items = items0 ∧
    ∃ b, st.bitmap = some b ∧ b.writes = [] ∧ (pal = false → b.palette = none)

/-- A run of the run-length encoding as the oracle encoder produces it: a literal run of
raw bytes, or a repeat run of `n` copies of the byte `v`. -/
inductive RleRun where
  | literal (bs : List Byte)
  | replicate (n : Nat) (v : Byte)
deriving DecidableEq, Repr

namespace RleRun

/-- The runs the encoder emits: literal runs of 2 to 128 bytes, repeat runs of 1 to 129
copies. -/
def Valid : RleRun → Prop
  | literal bs => 2 ≤ bs.length ∧ bs.length ≤ 128
  | replicate n _ => 1 ≤ n ∧ n ≤ 129

/-- The encoding of a run: control byte `n - 1` and the `n` raw bytes, or control byte
`1 - n` (as a signed byte, that is `257 - n` modulo 256) and the byte to repeat. -/
def encode : RleRun → List Byte
  | literal bs => Fin.ofNat (bs.length - 1) :: bs
  | replicate n v => [Fin.ofNat (257 - n), v]

/-- The pixels a run stands for. -/
def pixels : RleRun → List Byte
  | literal bs => bs
  | replicate n v => List.replicate n v

end RleRun

/-- The concatenated encoding of a sequence of runs. -/
def encodeRuns : List RleRun → List Byte
  | [] => []
  | r :: rs => r.encode ++ encodeRuns rs

/-- The pixels of a sequence of runs, in order. -/
def runPixels : List RleRun → List Byte
  | [] => []
  | r :: rs => r.pixels ++ runPixels rs

/-- A palette for examples: 768 zero bytes. -/
def zeroPalette : List Byte := List.replicate 768 0

/-- An environment for examples: every indeterminate value is zero. -/
def Env.zero : Env := ⟨fun _ => 0, [], [], 0, 0, 0⟩

/-- A cursor with a raised flag stands at the end of its input: the flags are only raised
by an extraction or a skip that ran into the end. -/
def IStream.Settled (s : IStream) : Prop := s.state ≠ .good → s.rest = []

/-! ## The colour word (ColorARGB.h) -/

/-- Modelled from the spec: the colour triple `ColorRGB` (ColorRGB.h is not part of the
sources); the `ColorARGB` constructor reads its fields `r`, `g` and `b`, one byte each. -/
structure ColorRGB where
  r : Byte
  g : Byte
  b : Byte
  deriving DecidableEq, Repr

/-- The struct `ColorARGB`: one `uint32_t` word `clrValue`. -/
structure ColorARGB where
  clrValue : Nat
  deriving DecidableEq, Repr

/-- The word `boost::endian::little_to_native(*ptr)` for the four bytes stored at `ptr`:
the first byte in memory is the least significant one, on every host. -/
def little_to_native (ptr : List Byte) : Nat :=
  beNat (ptr.take 4).reverse

/-- The word `boost::endian::big_to_native(*ptr)` for the four bytes stored at `ptr`:
the first byte in memory is the most significant one, on every host. -/
def big_to_native (ptr : List Byte) : Nat :=
  beNat (ptr.take 4)

/-- The four bytes that `*ptr = boost::endian::native_to_little(w)` stores at `ptr`, in
memory order: least significant byte first. -/
def native_to_little (w : Nat) : List Byte :=
  [Fin.ofNat w, Fin.ofNat (w >>> 8), Fin.ofNat (w >>> 16), Fin.ofNat (w >>> 24)]

/-- The four bytes that `*ptr = boost::endian::native_to_big(w)` stores at `ptr`, in
memory order: most significant byte first. -/
def native_to_big (w : Nat) : List Byte :=
  [Fin.ofNat (w >>> 24), Fin.ofNat (w >>> 16), Fin.ofNat (w >>> 8), Fin.ofNat w]

/-- The C++ `x && y` on two words, as the integer it is promoted to: 1 when both are
non-zero, else 0. -/
def logicalAnd (x y : Nat) : Nat :=
  if x ≠ 0 ∧ y ≠ 0 then 1 else 0

namespace ColorARGB

/-- The constructor `explicit ColorARGB(uint32_t clrValue)`. -/
def ofWord (clrValue : Nat) : ColorARGB :=
  ⟨clrValue % 2 ^ 32⟩

/-- The constructor `ColorARGB(uint8_t a, uint8_t r, uint8_t g, uint8_t b)`:
`clrValue = a << 24 | r << 16 | g << 8 | b`, the bit pattern stored in the 32-bit word. -/
def ofChannels (a r g b : Byte) : ColorARGB :=
  ⟨(a.val <<< 24 ||| r.val <<< 16 ||| g.val <<< 8 ||| b.val) % 2 ^ 32⟩

/-- The constructor `ColorARGB(ColorRGB clrRGB)`:
`clrValue = ColorARGB(0xFF, clrRGB.r, clrRGB.g, clrRGB.g).clrValue`. -/
def ofRGB (clrRGB : ColorRGB) : ColorARGB :=
  ⟨(ofChannels 0xFF clrRGB.r clrRGB.g clrRGB.g).clrValue⟩

/-- The reader `fromABGR(ptr)`: `ColorARGB(boost::endian::little_to_native(*ptr))`. -/
def fromABGR (ptr : List Byte) : ColorARGB :=
  ofWord (little_to_native ptr)

/-- The reader `fromRGBA(ptr)`: `ColorARGB(boost::endian::big_to_native(*ptr))`. -/
def fromRGBA (ptr : List Byte) : ColorARGB :=
  ofWord (big_to_native ptr)

/-- The writer `toABGR(ptr)`: the four bytes stored at `ptr` by
`*ptr = boost::endian::native_to_little(clrValue)`. -/
def toABGR (c : ColorARGB) : List Byte :=
  native_to_little c.clrValue

/-- The writer `toRGBA(ptr)`: the four bytes stored at `ptr` by
`*ptr = boost::endian::native_to_big(clrValue)`. -/
def toRGBA (c : ColorARGB) : List Byte :=
  native_to_big c.clrValue

/-- The getter `getAlpha()`: `clrValue >> 24`, returned as `uint8_t`. -/
def getAlpha (c : ColorARGB) : Byte :=
  Fin.ofNat (c.clrValue >>> 24)

/-- The getter `getRed()`: `clrValue >> 16`, returned as `uint8_t`. -/
def getRed (c : ColorARGB) : Byte :=
  Fin.ofNat (c.clrValue >>> 16)

/-- The getter `getGreen()`: `clrValue >> 8`, returned as `uint8_t`. -/
def getGreen (c : ColorARGB) : Byte :=
  Fin.ofNat (c.clrValue >>> 8)

/-- The getter `getBlue()`: `clrValue`, returned as `uint8_t`. -/
def getBlue (c : ColorARGB) : Byte :=
  Fin.ofNat c.clrValue

/-- The setter `setAlpha(val)`: `clrValue = (clrValue && 0x00FFFFFF) | (val << 24)`. -/
def setAlpha (c : ColorARGB) (val : Byte) : ColorARGB :=
  ⟨(logicalAnd c.clrValue 0x00FFFFFF ||| val.val <<< 24) % 2 ^ 32⟩

/-- The setter `setRed(val)`: `clrValue = (clrValue && 0xFF00FFFF) | (val << 16)`. -/
def setRed (c : ColorARGB) (val : Byte) : ColorARGB :=
  ⟨(logicalAnd c.clrValue 0xFF00FFFF ||| val.val <<< 16) % 2 ^ 32⟩

/-- The setter `setGreen(val)`: `clrValue = (clrValue && 0xFFFF00FF) | (val << 8)`. -/
def setGreen (c : ColorARGB) (val : Byte) : ColorARGB :=
  ⟨(logicalAnd c.clrValue 0xFFFF00FF ||| val.val <<< 8) % 2 ^ 32⟩

/-- The setter `setBlue(val)`: `clrValue = (clrValue && 0xFFFFFF00) | val`. -/
def setBlue (c : ColorARGB) (val : Byte) : ColorARGB :=
  ⟨(logicalAnd c.clrValue 0xFFFFFF00 ||| val.val) % 2 ^ 32⟩

/-- The comparison `operator==`: `clrValue == rhs.clrValue`. -/
def eq (c rhs : ColorARGB) : Bool :=
  c.clrValue == rhs.clrValue

/-- The comparison `operator!=`: `!(*this == rhs)`. -/
def ne (c rhs : ColorARGB) : Bool :=
  !(c.eq rhs)

end ColorARGB

/-! ## Theorems: the byte cursor -/

namespace IStream

theorem readRaw_data (s : IStream) (n : Nat) : (s.readRaw n).2.data = s.data := by
  unfold readRaw
  cases s.state <;> (simp only; try split) <;> rfl

theorem readChars_data (s : IStream) (buf : List Byte) : (s.readChars buf).2.data = s.data := by
  simp [readChars, readRaw_data]

@[simp] theorem skip_state (s : IStream) (n : Nat) : (s.skip n).state = s.state := rfl

@[simp] theorem skip_data (s : IStream) (n : Nat) : (s.skip n).data = s.data := rfl

@[simp] theorem skip_fails (s : IStream) (n : Nat) : (s.skip n).fails = s.fails := rfl

@[simp] theorem skip_pos (s : IStream) (n : Nat) : (s.skip n).pos = s.pos + n := rfl

theorem skip_skip (s : IStream) (m n : Nat) : (s.skip m).skip n = s.skip (m + n) := by
  simp [skip, Nat.add_assoc]

theorem skip_rest (s : IStream) (n : Nat) : (s.skip n).rest = s.rest.drop n := by
  simp only [rest, skip, List.drop_drop]

/-- The bytes left after advancing over a prefix of the rest. -/
theorem rest_skip (s : IStream) (n : Nat) (bs r : List Byte) (hr : s.rest = bs ++ r)
    (hl : bs.length = n) : (s.skip n).rest = r := by
  subst hl
  rw [skip_rest, hr, List.drop_left]

/-- Reading `n` bytes that are there: the bytes are returned and the cursor stays good. -/
theorem readRaw_skip (s : IStream) (n : Nat) (bs r : List Byte) (hg : s.state = .good)
    (hr : s.rest = bs ++ r) (hl : bs.length = n) : s.readRaw n = (bs, s.skip n) := by
  subst hl
  simp [readRaw, hg, hr, skip]

/-- Reading a four-character tag that is there replaces the front of the buffer. -/
theorem readChars_skip (s : IStream) (buf bs r : List Byte) (hg : s.state = .good)
    (hr : s.rest = bs ++ r) (hl : bs.length = 4) :
    (s.readChars buf).1.take 4 = bs ∧ (s.readChars buf).2 = s.skip 4 := by
  simp only [readChars, readRaw_skip s 4 bs r hg hr hl, and_true]
  rw [List.take_append_of_le_length (by omega), ← hl, List.take_length]

/-- Reading a four-character tag that is there into a buffer of four characters. -/
theorem readChars_eq (s : IStream) (buf bs r : List Byte) (hg : s.state = .good)
    (hr : s.rest = bs ++ r) (hl : bs.length = 4) (hb : buf.length ≤ 4) :
    s.readChars buf = (bs, s.skip 4) := by
  simp only [readChars, readRaw_skip s 4 bs r hg hr hl, hl]
  rw [List.drop_eq_nil_of_le hb, List.append_nil]

/-- Reading a big-endian integer whose bytes are there. -/
theorem readBE_skip (s : IStream) (junk : Nat → Nat) (n : Nat) (bs r : List Byte)
    (hg : s.state = .good) (hr : s.rest = bs ++ r) (hl : bs.length = n) :
    s.readBE junk n = (beNat bs, s.skip n) := by
  simp [readBE, readRaw_skip s n bs r hg hr hl, hl]

/-- Reading one byte that is there. -/
theorem readByte_skip (s : IStream) (junk : Nat → Nat) (b : Byte) (r : List Byte)
    (hg : s.state = .good) (hr : s.rest = b :: r) : s.readByte junk = (b, s.skip 1) := by
  simp [readByte, readRaw_skip s 1 [b] r hg hr rfl]

/-- Skipping bytes that are there. -/
theorem ignore_skip (s : IStream) (n : Nat) (hg : s.state = .good) (hn : n ≤ s.rest.length) :
    s.ignore n = s.skip n := by
  simp [ignore, hg, hn, skip]

theorem rest_length (s : IStream) : s.rest.length = s.data.length - s.pos := by
  simp [rest]

/-- No extraction moves the cursor backwards. -/
theorem readRaw_rest_le (s : IStream) (n : Nat) :
    (s.readRaw n).2.rest.length ≤ s.rest.length := by
  unfold readRaw
  cases s.state
  · dsimp only
    split <;> (simp only [rest_length]; omega)
  · exact Nat.le_refl _
  · exact Nat.le_refl _

/-- An extraction that does not fail found the cursor good and moved it by its size. -/
theorem readRaw_of_not_fail (s : IStream) (n : Nat) (h : (s.readRaw n).2.fail = false) :
    s.state = .good ∧ n ≤ s.rest.length ∧ s.readRaw n = (s.rest.take n, s.skip n) := by
  unfold readRaw at h ⊢
  cases hs : s.state
  · rw [hs] at h
    dsimp only at h ⊢
    by_cases hn : (List.take n s.rest).length = n
    · rw [if_pos hn]
      refine ⟨rfl, ?_, by simp [skip, hs]⟩
      rw [List.length_take] at hn
      omega
    · rw [if_neg hn] at h
      simp [fail] at h
  · rw [hs] at h
    simp [fail] at h
  · rw [hs] at h
    simp [fail] at h

theorem readBE_snd (s : IStream) (junk : Nat → Nat) (n : Nat) :
    (s.readBE junk n).2 = (s.readRaw n).2 := by
  unfold readBE
  dsimp only
  split <;> rfl

theorem readByte_snd (s : IStream) (junk : Nat → Nat) :
    (s.readByte junk).2 = (s.readRaw 1).2 := by
  unfold readByte
  dsimp only
  split <;> rfl

theorem readBE_rest_le (s : IStream) (junk : Nat → Nat) (n : Nat) :
    (s.readBE junk n).2.rest.length ≤ s.rest.length := by
  rw [readBE_snd]
  exact readRaw_rest_le s n

theorem readByte_rest_le (s : IStream) (junk : Nat → Nat) :
    (s.readByte junk).2.rest.length ≤ s.rest.length := by
  rw [readByte_snd]
  exact readRaw_rest_le s 1

theorem ignore_rest_le (s : IStream) (n : Nat) : (s.ignore n).rest.length ≤ s.rest.length := by
  unfold ignore
  cases s.state
  · dsimp only
    split <;> (simp only [rest_length]; omega)
  · exact Nat.le_refl _
  · exact Nat.le_refl _

/-- A tag read that does not fail consumed four bytes. -/
theorem readBE_of_not_fail (s : IStream) (junk : Nat → Nat) (n : Nat)
    (h : (s.readBE junk n).2.fail = false) :
    s.state = .good ∧ (s.readBE junk n).2.rest.length + n ≤ s.rest.length := by
  rw [readBE_snd] at h ⊢
  obtain ⟨h1, h2, h3⟩ := readRaw_of_not_fail s n h
  refine ⟨h1, ?_⟩
  rw [h3]
  simp only [skip_rest, List.length_drop]
  omega

end IStream

/-! ## Theorems: sound subtype detection -/

/-- On a good cursor the sniffer's first read leaves `sniffHeader` of the input in the
header buffer. -/
theorem readChars_sniffHeader (file : IStream) (hg : file.state = .good) :
    (file.readChars [0, 0, 0, 0]).1 = sniffHeader file.rest := by
  have hk : ∀ k : Nat, k ≤ 4 → List.drop k [(0 : Byte), 0, 0, 0] = List.replicate (4 - k) 0 := by
    intro k hk
    interval_cases k <;> rfl
  have h1 : (file.readRaw 4).1 = file.rest.take 4 := by
    simp only [IStream.readRaw, hg]
    split <;> rfl
  simp only [IStream.readChars, h1, sniffHeader]
  rw [hk _ (by simp)]

/-- Whatever the sniffer returns, it leaves the byte source as it was. -/
theorem findSubType_data (file : IStream) : (findSubType file).2.data = file.data := by
  unfold findSubType
  simp only
  repeat' split
  all_goals
    unfold IStream.setPosition
    repeat' split
    all_goals simp [IStream.readChars_data, IStream.readRaw_data]

/-- On buffers of equal length `isChunk` is equality. -/
theorem isChunk_eq (header tag : List Byte) (h : header.length = tag.length) :
    isChunk header tag = decide (header = tag) := by
  simp [isChunk, ← h, beq_eq_decide]

/-- C2: on an input that starts with "FORM" or "RIFF", a four-byte length of any value and
a four-byte sub-tag, `findSubType` returns tracker-MIDI for the sub-tags "XMID" and "XDIR",
waveform for "WAVE" and none for every other sub-tag. -/
theorem findSubType_wrapper (file : IStream) (hdr len tag r : List Byte)
    (hg : file.state = .good) (hr : file.rest = hdr ++ (len ++ (tag ++ r)))
    (hh : hdr = tagFORM ∨ hdr = tagRIFF) (hl : len.length = 4) (ht : tag.length = 4) :
    (findSubType file).1 =
      if tag = tagXMID ∨ tag = tagXDIR then some SoundType.XMIDI
      else if tag = tagWAVE then some SoundType.WAVE
      else none := by
  have hhl : hdr.length = 4 := by rcases hh with h | h <;> subst h <;> rfl
  have a1 := IStream.readChars_eq file [0, 0, 0, 0] hdr _ hg hr hhl (by simp)
  have r1 := IStream.rest_skip file 4 hdr _ hr hhl
  have b1 := IStream.readRaw_skip (file.skip 4) 4 len _ hg r1 hl
  have c1 := IStream.readChars_eq ((file.skip 4).skip 4) hdr tag _ hg
    (IStream.rest_skip _ 4 len _ r1 hl) ht (by omega)
  have hf : (isChunk hdr tagFORM || isChunk hdr tagRIFF) = true := by
    rcases hh with h | h <;> subst h <;> rfl
  simp only [findSubType, a1, b1, c1, hf, if_true, isChunk_eq tag tagXMID ht,
    isChunk_eq tag tagXDIR ht, isChunk_eq tag tagWAVE ht, Bool.or_eq_true, decide_eq_true_eq]
  split
  · rfl
  · split <;> rfl

/-- The witness of C2: "RIFF", length 0x24, "WAVE" and four more bytes is a waveform. -/
theorem findSubType_wrapper_witness :
    (findSubType (IStream.ofBytes (tagRIFF ++ ([0x24, 0, 0, 0] ++ (tagWAVE ++ [1, 2, 3, 4]))))).1 =
      some SoundType.WAVE :=
  (findSubType_wrapper
    (IStream.ofBytes (tagRIFF ++ ([0x24, 0, 0, 0] ++ (tagWAVE ++ [1, 2, 3, 4]))))
    tagRIFF [0x24, 0, 0, 0] tagWAVE [1, 2, 3, 4] rfl rfl (Or.inr rfl) rfl rfl).trans
    (by decide)

/-- C3: on a good cursor whose header (the first four bytes, zero-filled when the input is
shorter) is neither "FORM" nor "RIFF", `findSubType` never returns none: it returns
standard MIDI exactly for the header "MThd", Ogg exactly for "OggS", MP3 exactly when the
header starts with "ID3" or with 0xFF 0xFB, and waveform in every remaining case. -/
theorem findSubType_direct (file : IStream) (hg : file.state = .good)
    (hF : sniffHeader file.rest ≠ tagFORM) (hR : sniffHeader file.rest ≠ tagRIFF) :
    (findSubType file).1 ≠ none ∧
    ((findSubType file).1 = some SoundType.MIDI ↔ sniffHeader file.rest = tagMThd) ∧
    ((findSubType file).1 = some SoundType.OGG ↔ sniffHeader file.rest = tagOggS) ∧
    ((findSubType file).1 = some SoundType.MP3 ↔
      ((sniffHeader file.rest).take 3 = tagID3 ∨ (sniffHeader file.rest).take 2 = tagFFFB)) ∧
    ((findSubType file).1 = some SoundType.WAVE ↔
      (sniffHeader file.rest ≠ tagMThd ∧ sniffHeader file.rest ≠ tagOggS ∧
        (sniffHeader file.rest).take 3 ≠ tagID3 ∧ (sniffHeader file.rest).take 2 ≠ tagFFFB)) := by
  have hlen : (sniffHeader file.rest).length = 4 := by
    simp only [sniffHeader, List.length_append, List.length_replicate, List.length_take]
    omega
  have hc : ∀ t : List Byte, t.length = 4 →
      isChunk (sniffHeader file.rest) t = decide (sniffHeader file.rest = t) :=
    fun t htl => isChunk_eq _ t (hlen.trans htl.symm)
  have h3 : isChunk (sniffHeader file.rest) tagID3 =
      decide ((sniffHeader file.rest).take 3 = tagID3) := by
    simp [isChunk, tagID3, beq_eq_decide]
  have h2 : isChunk (sniffHeader file.rest) tagFFFB =
      decide ((sniffHeader file.rest).take 2 = tagFFFB) := by
    simp [isChunk, tagFFFB, beq_eq_decide]
  have e1 := readChars_sniffHeader file hg
  simp only [findSubType, e1, hc tagFORM rfl, hc tagRIFF rfl, hc tagMThd rfl, hc tagOggS rfl,
    h3, h2, Bool.or_eq_true, decide_eq_true_eq, hF, hR, or_self, if_false]
  by_cases hM : sniffHeader file.rest = tagMThd
  · simp [hM, tagMThd, tagOggS, tagID3, tagFFFB]
  · by_cases hO : sniffHeader file.rest = tagOggS
    · simp [hO, tagMThd, tagOggS, tagID3, tagFFFB]
    · by_cases hI : (sniffHeader file.rest).take 3 = tagID3 ∨
          (sniffHeader file.rest).take 2 = tagFFFB
      · simp only [hM, hO, hI, if_true, if_false]
        simp
        tauto
      · simp only [hM, hO, hI, if_false]
        simp
        tauto

/-- The witness of C3 (scenario C): the two-byte input 0x4D 0x54 is classified as a
waveform. -/
theorem findSubType_direct_witness :
    (findSubType (IStream.ofBytes [0x4D, 0x54])).1 = some SoundType.WAVE :=
  (findSubType_direct (IStream.ofBytes [0x4D, 0x54]) rfl (by decide) (by decide)).2.2.2.2.mpr
    ⟨by decide, by decide, by decide, by decide⟩

/-- On a good cursor with fewer than four bytes left, the first read of the sniffer runs
into the end of the input: the header buffer holds what was there, and the cursor stands
at the end with its failure flag raised. -/
theorem readChars_short (file : IStream) (buf : List Byte) (hg : file.state = .good)
    (hs : file.rest.length < 4) :
    (file.readChars buf).2 =
      { file with pos := file.pos + file.rest.length, state := .eofFail,
                  fails := file.fails + 1 } := by
  have ht : (List.take 4 file.rest).length = file.rest.length := by
    rw [List.length_take]
    omega
  unfold IStream.readChars IStream.readRaw
  rw [hg]
  dsimp only
  rw [if_neg (by rw [ht]; omega), ht]

/-- C1: the sniffer does not restore the cursor on a short input. For every good cursor,
at any position, with fewer than four bytes left (the empty input included), the first
read runs into the end of the input and raises the failure flag; the call
`setPosition(oldpos)` on the exit path then does nothing. After `findSubType` the cursor
stands at the end of the input, not at the position it had on entry, its failure flag is
raised, and `getPosition` reports -1 instead of the position on entry. The byte source is
untouched. -/
theorem findSubType_short_input_not_restored (file : IStream) (hg : file.state = .good)
    (hs : file.rest.length < 4) :
    (findSubType file).2.pos = file.pos + file.rest.length ∧
      (findSubType file).2.state = .eofFail ∧
      (findSubType file).2.getPosition = -1 ∧
      file.getPosition = file.pos ∧
      (findSubType file).2.getPosition ≠ file.getPosition ∧
      (findSubType file).2.data = file.data := by
  have e1 := readChars_short file [0, 0, 0, 0] hg hs
  have hgp : file.getPosition = file.pos := by
    unfold IStream.getPosition
    rw [if_pos hg]
  have key : (findSubType file).2.pos = file.pos + file.rest.length ∧
      (findSubType file).2.state = .eofFail := by
    unfold findSubType
    dsimp only
    rw [e1]
    repeat' split
    all_goals exact ⟨rfl, rfl⟩
  have hneg : (findSubType file).2.getPosition = -1 := by
    unfold IStream.getPosition
    rw [key.2]
    rfl
  refine ⟨key.1, key.2, hneg, hgp, ?_, findSubType_data file⟩
  rw [hneg, hgp]
  omega

/-- The witness of C1 (scenario C): on the two-byte input 0x4D 0x54, read from position 0,
the sniffer leaves the cursor at position 2 with the failure flag raised. -/
theorem findSubType_short_input_not_restored_witness :
    (IStream.ofBytes [0x4D, 0x54]).state = .good ∧
      (IStream.ofBytes [0x4D, 0x54]).rest.length < 4 ∧
      (IStream.ofBytes [0x4D, 0x54]).getPosition = 0 ∧
      (findSubType (IStream.ofBytes [0x4D, 0x54])).2.pos = 2 ∧
      (findSubType (IStream.ofBytes [0x4D, 0x54])).2.state = .eofFail ∧
      (findSubType (IStream.ofBytes [0x4D, 0x54])).2.getPosition = -1 :=
  have h := findSubType_short_input_not_restored (IStream.ofBytes [0x4D, 0x54]) rfl
    (by decide)
  ⟨rfl, by decide, rfl, h.1, h.2.1, h.2.2.1⟩

/-- A seek back to the position taken on a good cursor undoes a move forward. -/
theorem IStream.setPosition_restore (s : IStream) (n : Nat) (hg : s.state = .good) :
    (s.skip n).setPosition s.getPosition = s := by
  have hf : (s.skip n).fail = false := by simp [IStream.fail, hg]
  unfold IStream.setPosition IStream.getPosition
  rw [hf, if_pos hg]
  simp only [Bool.false_eq_true, if_false, Int.toNat_ofNat]
  rw [if_neg (by omega)]
  cases s
  simp only at hg
  simp only [IStream.skip, hg]

/-- When every read of the sniffer is complete, the cursor is restored: on a good cursor
with four header bytes that are neither "FORM" nor "RIFF", and on a good cursor with
"FORM" or "RIFF", four length bytes and four sub-tag bytes, `findSubType` leaves the cursor
exactly as it found it, whether it returns a subtype or none. -/
theorem findSubType_restores_complete (file : IStream) (hdr len tag R : List Byte)
    (hg : file.state = .good) (hh : hdr.length = 4) (hl : len.length = 4)
    (ht : tag.length = 4) :
    (hdr ≠ tagFORM → hdr ≠ tagRIFF → file.rest = hdr ++ R → (findSubType file).2 = file) ∧
    ((hdr = tagFORM ∨ hdr = tagRIFF) → file.rest = hdr ++ (len ++ (tag ++ R)) →
      (findSubType file).2 = file) := by
  constructor
  · intro hF hR hr
    have a1 := IStream.readChars_eq file [0, 0, 0, 0] hdr _ hg hr hh (by simp)
    have hf : (isChunk hdr tagFORM || isChunk hdr tagRIFF) = false := by
      rw [isChunk_eq hdr tagFORM hh, isChunk_eq hdr tagRIFF hh]
      simp [hF, hR]
    have hres := IStream.setPosition_restore file 4 hg
    unfold findSubType
    dsimp only
    rw [a1]
    dsimp only
    rw [hf]
    simp only [Bool.false_eq_true, if_false]
    repeat' split
    all_goals exact hres
  · intro hFR hr
    have a1 := IStream.readChars_eq file [0, 0, 0, 0] hdr _ hg hr hh (by simp)
    have r1 := IStream.rest_skip file 4 hdr _ hr hh
    have b1 := IStream.readRaw_skip (file.skip 4) 4 len _ hg r1 hl
    have c1 := IStream.readChars_eq ((file.skip 4).skip 4) hdr tag _ hg
      (IStream.rest_skip _ 4 len _ r1 hl) ht (by omega)
    have hf : (isChunk hdr tagFORM || isChunk hdr tagRIFF) = true := by
      rcases hFR with h | h <;> subst h <;> rfl
    have hres := IStream.setPosition_restore file 12 hg
    unfold findSubType
    dsimp only
    rw [a1]
    dsimp only
    rw [hf, b1]
    dsimp only
    rw [c1]
    simp only [if_true, IStream.skip_skip]
    repeat' split
    all_goals exact hres

/-! ## Theorems: the loader never moves the cursor backwards -/

theorem Palette.load_rest_le (s : IStream) : (Palette.load s).2.2.rest.length ≤ s.rest.length :=
  IStream.readRaw_rest_le s _

theorem rawRow_rest_le (junk : Nat → Nat) (y n : Nat) :
    ∀ (x : Nat) (acc : Bitmap × IStream),
      (rawRow junk y n x acc).2.rest.length ≤ acc.2.rest.length := by
  induction n with
  | zero => intro x acc; exact Nat.le_refl _
  | succ n ih =>
    intro x acc
    unfold rawRow
    exact Nat.le_trans (ih _ _) (IStream.readByte_rest_le _ _)

theorem rawRows_rest_le (junk : Nat → Nat) (width n : Nat) :
    ∀ (y : Nat) (acc : Bitmap × IStream),
      (rawRows junk width n y acc).2.rest.length ≤ acc.2.rest.length := by
  induction n with
  | zero => intro y acc; exact Nat.le_refl _
  | succ n ih =>
    intro y acc
    unfold rawRows
    exact Nat.le_trans (ih _ _) (rawRow_rest_le _ _ _ _ _)

@[simp] theorem rlePut_lbm (width : Nat) (st : RleState) (color : Byte) :
    (rlePut width st color).lbm = st.lbm := by
  unfold rlePut
  dsimp only
  split <;> rfl

theorem rleLiteral_rest_le (junk : Nat → Nat) (width n : Nat) :
    ∀ st : RleState, (rleLiteral junk width n st).lbm.rest.length ≤ st.lbm.rest.length := by
  induction n with
  | zero => intro st; exact Nat.le_refl _
  | succ n ih =>
    intro st
    unfold rleLiteral
    refine Nat.le_trans (ih _) ?_
    rw [rlePut_lbm]
    exact IStream.readByte_rest_le _ _

@[simp] theorem rleRepeat_lbm (width : Nat) (color : Byte) (n : Nat) :
    ∀ st : RleState, (rleRepeat width color n st).lbm = st.lbm := by
  induction n with
  | zero => intro st; rfl
  | succ n ih =>
    intro st
    unfold rleRepeat
    rw [ih, rlePut_lbm]

theorem rleLoop_zero (junk : Nat → Nat) (width : Nat) (st : RleState) :
    rleLoop junk width 0 st =
      if st.length > 0 ∧ st.lbm.eof = false then none else some st := rfl

theorem rleLoop_succ (junk : Nat → Nat) (width fuel : Nat) (st : RleState) :
    rleLoop junk width (fuel + 1) st =
      if st.length > 0 ∧ st.lbm.eof = false then
        if dec32 st.length = 0 then
          rleLoop junk width fuel
            { st with lbm := (st.lbm.readByte junk).2, length := dec32 st.length }
        else if toSigned (st.lbm.readByte junk).1 > 0 then
          rleLoop junk width fuel
            (rleLiteral junk width (1 + toSigned (st.lbm.readByte junk).1).toNat
              { st with lbm := (st.lbm.readByte junk).2, length := dec32 st.length })
        else
          rleLoop junk width fuel
            (rleRepeat width ((st.lbm.readByte junk).2.readByte junk).1
              (1 - toSigned (st.lbm.readByte junk).1).toNat
              { st with lbm := ((st.lbm.readByte junk).2.readByte junk).2,
                        length := dec32 (dec32 st.length) })
      else some st := rfl

theorem chunkLoop_succ (env : Env) (fuel : Nat) (st : LbmState) :
    chunkLoop env (fuel + 1) st =
      if (st.lbm.readBE env.junk 4).2.fail = false then
        match handleChunk env { st with lbm := (st.lbm.readBE env.junk 4).2 }
            (st.lbm.readBE env.junk 4).1 with
        | none => none
        | some (.stop res st) => some (res, st)
        | some (.next st) => chunkLoop env fuel st
      else if st.items.isEmpty ∨ (st.lbm.readBE env.junk 4).2.eof = false then
        some (.returned 25, { st with lbm := (st.lbm.readBE env.junk 4).2 })
      else some (.returned 0, { st with lbm := (st.lbm.readBE env.junk 4).2 }) := rfl

theorem rleLoop_rest_le (junk : Nat → Nat) (width fuel : Nat) :
    ∀ st st' : RleState, rleLoop junk width fuel st = some st' →
      st'.lbm.rest.length ≤ st.lbm.rest.length := by
  induction fuel with
  | zero =>
    intro st st' h
    rw [rleLoop_zero] at h
    split at h
    · cases h
    · cases h; exact Nat.le_refl _
  | succ fuel ih =>
    intro st st' h
    rw [rleLoop_succ] at h
    split at h
    · split at h
      · exact Nat.le_trans (ih _ _ h) (IStream.readByte_rest_le _ _)
      · split at h
        · exact Nat.le_trans (ih _ _ h)
            (Nat.le_trans (rleLiteral_rest_le _ _ _ _) (IStream.readByte_rest_le _ _))
        · refine Nat.le_trans (ih _ _ h) ?_
          rw [rleRepeat_lbm]
          exact Nat.le_trans (IStream.readByte_rest_le _ _) (IStream.readByte_rest_le _ _)
    · cases h; exact Nat.le_refl _

theorem chunkBHMD_rest_le (env : Env) (st : LbmState) :
    (chunkBHMD env st).state.lbm.rest.length ≤ st.lbm.rest.length := by
  have h3 : (((st.lbm.readBE env.junk 4).2.readBE env.junk 2).2.readBE env.junk 2).2.rest.length
      ≤ st.lbm.rest.length :=
    Nat.le_trans (IStream.readBE_rest_le _ _ _)
      (Nat.le_trans (IStream.readBE_rest_le _ _ _) (IStream.readBE_rest_le _ _ _))
  have h4 := Nat.le_trans (Nat.le_trans (IStream.readBE_rest_le
    ((((st.lbm.readBE env.junk 4).2.readBE env.junk 2).2.readBE env.junk 2).2.ignore 4)
    env.junk 2) (IStream.ignore_rest_le _ _)) h3
  unfold chunkBHMD
  dsimp only
  split
  · exact h3
  · split
    · exact h4
    · split
      · exact Nat.le_trans (IStream.readBE_rest_le _ _ _) h4
      · exact Nat.le_trans (IStream.ignore_rest_le _ _)
          (Nat.le_trans (IStream.readBE_rest_le _ _ _) h4)

theorem chunkCMAP_rest_le (env : Env) (st : LbmState) :
    (chunkCMAP env st).state.lbm.rest.length ≤ st.lbm.rest.length := by
  have h1 := IStream.readBE_rest_le st.lbm env.junk 4
  have h2 := Nat.le_trans (Palette.load_rest_le (st.lbm.readBE env.junk 4).2) h1
  unfold chunkCMAP
  dsimp only
  split
  · exact h1
  · split
    · exact h1
    · split <;> exact h2

theorem chunkDefault_rest_le (env : Env) (st : LbmState) :
    (chunkDefault env st).state.lbm.rest.length ≤ st.lbm.rest.length :=
  Nat.le_trans (IStream.ignore_rest_le _ _) (IStream.readBE_rest_le _ _ _)

theorem chunkBODY_rest_le (env : Env) (st : LbmState) (step : Step)
    (h : chunkBODY env st = some step) :
    step.state.lbm.rest.length ≤ st.lbm.rest.length := by
  have h1 := IStream.readBE_rest_le st.lbm env.junk 4
  unfold chunkBODY at h
  dsimp only at h
  split at h
  · cases h; exact h1
  · split at h
    · cases h; exact h1
    · split at h
      · split at h
        · cases h; exact h1
        · cases h
          exact Nat.le_trans (rawRows_rest_le _ _ _ _ _) h1
      · split at h
        · split at h
          · cases h
          · rename_i r hr
            cases h
            exact Nat.le_trans (rleLoop_rest_le _ _ _ _ _ hr) h1
        · cases h; exact h1

theorem handleChunk_rest_le (env : Env) (st : LbmState) (chunk : Nat) (step : Step)
    (h : handleChunk env st chunk = some step) :
    step.state.lbm.rest.length ≤ st.lbm.rest.length := by
  unfold handleChunk at h
  split at h
  · cases h; exact chunkBHMD_rest_le env st
  · split at h
    · cases h; exact chunkCMAP_rest_le env st
    · split at h
      · exact chunkBODY_rest_le env st step h
      · cases h; exact chunkDefault_rest_le env st

/-- Each of the `k` passes of `chunkSteps` consumes at least the four bytes of its tag. -/
theorem chunkSteps_rest_le (env : Env) (k : Nat) :
    ∀ (st st' : LbmState) (tags : List Nat), chunkSteps env k st = some (tags, st') →
      st'.lbm.rest.length + 4 * k ≤ st.lbm.rest.length := by
  induction k with
  | zero =>
    intro st st' tags h
    unfold chunkSteps at h
    cases h
    exact Nat.le_refl _
  | succ k ih =>
    intro st st' tags h
    unfold chunkSteps at h
    dsimp only at h
    split at h
    · rename_i hf
      have h4 := (IStream.readBE_of_not_fail _ _ _ hf).2
      split at h
      · rename_i st1 hh
        have h5 := handleChunk_rest_le _ _ _ _ hh
        cases hk : chunkSteps env k st1 with
        | none => rw [hk] at h; cases h
        | some p =>
          rw [hk] at h
          cases h
          have h6 := ih st1 p.2 p.1 hk
          dsimp only [Step.state] at h5
          omega
      · cases h
    · cases h

/-- The chunk loop, given enough passes, goes through the passes of `chunkSteps`. -/
theorem chunkLoop_steps (env : Env) (k : Nat) :
    ∀ (fuel : Nat) (st st' : LbmState) (tags : List Nat),
      chunkSteps env k st = some (tags, st') →
      chunkLoop env (fuel + k) st = chunkLoop env fuel st' := by
  induction k with
  | zero =>
    intro fuel st st' tags h
    unfold chunkSteps at h
    cases h
    rfl
  | succ k ih =>
    intro fuel st st' tags h
    unfold chunkSteps at h
    dsimp only at h
    split at h
    · rename_i hf
      split at h
      · rename_i st1 hh
        cases hk : chunkSteps env k st1 with
        | none => rw [hk] at h; cases h
        | some p =>
          rw [hk] at h
          cases h
          rw [← Nat.add_assoc, chunkLoop_succ, if_pos hf, hh]
          exact ih fuel st1 p.2 p.1 hk
      · cases h
    · cases h

/-! ## Theorems: the LBM loader, header -/

/-- With a valid twelve-byte header the loader enters its chunk loop at `loopStart`. -/
theorem LoadLBM_valid_header (env : Env) (items : ArchivInfo) (len r : List Byte)
    (hl : len.length = 4) :
    LoadLBM env (lbmFile len r) items =
      chunkLoop env ((lbmFile len r).length + 1)
        (loopStart env (lbmFile len r) items (beNat len)) := by
  have h0 : (IStream.ofBytes (lbmFile len r)).rest = tagFORM ++ (len ++ (tagPBM ++ r)) := rfl
  have a := IStream.readChars_skip _ env.header0 tagFORM _ rfl h0 rfl
  have r1 := IStream.rest_skip _ 4 tagFORM _ h0 rfl
  have b := IStream.readBE_skip _ env.junk 4 len _ rfl r1 hl
  have r2 := IStream.rest_skip _ 4 len _ r1 hl
  have c := IStream.readChars_skip _ env.pbm0 tagPBM _ rfl r2 rfl
  unfold LoadLBM
  dsimp only
  rw [a.2, b]
  dsimp only
  rw [c.2, a.1, c.1, if_neg (by simp), if_neg (by simp)]
  simp only [loopStart, IStream.skip_skip]

theorem loopStart_rest (env : Env) (items : ArchivInfo) (len r : List Byte)
    (hl : len.length = 4) (n : Nat) :
    (loopStart env (lbmFile len r) items n).lbm.rest = r := by
  have h0 : (IStream.ofBytes (lbmFile len r)).rest = (tagFORM ++ (len ++ tagPBM)) ++ r := by
    simp [lbmFile, IStream.ofBytes, IStream.rest]
  exact IStream.rest_skip _ 12 _ _ h0 (by simp [hl, tagFORM, tagPBM])

/-- A state that the chunk loop reaches after `k` chunks is where the whole run of the
loader continues from, with passes to spare. -/
theorem LoadLBM_reaches (env : Env) (items : ArchivInfo) (len r : List Byte)
    (hl : len.length = 4) (k : Nat) (tags : List Nat) (st : LbmState)
    (h : chunkSteps env k (loopStart env (lbmFile len r) items (beNat len)) = some (tags, st)) :
    LoadLBM env (lbmFile len r) items =
      chunkLoop env ((lbmFile len r).length - k + 1) st := by
  have h1 := chunkSteps_rest_le env k _ _ _ h
  rw [loopStart_rest env items len r hl] at h1
  have h2 : r.length ≤ (lbmFile len r).length := by simp [lbmFile]; omega
  rw [LoadLBM_valid_header env items len r hl]
  have h3 : (lbmFile len r).length + 1 = ((lbmFile len r).length - k + 1) + k := by omega
  rw [h3]
  exact chunkLoop_steps env k _ _ _ _ h

/-- C6: an input whose first four bytes are not "FORM" is rejected with return code 4, and
an input that starts with "FORM" but whose bytes 8 to 11 are not "PBM " with return code 7.
In both cases the cursor stands right behind the bytes compared (no chunk was read), no
image item was created and the output collection is as it was. -/
theorem LoadLBM_bad_magic (env : Env) (items : ArchivInfo) (hdr len sub r : List Byte)
    (hh : hdr.length = 4) (hl : len.length = 4) (hs : sub.length = 4) :
    (hdr ≠ tagFORM → ∃ st, LoadLBM env (hdr ++ r) items = some (.returned 4, st) ∧
      st.items = items ∧ st.bitmap = none ∧ st.lbm.getPosition = 4) ∧
    (sub ≠ tagPBM → ∃ st, LoadLBM env (tagFORM ++ (len ++ (sub ++ r))) items =
      some (.returned 7, st) ∧ st.items = items ∧ st.bitmap = none ∧
      st.lbm.getPosition = 12) := by
  constructor
  · intro hne
    have h0 : (IStream.ofBytes (hdr ++ r)).rest = hdr ++ r := rfl
    have a := IStream.readChars_skip _ env.header0 hdr _ rfl h0 hh
    unfold LoadLBM
    dsimp only
    rw [a.2, a.1, if_pos hne]
    exact ⟨_, rfl, rfl, rfl, rfl⟩
  · intro hne
    have h0 : (IStream.ofBytes (tagFORM ++ (len ++ (sub ++ r)))).rest =
        tagFORM ++ (len ++ (sub ++ r)) := rfl
    have a := IStream.readChars_skip _ env.header0 tagFORM _ rfl h0 rfl
    have r1 := IStream.rest_skip _ 4 tagFORM _ h0 rfl
    have b := IStream.readBE_skip _ env.junk 4 len _ rfl r1 hl
    have r2 := IStream.rest_skip _ 4 len _ r1 hl
    have c := IStream.readChars_skip _ env.pbm0 sub _ rfl r2 hs
    unfold LoadLBM
    dsimp only
    rw [a.2, b]
    dsimp only
    rw [c.2, a.1, c.1, if_neg (by simp), if_pos hne]
    exact ⟨_, rfl, rfl, rfl, rfl⟩

/-- The witness of C6: "RIFF" is rejected with code 4, "FORM" before "WAVE" with code 7. -/
theorem LoadLBM_bad_magic_witness :
    (∃ st, LoadLBM Env.zero (tagRIFF ++ [1, 2]) [] = some (.returned 4, st) ∧
      st.items = [] ∧ st.bitmap = none ∧ st.lbm.getPosition = 4) ∧
    (∃ st, LoadLBM Env.zero (tagFORM ++ ([0, 0, 0, 4] ++ (tagWAVE ++ [1, 2]))) [] =
      some (.returned 7, st) ∧ st.items = [] ∧ st.bitmap = none ∧
      st.lbm.getPosition = 12) :=
  ⟨(LoadLBM_bad_magic Env.zero [] tagRIFF [0, 0, 0, 4] tagWAVE [1, 2] rfl rfl rfl).1
      (by decide),
    (LoadLBM_bad_magic Env.zero [] tagRIFF [0, 0, 0, 4] tagWAVE [1, 2] rfl rfl rfl).2
      (by decide)⟩

/-! ## Theorems: the LBM loader, chunk handlers -/

theorem beNat_tagBHMD : beNat tagBHMD = 0x424D4844 := by decide

theorem beNat_tagCMAP : beNat tagCMAP = 0x434D4150 := by decide

theorem beNat_tagBODY : beNat tagBODY = 0x424F4459 := by decide

/-- A pass of the chunk loop whose tag is there: the tag is read and the chunk handled. -/
theorem chunkLoop_tag (env : Env) (fuel : Nat) (st : LbmState) (tag R : List Byte)
    (hg : st.lbm.state = .good) (hr : st.lbm.rest = tag ++ R) (hl : tag.length = 4) :
    chunkLoop env (fuel + 1) st =
      match handleChunk env { st with lbm := st.lbm.skip 4 } (beNat tag) with
      | none => none
      | some (.stop res st) => some (res, st)
      | some (.next st) => chunkLoop env fuel st := by
  have e := IStream.readBE_skip st.lbm env.junk 4 tag R hg hr hl
  have hf : (st.lbm.skip 4).fail = false := by simp [IStream.fail, hg]
  rw [chunkLoop_succ, e]
  dsimp only
  rw [if_pos hf]

/-- The "BHMD" case up to the check of the depth, on a chunk whose fields up to the depth
are there and with the image item still in the handle. -/
theorem chunkBHMD_depth (env : Env) (st : LbmState) (bmp : Bitmap)
    (clen w h res depth tail : List Byte) (hg : st.lbm.state = .good)
    (hr : st.lbm.rest = clen ++ (w ++ (h ++ (res ++ (depth ++ tail)))))
    (hcl : clen.length = 4) (hw : w.length = 2) (hh : h.length = 2) (hres : res.length = 4)
    (hd : depth.length = 2) (hb : st.bitmap = some bmp) :
    chunkBHMD env st =
      if beNat depth ≠ 256 * 8 then
        .stop (.returned 13)
          { st with lbm := st.lbm.skip 14, length := roundUpEven (beNat clen),
                    width := beNat w, height := beNat h,
                    bitmap := some ((bmp.setWidth (beNat w)).setHeight (beNat h)) }
      else if ((st.lbm.skip 14).readBE env.junk 2).1 ≠ 0 ∧
          ((st.lbm.skip 14).readBE env.junk 2).1 ≠ 256 then
        .stop (.returned 15)
          { st with lbm := ((st.lbm.skip 14).readBE env.junk 2).2,
                    length := roundUpEven (beNat clen),
                    width := beNat w, height := beNat h,
                    compression := ((st.lbm.skip 14).readBE env.junk 2).1,
                    bitmap := some ((bmp.setWidth (beNat w)).setHeight (beNat h)) }
      else
        .next
          { st with lbm := ((st.lbm.skip 14).readBE env.junk 2).2.ignore
                      ((roundUpEven (beNat clen) + 2 ^ 32 - 12) % 2 ^ 32),
                    length := (roundUpEven (beNat clen) + 2 ^ 32 - 12) % 2 ^ 32,
                    width := beNat w, height := beNat h,
                    compression := ((st.lbm.skip 14).readBE env.junk 2).1,
                    bitmap := some ((bmp.setWidth (beNat w)).setHeight (beNat h)) } := by
  have e1 := IStream.readBE_skip st.lbm env.junk 4 clen _ hg hr hcl
  have r1 := IStream.rest_skip st.lbm 4 clen _ hr hcl
  have e2 := IStream.readBE_skip (st.lbm.skip 4) env.junk 2 w _ hg r1 hw
  have r2 := IStream.rest_skip _ 2 w _ r1 hw
  have e3 := IStream.readBE_skip ((st.lbm.skip 4).skip 2) env.junk 2 h _ hg r2 hh
  have r3 := IStream.rest_skip _ 2 h _ r2 hh
  have e4 := IStream.ignore_skip (((st.lbm.skip 4).skip 2).skip 2) 4 hg
    (by rw [r3]; simp [hres])
  have r4 := IStream.rest_skip _ 4 res _ r3 hres
  have e5 := IStream.readBE_skip ((((st.lbm.skip 4).skip 2).skip 2).skip 4) env.junk 2 depth _
    hg r4 hd
  unfold chunkBHMD
  dsimp only
  rw [e1]
  dsimp only
  rw [e2]
  dsimp only
  rw [e3]
  dsimp only
  rw [hb]
  dsimp only
  rw [e4, e5]
  simp only [IStream.skip_skip]

/-! ## Theorems: what the chunks before the pixel data leave untouched -/

theorem chunkBHMD_holds (env : Env) (st st' : LbmState) (items0 : ArchivInfo) (pal : Bool)
    (h : chunkBHMD env st = .next st') (hi : st.Holds items0 pal) : st'.Holds items0 pal := by
  obtain ⟨h1, b, h2, h3, h4⟩ := hi
  unfold chunkBHMD at h
  dsimp only at h
  rw [h2] at h
  dsimp only at h
  split at h
  · cases h
  · split at h
    · cases h
    · cases h
      exact ⟨h1, _, rfl, h3, h4⟩

theorem chunkCMAP_holds (env : Env) (st st' : LbmState) (items0 : ArchivInfo)
    (h : chunkCMAP env st = .next st') (hi : st.Holds items0 true) :
    st'.Holds items0 true := by
  obtain ⟨h1, b, h2, h3, -⟩ := hi
  unfold chunkCMAP at h
  dsimp only at h
  split at h
  · cases h
  · rw [h2] at h
    dsimp only at h
    split at h
    · cases h
    · cases h
      exact ⟨h1, _, rfl, h3, fun h => by cases h⟩

theorem chunkDefault_holds (env : Env) (st st' : LbmState) (items0 : ArchivInfo) (pal : Bool)
    (h : chunkDefault env st = .next st') (hi : st.Holds items0 pal) : st'.Holds items0 pal := by
  unfold chunkDefault at h
  cases h
  exact hi

/-- Without a palette the "BODY" case does not end in `break`. -/
theorem chunkBODY_holds (env : Env) (st st' : LbmState) (items0 : ArchivInfo)
    (h : chunkBODY env st = some (.next st')) (hi : st.Holds items0 false) : False := by
  obtain ⟨-, b, h2, -, h4⟩ := hi
  unfold chunkBODY at h
  dsimp only at h
  rw [h2] at h
  dsimp only at h
  rw [if_pos (h4 rfl)] at h
  cases h

theorem handleChunk_holds_true (env : Env) (st st' : LbmState) (chunk : Nat)
    (items0 : ArchivInfo) (h : handleChunk env st chunk = some (.next st'))
    (hn : chunk ≠ beNat tagBODY) (hi : st.Holds items0 true) : st'.Holds items0 true := by
  unfold handleChunk at h
  split at h
  · exact chunkBHMD_holds _ _ _ _ _ (Option.some.inj h) hi
  · split at h
    · exact chunkCMAP_holds _ _ _ _ (Option.some.inj h) hi
    · split at h
      · rename_i e
        exact absurd (e.trans beNat_tagBODY.symm) hn
      · exact chunkDefault_holds _ _ _ _ _ (Option.some.inj h) hi

theorem handleChunk_holds_false (env : Env) (st st' : LbmState) (chunk : Nat)
    (items0 : ArchivInfo) (h : handleChunk env st chunk = some (.next st'))
    (hn : chunk ≠ beNat tagCMAP) (hi : st.Holds items0 false) : st'.Holds items0 false := by
  unfold handleChunk at h
  split at h
  · exact chunkBHMD_holds _ _ _ _ _ (Option.some.inj h) hi
  · split at h
    · rename_i e
      exact absurd (e.trans beNat_tagCMAP.symm) hn
    · split at h
      · exact (chunkBODY_holds _ _ _ _ h hi).elim
      · exact chunkDefault_holds _ _ _ _ _ (Option.some.inj h) hi

/-- As long as no "BODY" chunk (`pal = true`), or no "CMAP" chunk (`pal = false`), is among
the chunks handled, the loader owns its image item, has written no pixel and has left the
output collection alone; in the second case the item has no palette either. -/
theorem chunkSteps_holds (env : Env) (items0 : ArchivInfo) (pal : Bool) (k : Nat) :
    ∀ (st st' : LbmState) (tags : List Nat), chunkSteps env k st = some (tags, st') →
      beNat (if pal then tagBODY else tagCMAP) ∉ tags →
      st.Holds items0 pal → st'.Holds items0 pal := by
  induction k with
  | zero =>
    intro st st' tags h _ hi
    unfold chunkSteps at h
    cases h
    exact hi
  | succ k ih =>
    intro st st' tags h hn hi
    unfold chunkSteps at h
    dsimp only at h
    split at h
    · split at h
      · rename_i st1 hh
        cases hk : chunkSteps env k st1 with
        | none => rw [hk] at h; cases h
        | some p =>
          rw [hk] at h
          cases h
          rw [List.mem_cons, not_or] at hn
          refine ih st1 p.2 p.1 hk hn.2 ?_
          have hi' : LbmState.Holds { st with lbm := (st.lbm.readBE env.junk 4).2 } items0 pal :=
            hi
          cases pal
          · exact handleChunk_holds_false env _ _ _ _ hh (fun e => hn.1 e.symm) hi'
          · exact handleChunk_holds_true env _ _ _ _ hh (fun e => hn.1 e.symm) hi'
      · cases h
    · cases h

theorem loopStart_holds (env : Env) (file : List Byte) (items : ArchivInfo) (n : Nat)
    (pal : Bool) : (loopStart env file items n).Holds items pal :=
  ⟨rfl, Bitmap.new, rfl, rfl, fun _ => rfl⟩

theorem handleChunk_BHMD (env : Env) (st : LbmState) :
    handleChunk env st (beNat tagBHMD) = some (chunkBHMD env st) := by
  rw [beNat_tagBHMD]
  unfold handleChunk
  rw [if_pos rfl]

theorem handleChunk_CMAP (env : Env) (st : LbmState) :
    handleChunk env st (beNat tagCMAP) = some (chunkCMAP env st) := by
  rw [beNat_tagCMAP]
  unfold handleChunk
  rw [if_neg (by decide), if_pos rfl]

theorem handleChunk_BODY (env : Env) (st : LbmState) :
    handleChunk env st (beNat tagBODY) = chunkBODY env st := by
  rw [beNat_tagBODY]
  unfold handleChunk
  rw [if_neg (by decide), if_neg (by decide), if_pos rfl]

theorem beNat_u16be (n : Nat) (h : n < 2 ^ 16) : beNat (u16be n) = n := by
  simp only [beNat, u16be, List.foldl, Fin.ofNat, Fin.val_mk]
  omega

theorem beNat_u32be (n : Nat) (h : n < 2 ^ 32) : beNat (u32be n) = n := by
  simp only [beNat, u32be, List.foldl, Fin.ofNat, Fin.val_mk]
  omega

theorem chunkSteps_succ (env : Env) (k : Nat) (st : LbmState) :
    chunkSteps env (k + 1) st =
      if (st.lbm.readBE env.junk 4).2.fail = false then
        match handleChunk env { st with lbm := (st.lbm.readBE env.junk 4).2 }
            (st.lbm.readBE env.junk 4).1 with
        | some (.next st') =>
          (chunkSteps env k st').map (fun p => ((st.lbm.readBE env.junk 4).1 :: p.1, p.2))
        | _ => none
      else none := rfl

/-- A pass of `chunkSteps` whose tag is there and whose chunk ends in `break`. -/
theorem chunkSteps_tag (env : Env) (k : Nat) (st st' : LbmState) (tag R : List Byte)
    (hg : st.lbm.state = .good) (hr : st.lbm.rest = tag ++ R) (hl : tag.length = 4)
    (hh : handleChunk env { st with lbm := st.lbm.skip 4 } (beNat tag) = some (.next st')) :
    chunkSteps env (k + 1) st =
      (chunkSteps env k st').map (fun p => (beNat tag :: p.1, p.2)) := by
  have e := IStream.readBE_skip st.lbm env.junk 4 tag R hg hr hl
  have hf : (st.lbm.skip 4).fail = false := by simp [IStream.fail, hg]
  rw [chunkSteps_succ, e]
  dsimp only
  rw [if_pos hf, hh]

/-- The "BHMD" case on a complete chunk of declared length 12 with depth 2048 and a known
compression mode: width, height and compression are taken over. -/
theorem chunkBHMD_ok (env : Env) (st : LbmState) (bmp : Bitmap) (w h c : Nat)
    (res R : List Byte) (hg : st.lbm.state = .good)
    (hr : st.lbm.rest = u32be 12 ++ (u16be w ++ (u16be h ++ (res ++
      (u16be 2048 ++ (u16be c ++ R))))))
    (hw : w < 2 ^ 16) (hh : h < 2 ^ 16) (hc : c = 0 ∨ c = 256) (hres : res.length = 4)
    (hb : st.bitmap = some bmp) :
    chunkBHMD env st =
      .next { st with lbm := st.lbm.skip 16, length := 0, width := w, height := h,
                      compression := c,
                      bitmap := some ((bmp.setWidth w).setHeight h) } := by
  have hc16 : c < 2 ^ 16 := by rcases hc with h | h <;> subst h <;> decide
  have e := chunkBHMD_depth env st bmp (u32be 12) (u16be w) (u16be h) res (u16be 2048)
    (u16be c ++ R) hg hr rfl rfl rfl hres rfl hb
  have r5 : st.lbm.rest = (u32be 12 ++ (u16be w ++ (u16be h ++ (res ++ u16be 2048)))) ++
      (u16be c ++ R) := by rw [hr]; simp
  have r6 := IStream.rest_skip st.lbm 14 _ _ r5 (by simp [hres, u32be, u16be])
  have e6 := IStream.readBE_skip (st.lbm.skip 14) env.junk 2 (u16be c) R hg r6 rfl
  have e7 : ((st.lbm.skip 14).skip 2).ignore 0 = (st.lbm.skip 14).skip 2 := by
    rw [IStream.ignore_skip ((st.lbm.skip 14).skip 2) 0 hg (Nat.zero_le _)]
    rfl
  have hl : roundUpEven (beNat (u32be 12)) = 12 := by decide
  rw [e, e6, hl, beNat_u16be w hw, beNat_u16be h hh, beNat_u16be c hc16,
    if_neg (by decide), if_neg (by omega)]
  have h0 : (12 + 2 ^ 32 - 12) % 2 ^ 32 = 0 := by decide
  rw [h0, e7, IStream.skip_skip]

/-- The "CMAP" case on a complete chunk whose length field rounds to 768: the palette is
attached. -/
theorem chunkCMAP_ok (env : Env) (st : LbmState) (bmp : Bitmap) (clen pal R : List Byte)
    (hg : st.lbm.state = .good) (hr : st.lbm.rest = clen ++ (pal ++ R))
    (hcl : clen.length = 4) (hround : roundUpEven (beNat clen) = 768)
    (hp : pal.length = 768) (hb : st.bitmap = some bmp) :
    chunkCMAP env st =
      .next { st with lbm := st.lbm.skip 772, length := 768,
                      bitmap := some (bmp.setPalette pal) } := by
  have e1 := IStream.readBE_skip st.lbm env.junk 4 clen _ hg hr hcl
  have r1 := IStream.rest_skip st.lbm 4 clen _ hr hcl
  have e2 := IStream.readRaw_skip (st.lbm.skip 4) (256 * 3) pal R hg r1 hp
  unfold chunkCMAP Palette.load
  dsimp only
  rw [e1]
  dsimp only
  rw [hround, if_neg (by decide), hb]
  dsimp only
  rw [e2]
  dsimp only
  rw [if_neg (by simp [hp]), IStream.skip_skip]

/-- The chunk loop at the end of the input: no tag can be read, and the result depends on
the output collection alone. -/
theorem chunkLoop_end (env : Env) (fuel : Nat) (st : LbmState) (hg : st.lbm.state = .good)
    (hr : st.lbm.rest.length < 4) :
    chunkLoop env (fuel + 1) st =
      some (.returned (if st.items.isEmpty then 25 else 0),
        { st with lbm := (st.lbm.readRaw 4).2 }) := by
  have h1 : (st.lbm.readRaw 4).2.state = .eofFail := by
    unfold IStream.readRaw
    rw [hg]
    dsimp only
    rw [if_neg (by rw [List.length_take]; omega)]
  have hf : ¬ ((st.lbm.readRaw 4).2.fail = false) := by simp [IStream.fail, h1]
  have he : (st.lbm.readRaw 4).2.eof = true := by simp [IStream.eof, h1]
  rw [chunkLoop_succ, IStream.readBE_snd, if_neg hf]
  by_cases hi : st.items.isEmpty = true
  · rw [if_pos (Or.inl hi), if_pos hi]
  · rw [if_neg (by simp [hi, he]), if_neg hi]

/-- A big-endian value of `n` bytes is below `256 ^ n`. -/
theorem beNat_lt (bs : List Byte) : beNat bs < 256 ^ bs.length := by
  have h : ∀ (l : List Byte) (acc : Nat),
      List.foldl (fun acc (b : Byte) => acc * 256 + b.val) acc l < (acc + 1) * 256 ^ l.length := by
    intro l
    induction l with
    | nil => intro acc; simp
    | cons b l ih =>
      intro acc
      have hb := b.isLt
      have h1 := ih (acc * 256 + b.val)
      rw [List.foldl_cons, List.length_cons, pow_succ]
      calc List.foldl (fun acc (b : Byte) => acc * 256 + b.val) (acc * 256 + b.val) l
          < (acc * 256 + b.val + 1) * 256 ^ l.length := h1
        _ ≤ ((acc + 1) * 256) * 256 ^ l.length :=
            Nat.mul_le_mul_right _ (by omega)
        _ = (acc + 1) * (256 ^ l.length * 256) := by ring
  have h0 := h bs 0
  simpa [beNat] using h0

/-- A file that starts with a header-info chunk and a palette chunk (declared length 768
or 767) takes the loader to `pixelsNext`, the cursor on what follows the two chunks. -/
theorem chunkSteps_pixelsNext (env : Env) (items : ArchivInfo) (len res pal R : List Byte)
    (w h c cl : Nat) (hl : len.length = 4) (hw : w < 2 ^ 16) (hh : h < 2 ^ 16)
    (hc : c = 0 ∨ c = 256) (hcl : cl = 768 ∨ cl = 767) (hres : res.length = 4)
    (hp : pal.length = 768) :
    chunkSteps env 2
        (loopStart env (lbmFile len (bhmdChunk w h c res ++ (cmapChunk cl pal ++ R))) items
          (beNat len)) =
      some ([beNat tagBHMD, beNat tagCMAP],
        pixelsNext (lbmFile len (bhmdChunk w h c res ++ (cmapChunk cl pal ++ R))) items
          w h c pal) ∧
    (pixelsNext (lbmFile len (bhmdChunk w h c res ++ (cmapChunk cl pal ++ R))) items w h c
      pal).lbm.rest = R := by
  have hb0 : bhmdChunk w h c res ++ (cmapChunk cl pal ++ R) =
      tagBHMD ++ (u32be 12 ++ (u16be w ++ (u16be h ++ (res ++ (u16be 2048 ++
        (u16be c ++ (tagCMAP ++ (u32be cl ++ (pal ++ R))))))))) := by
    simp [bhmdChunk, cmapChunk]
  have hround : roundUpEven (beNat (u32be cl)) = 768 := by
    rcases hcl with h | h <;> subst h <;> decide
  have r0 := (loopStart_rest env items len (bhmdChunk w h c res ++ (cmapChunk cl pal ++ R)) hl
    (beNat len)).trans hb0
  generalize hfile : lbmFile len (bhmdChunk w h c res ++ (cmapChunk cl pal ++ R)) = file at r0 ⊢
  have hg0 : (loopStart env file items (beNat len)).lbm.state = .good := rfl
  have r1 := IStream.rest_skip _ 4 tagBHMD _ r0 rfl
  have s1 : chunkBHMD env
      { loopStart env file items (beNat len) with
        lbm := (loopStart env file items (beNat len)).lbm.skip 4 } =
      .next ⟨((IStream.ofBytes file).skip 12).skip 20,
        some ((Bitmap.new.setWidth w).setHeight h), items, 0, w, h, c⟩ := by
    refine (chunkBHMD_ok env
      { loopStart env file items (beNat len) with
        lbm := (loopStart env file items (beNat len)).lbm.skip 4 }
      Bitmap.new w h c res _ hg0 r1 hw hh hc hres rfl).trans ?_
    simp only [loopStart, IStream.skip_skip]
  have r2 : (((IStream.ofBytes file).skip 12).skip 20).rest =
      tagCMAP ++ (u32be cl ++ (pal ++ R)) := by
    have h5 : ((IStream.ofBytes file).skip 12).rest =
        (tagBHMD ++ (u32be 12 ++ (u16be w ++ (u16be h ++ (res ++ (u16be 2048 ++ u16be c)))))) ++
          (tagCMAP ++ (u32be cl ++ (pal ++ R))) := by
      rw [show ((IStream.ofBytes file).skip 12).rest = _ from r0]; simp
    exact IStream.rest_skip _ 20 _ _ h5 (by simp [hres, u32be, u16be, tagBHMD])
  have r3 := IStream.rest_skip _ 4 tagCMAP _ r2 rfl
  have s2 : chunkCMAP env
      ⟨(((IStream.ofBytes file).skip 12).skip 20).skip 4,
        some ((Bitmap.new.setWidth w).setHeight h), items, 0, w, h, c⟩ =
      .next (pixelsNext file items w h c pal) := by
    refine (chunkCMAP_ok env
      ⟨(((IStream.ofBytes file).skip 12).skip 20).skip 4,
        some ((Bitmap.new.setWidth w).setHeight h), items, 0, w, h, c⟩
      ((Bitmap.new.setWidth w).setHeight h) (u32be cl) pal R rfl r3 rfl hround hp
      rfl).trans ?_
    simp only [pixelsNext, IStream.skip_skip]
    rfl
  have r4 : ((((IStream.ofBytes file).skip 12).skip 20).skip 4).rest = (u32be cl ++ pal) ++ R := by
    rw [r3]; simp
  have r5 := IStream.rest_skip _ 772 _ _ r4 (by simp [hp, u32be])
  constructor
  · rw [chunkSteps_tag env 1 _ _ tagBHMD _ hg0 r0 rfl (by rw [handleChunk_BHMD, s1]),
      chunkSteps_tag env 0 ⟨((IStream.ofBytes file).skip 12).skip 20,
        some ((Bitmap.new.setWidth w).setHeight h), items, 0, w, h, c⟩ _ tagCMAP _ rfl r2 rfl
        (by rw [handleChunk_CMAP, s2])]
    rfl
  · simp only [IStream.skip_skip] at r5
    exact r5

/-! ## Theorems: the uncompressed pixel data -/

theorem gridWrites_append (w : Nat) (as bs : List Byte) :
    ∀ i : Nat, gridWrites w i (as ++ bs) = gridWrites w i as ++ gridWrites w (i + as.length) bs := by
  induction as with
  | nil => intro i; rfl
  | cons a as ih =>
    intro i
    have h := ih (i + 1)
    rw [show i + 1 + as.length = i + (a :: as).length by simp; omega] at h
    show (i % w, i / w, a) :: gridWrites w (i + 1) (as ++ bs) =
      (i % w, i / w, a) :: gridWrites w (i + 1) as ++ gridWrites w (i + (a :: as).length) bs
    rw [h]
    rfl

/-- The inner loop of the uncompressed case, on a row whose bytes are there, writes the
row in row-major position. -/
theorem rawRow_ok (junk : Nat → Nat) (w y : Nat) (n : Nat) :
    ∀ (x : Nat) (bmp : Bitmap) (s : IStream) (bs R : List Byte), s.state = .good →
      s.rest = bs ++ R → bs.length = n → x + n ≤ w →
      rawRow junk y n x (bmp, s) =
        ({ bmp with writes := bmp.writes ++ gridWrites w (y * w + x) bs }, s.skip n) := by
  induction n with
  | zero =>
    intro x bmp s bs R _ _ hl _
    have : bs = [] := List.eq_nil_of_length_eq_zero hl
    subst this
    simp [rawRow, gridWrites, IStream.skip]
  | succ n ih =>
    intro x bmp s bs R hg hr hl hx
    match bs, hl with
    | b :: bs, hl =>
      have e := IStream.readByte_skip s junk b (bs ++ R) hg hr
      have r1 := IStream.rest_skip s 1 [b] (bs ++ R) hr rfl
      unfold rawRow
      dsimp only
      rw [e]
      dsimp only
      rw [ih (x + 1) _ (s.skip 1) bs R hg r1 (by simpa using hl) (by omega)]
      have hx1 : (y * w + x) % w = x := by
        rw [Nat.add_comm, Nat.add_mul_mod_self_right]
        exact Nat.mod_eq_of_lt (by omega)
      have hx2 : (y * w + x) / w = y := by
        rw [Nat.add_comm, Nat.add_mul_div_right _ _ (by omega : 0 < w)]
        rw [Nat.div_eq_of_lt (by omega)]
        omega
      simp only [Bitmap.tex_setPixel, gridWrites, hx1, hx2, List.append_assoc,
        List.singleton_append, IStream.skip_skip]
      rw [show y * w + (x + 1) = y * w + x + 1 by omega, Nat.add_comm 1 n]

/-- The loops of the uncompressed case, on pixel data that is there, write the bytes in
row-major order and leave the cursor behind them. -/
theorem rawRows_ok (junk : Nat → Nat) (w : Nat) (n : Nat) :
    ∀ (y : Nat) (bmp : Bitmap) (s : IStream) (body R : List Byte), s.state = .good →
      s.rest = body ++ R → body.length = w * n →
      rawRows junk w n y (bmp, s) =
        ({ bmp with writes := bmp.writes ++ gridWrites w (y * w) body }, s.skip (w * n)) := by
  induction n with
  | zero =>
    intro y bmp s body R _ _ hl
    have : body = [] := List.eq_nil_of_length_eq_zero (by simpa using hl)
    subst this
    simp [rawRows, gridWrites, IStream.skip]
  | succ n ih =>
    intro y bmp s body R hg hr hl
    have hl1 : (body.take w).length = w := by
      rw [List.length_take, hl]
      exact Nat.min_eq_left (by rw [Nat.mul_succ]; omega)
    have hb : body = body.take w ++ body.drop w := (List.take_append_drop w body).symm
    have hr1 : s.rest = body.take w ++ (body.drop w ++ R) := by
      rw [hr, ← List.append_assoc, List.take_append_drop]
    have e := rawRow_ok junk w y w 0 bmp s (body.take w) _ hg hr1 hl1 (by omega)
    have r1 := IStream.rest_skip s w _ _ hr1 hl1
    have hl2 : (body.drop w).length = w * n := by
      rw [List.length_drop, hl, Nat.mul_succ]
      omega
    unfold rawRows
    rw [e, ih (y + 1) _ (s.skip w) (body.drop w) R hg r1 hl2]
    have hg2 : gridWrites w (y * w) body =
        gridWrites w (y * w) (body.take w) ++ gridWrites w ((y + 1) * w) (body.drop w) := by
      conv_lhs => rw [hb]
      rw [gridWrites_append, hl1, Nat.succ_mul]
    simp only [hg2, List.append_assoc, IStream.skip_skip, Nat.add_zero, Nat.mul_succ]
    rw [Nat.add_comm w (w * n)]

/-- The "BODY" case in uncompressed mode, on a chunk whose rounded length is the pixel
count and whose pixel data is there: the bytes are written in row-major order and the
image item goes to the output collection. -/
theorem chunkBODY_raw_ok (env : Env) (st : LbmState) (bmp : Bitmap) (clen body R : List Byte)
    (hg : st.lbm.state = .good) (hr : st.lbm.rest = clen ++ (body ++ R))
    (hcl : clen.length = 4) (hb : st.bitmap = some bmp) (hp : bmp.palette ≠ none)
    (hc : st.compression = 0)
    (hround : roundUpEven (beNat clen) = st.width * st.height % 2 ^ 32)
    (hbody : body.length = st.width * st.height) :
    chunkBODY env st =
      some (.next { st with
        lbm := (st.lbm.skip 4).skip (st.width * st.height),
        length := roundUpEven (beNat clen),
        bitmap := none,
        items := st.items.set0
          { bmp.tex_alloc with writes := bmp.writes ++ gridWrites st.width 0 body } }) := by
  have e1 := IStream.readBE_skip st.lbm env.junk 4 clen _ hg hr hcl
  have r1 := IStream.rest_skip st.lbm 4 clen _ hr hcl
  have e2 := rawRows_ok env.junk st.width st.height 0 bmp.tex_alloc (st.lbm.skip 4) body R hg r1
    hbody
  unfold chunkBODY
  dsimp only
  rw [e1]
  dsimp only
  rw [hb]
  dsimp only
  rw [if_neg hp, if_pos hc, if_neg (by rw [hround]; exact fun h => h rfl), e2]
  simp only [Nat.zero_mul]
  rfl

/-- The "BODY" case in uncompressed mode on a chunk whose rounded length is not the pixel
count: return code 222, and nothing but the allocation has happened to the image item. -/
theorem chunkBODY_raw_mismatch (env : Env) (st : LbmState) (bmp : Bitmap) (clen R : List Byte)
    (hg : st.lbm.state = .good) (hr : st.lbm.rest = clen ++ R)
    (hcl : clen.length = 4) (hb : st.bitmap = some bmp) (hp : bmp.palette ≠ none)
    (hc : st.compression = 0)
    (hne : roundUpEven (beNat clen) ≠ st.width * st.height % 2 ^ 32) :
    chunkBODY env st =
      some (.stop (.returned 222) { st with
        lbm := st.lbm.skip 4, length := roundUpEven (beNat clen),
        bitmap := some bmp.tex_alloc }) := by
  have e1 := IStream.readBE_skip st.lbm env.junk 4 clen _ hg hr hcl
  unfold chunkBODY
  dsimp only
  rw [e1]
  dsimp only
  rw [hb]
  dsimp only
  rw [if_neg hp, if_pos hc, if_pos hne]

theorem lbmFile_length (len chunks : List Byte) (hl : len.length = 4) :
    (lbmFile len chunks).length = 12 + chunks.length := by
  simp [lbmFile, hl, tagFORM, tagPBM]
  omega

/-- An uncompressed image whose "BODY" length field rounds up to the pixel count is decoded:
the loader returns 0 and the output collection holds the image with the bytes of the
chunk written in row-major order. The palette chunk may declare 768 or 767 bytes. -/
theorem LoadLBM_raw_ok (env : Env) (items : ArchivInfo) (len res pal body : List Byte)
    (w h cl L : Nat) (hl : len.length = 4) (hw : w < 2 ^ 16) (hh : h < 2 ^ 16)
    (hcl : cl = 768 ∨ cl = 767) (hres : res.length = 4) (hp : pal.length = 768)
    (hL : L < 2 ^ 32) (hround : roundUpEven L = w * h) (hbody : body.length = w * h) :
    ∃ st', LoadLBM env
        (lbmFile len (bhmdChunk w h 0 res ++ (cmapChunk cl pal ++ bodyChunk L body))) items =
        some (.returned 0, st') ∧
      st'.items = items.set0 ⟨w, h, some pal, true, gridWrites w 0 body⟩ ∧
      st'.bitmap = none := by
  obtain ⟨hreach, hrest⟩ := chunkSteps_pixelsNext env items len res pal (bodyChunk L body)
    w h 0 cl hl hw hh (Or.inl rfl) hcl hres hp
  have hlen := lbmFile_length len (bhmdChunk w h 0 res ++ (cmapChunk cl pal ++ bodyChunk L body))
    hl
  rw [LoadLBM_reaches env items len _ hl 2 _ _ hreach]
  generalize hfile : lbmFile len (bhmdChunk w h 0 res ++ (cmapChunk cl pal ++ bodyChunk L body))
    = file at hrest hlen ⊢
  have hwh : w * h < 2 ^ 32 := by
    calc w * h < 2 ^ 16 * 2 ^ 16 := Nat.mul_lt_mul'' hw hh
      _ = 2 ^ 32 := by norm_num
  have hN : file.length - 2 = (file.length - 3) + 1 := by
    simp only [List.length_append, bodyChunk, tagBODY, List.length_cons, List.length_nil] at hlen
    omega
  have hr0 : (pixelsNext file items w h 0 pal).lbm.rest = tagBODY ++ (u32be L ++ (body ++ [])) := by
    rw [hrest]; simp [bodyChunk]
  have r1 := IStream.rest_skip _ 4 tagBODY _ hr0 rfl
  have s3 : chunkBODY env
      { pixelsNext file items w h 0 pal with
        lbm := (pixelsNext file items w h 0 pal).lbm.skip 4 } =
      some (.next ⟨(((pixelsNext file items w h 0 pal).lbm.skip 4).skip 4).skip (w * h), none,
        items.set0 ⟨w, h, some pal, true, gridWrites w 0 body⟩,
        roundUpEven (beNat (u32be L)), w, h, 0⟩) :=
    chunkBODY_raw_ok env
      { pixelsNext file items w h 0 pal with
        lbm := (pixelsNext file items w h 0 pal).lbm.skip 4 }
      ⟨w, h, some pal, false, []⟩ (u32be L) body [] rfl r1 rfl rfl (by simp) rfl
      (by rw [beNat_u32be L hL, hround]; exact (Nat.mod_eq_of_lt hwh).symm) hbody
  have r2 := IStream.rest_skip _ (w * h) body [] (IStream.rest_skip _ 4 (u32be L) _ r1 rfl) hbody
  rw [chunkLoop_tag env _ _ tagBODY _ rfl hr0 rfl, handleChunk_BODY, s3]
  dsimp only
  rw [hN, chunkLoop_end env _
    ⟨(((pixelsNext file items w h 0 pal).lbm.skip 4).skip 4).skip (w * h), none,
      items.set0 ⟨w, h, some pal, true, gridWrites w 0 body⟩,
      roundUpEven (beNat (u32be L)), w, h, 0⟩ rfl (by rw [r2]; decide)]
  exact ⟨_, rfl, rfl, rfl⟩

/-! ## Theorems: the LBM loader, rejected chunks -/

/-- Before the pixel data a header-info chunk is validated: when the chunk loop reaches
a "BHMD" chunk with no "BODY" chunk handled before it, so that the loader still owns the
image item, and the depth field is not 2048, the loader returns 13 (UnsupportedDepth);
when the depth is 2048 and the compression field is neither 0 nor 256, it returns 15
(UnsupportedCompression). In both cases the output collection is as the caller passed
it. -/
theorem LoadLBM_header_info_rejected (env : Env) (items : ArchivInfo) (len chunks : List Byte)
    (k : Nat) (tags : List Nat) (st : LbmState) (clen w h res depth comp tail : List Byte)
    (hl : len.length = 4)
    (hreach : chunkSteps env k (loopStart env (lbmFile len chunks) items (beNat len)) =
      some (tags, st))
    (hnb : beNat tagBODY ∉ tags) (hg : st.lbm.state = .good)
    (hr : st.lbm.rest = tagBHMD ++ (clen ++ (w ++ (h ++ (res ++ (depth ++ (comp ++ tail)))))))
    (hcl : clen.length = 4) (hw : w.length = 2) (hh : h.length = 2) (hres : res.length = 4)
    (hd : depth.length = 2) (hc : comp.length = 2)
    (hbad : beNat depth ≠ 2048 ∨ (beNat comp ≠ 0 ∧ beNat comp ≠ 256)) :
    ∃ st', LoadLBM env (lbmFile len chunks) items =
        some (.returned (if beNat depth ≠ 2048 then 13 else 15), st') ∧
      st'.items = items := by
  obtain ⟨hi, bmp, hb, -, -⟩ :=
    chunkSteps_holds env items true k _ _ _ hreach hnb (loopStart_holds env _ items _ true)
  rw [LoadLBM_reaches env items len chunks hl k tags st hreach,
    chunkLoop_tag env _ st tagBHMD _ hg hr rfl, handleChunk_BHMD,
    chunkBHMD_depth env { st with lbm := st.lbm.skip 4 } bmp clen w h res depth (comp ++ tail)
      hg (IStream.rest_skip _ 4 tagBHMD _ hr rfl) hcl hw hh hres hd hb]
  by_cases hdv : beNat depth ≠ 2048
  · rw [if_pos hdv, if_pos hdv]
    exact ⟨_, rfl, hi⟩
  · have hcv : beNat comp ≠ 0 ∧ beNat comp ≠ 256 := hbad.resolve_left hdv
    have r5 : ({ st with lbm := st.lbm.skip 4 } : LbmState).lbm.rest =
        (clen ++ (w ++ (h ++ (res ++ depth)))) ++ (comp ++ tail) := by
      rw [show ({ st with lbm := st.lbm.skip 4 } : LbmState).lbm = st.lbm.skip 4 from rfl,
        IStream.rest_skip _ 4 tagBHMD _ hr rfl]
      simp
    have e6 := IStream.readBE_skip (({ st with lbm := st.lbm.skip 4 } : LbmState).lbm.skip 14)
      env.junk 2 comp tail hg
      (IStream.rest_skip _ 14 _ _ r5 (by simp [hcl, hw, hh, hres, hd])) hc
    rw [if_neg hdv, if_neg hdv, e6, if_pos hcv]
    exact ⟨_, rfl, hi⟩

/-- Two instances: a first "BHMD" chunk of depth 1 is rejected with 13, one of depth 2048
and compression 1 with 15. -/
theorem LoadLBM_header_info_rejected_witness :
    (∃ st', LoadLBM Env.zero (lbmFile [0, 0, 0, 0]
        (tagBHMD ++ ([0, 0, 0, 12] ++ ([0, 2] ++ ([0, 2] ++ ([0, 0, 0, 0] ++
          ([0, 1] ++ ([0, 0] ++ [])))))))) [] =
        some (.returned 13, st') ∧
      st'.items = []) ∧
    (∃ st', LoadLBM Env.zero (lbmFile [0, 0, 0, 0]
        (tagBHMD ++ ([0, 0, 0, 12] ++ ([0, 2] ++ ([0, 2] ++ ([0, 0, 0, 0] ++
          ([8, 0] ++ ([0, 1] ++ [])))))))) [] =
        some (.returned 15, st') ∧
      st'.items = []) :=
  ⟨LoadLBM_header_info_rejected Env.zero [] [0, 0, 0, 0] _ 0 [] _ [0, 0, 0, 12] [0, 2] [0, 2]
      [0, 0, 0, 0] [0, 1] [0, 0] [] rfl rfl (by simp) rfl rfl rfl rfl rfl rfl rfl rfl
      (Or.inl (by decide)),
    LoadLBM_header_info_rejected Env.zero [] [0, 0, 0, 0] _ 0 [] _ [0, 0, 0, 12] [0, 2] [0, 2]
      [0, 0, 0, 0] [8, 0] [0, 1] [] rfl rfl (by simp) rfl rfl rfl rfl rfl rfl rfl rfl
      (Or.inr (by decide))⟩

theorem zeroPalette_length : zeroPalette.length = 768 := List.length_replicate 768 0

/-- From a state the chunk loop reaches, an uncompressed "BODY" chunk whose rounded length
is not the pixel count ends the run with return code 222. -/
theorem LoadLBM_raw_mismatch_at (env : Env) (items : ArchivInfo) (len chunks : List Byte)
    (k : Nat) (tags : List Nat) (st : LbmState) (bmp : Bitmap) (clen R : List Byte)
    (hl : len.length = 4)
    (hreach : chunkSteps env k (loopStart env (lbmFile len chunks) items (beNat len)) =
      some (tags, st))
    (hg : st.lbm.state = .good) (hr : st.lbm.rest = tagBODY ++ (clen ++ R))
    (hcl : clen.length = 4) (hb : st.bitmap = some bmp) (hp : bmp.palette ≠ none)
    (hc : st.compression = 0)
    (hne : roundUpEven (beNat clen) ≠ st.width * st.height % 2 ^ 32) :
    ∃ st', LoadLBM env (lbmFile len chunks) items = some (.returned 222, st') ∧
      st'.items = st.items ∧ ∃ b, st'.bitmap = some b ∧ b.writes = bmp.writes := by
  rw [LoadLBM_reaches env items len chunks hl k tags st hreach,
    chunkLoop_tag env _ st tagBODY _ hg hr rfl, handleChunk_BODY,
    chunkBODY_raw_mismatch env { st with lbm := st.lbm.skip 4 } bmp clen R hg
      (IStream.rest_skip _ 4 tagBODY _ hr rfl) hcl hb hp hc hne]
  exact ⟨_, rfl, rfl, _, rfl, rfl⟩

/-- The round-up of a 32-bit value is 768 for the values 767 and 768 only. -/
theorem roundUpEven_ne_768 (n : Nat) (hn : n < 2 ^ 32) (h1 : n ≠ 768) (h2 : n ≠ 767) :
    roundUpEven n ≠ 768 := by
  unfold roundUpEven
  split <;> omega

/-- C8, as amended: when the chunk loop reaches a "CMAP" chunk whose length field is any
32-bit value other than 768 and 767 (which rounds up to 768), the loader returns 17
(BadPaletteSize); the cursor stands right behind the length field, so that no palette byte
was read, and image item and output collection are untouched. -/
theorem LoadLBM_bad_palette_size (env : Env) (items : ArchivInfo) (len chunks : List Byte)
    (k : Nat) (tags : List Nat) (st : LbmState) (clen R : List Byte) (hl : len.length = 4)
    (hreach : chunkSteps env k (loopStart env (lbmFile len chunks) items (beNat len)) =
      some (tags, st))
    (hg : st.lbm.state = .good) (hr : st.lbm.rest = tagCMAP ++ (clen ++ R))
    (hcl : clen.length = 4) (h768 : beNat clen ≠ 768) (h767 : beNat clen ≠ 767) :
    ∃ st', LoadLBM env (lbmFile len chunks) items = some (.returned 17, st') ∧
      st'.items = st.items ∧ st'.bitmap = st.bitmap ∧ st'.lbm = st.lbm.skip 8 := by
  have hlt : beNat clen < 2 ^ 32 := by
    have h := beNat_lt clen
    rw [hcl] at h
    exact h
  have hne := roundUpEven_ne_768 (beNat clen) hlt h768 h767
  have e1 := IStream.readBE_skip (st.lbm.skip 4) env.junk 4 clen R hg
    (IStream.rest_skip _ 4 tagCMAP _ hr rfl) hcl
  rw [LoadLBM_reaches env items len chunks hl k tags st hreach,
    chunkLoop_tag env _ st tagCMAP _ hg hr rfl, handleChunk_CMAP]
  unfold chunkCMAP
  dsimp only
  rw [e1]
  dsimp only
  rw [if_pos hne]
  exact ⟨_, rfl, rfl, rfl, IStream.skip_skip _ _ _⟩

/-- The witness of C8: a first "CMAP" chunk of declared length 0x300 + 1. -/
theorem LoadLBM_bad_palette_size_witness :
    ∃ st', LoadLBM Env.zero (lbmFile [0, 0, 0, 0] (tagCMAP ++ ([0, 0, 3, 1] ++ [1, 2, 3]))) [] =
        some (.returned 17, st') ∧
      st'.items = [] ∧ st'.bitmap = some Bitmap.new ∧
      st'.lbm = (IStream.skip (IStream.ofBytes
        (lbmFile [0, 0, 0, 0] (tagCMAP ++ ([0, 0, 3, 1] ++ [1, 2, 3])))) 12).skip 8 :=
  LoadLBM_bad_palette_size Env.zero [] [0, 0, 0, 0] _ 0 [] _ [0, 0, 3, 1] [1, 2, 3] rfl rfl
    rfl rfl rfl (by decide) (by decide)

/-- C8 as stated fails for the length 767: a file whose palette chunk declares 767 bytes is
decoded without error, with the 768 bytes behind the length field as its palette. -/
theorem LoadLBM_palette_767_accepted :
    (767 : Nat) ≠ 768 ∧
    ∃ st', LoadLBM Env.zero
        (lbmFile [0, 0, 0, 0] (bhmdChunk 2 1 0 [0, 0, 0, 0] ++
          (cmapChunk 767 zeroPalette ++ bodyChunk 2 [9, 8]))) [] =
        some (.returned 0, st') ∧
      st'.items = [some ⟨2, 1, some zeroPalette, true, [(0, 0, 9), (1, 0, 8)]⟩] :=
  ⟨by decide, by
    obtain ⟨st', h1, h2, -⟩ := LoadLBM_raw_ok Env.zero [] [0, 0, 0, 0] [0, 0, 0, 0] zeroPalette
      [9, 8] 2 1 767 2 rfl (by decide) (by decide) (Or.inr rfl) rfl zeroPalette_length
      (by decide) (by decide) rfl
    exact ⟨st', h1, h2⟩⟩

/-- The size guard as it is coded: when the chunk loop reaches a "BODY" chunk in
uncompressed mode, with a palette attached to the image item, and the declared length
after the loader's rounding differs from width times height (formed in 32 bits), the
loader returns 222 (SizeMismatch) and has written no pixel; the output collection is
untouched. -/
theorem LoadLBM_size_mismatch (env : Env) (items : ArchivInfo) (len chunks : List Byte)
    (k : Nat) (tags : List Nat) (st : LbmState) (bmp : Bitmap) (clen R : List Byte)
    (hl : len.length = 4)
    (hreach : chunkSteps env k (loopStart env (lbmFile len chunks) items (beNat len)) =
      some (tags, st))
    (hg : st.lbm.state = .good) (hr : st.lbm.rest = tagBODY ++ (clen ++ R))
    (hcl : clen.length = 4) (hb : st.bitmap = some bmp) (hp : bmp.palette ≠ none)
    (hc : st.compression = 0)
    (hne : roundUpEven (beNat clen) ≠ st.width * st.height % 2 ^ 32) :
    ∃ st', LoadLBM env (lbmFile len chunks) items = some (.returned 222, st') ∧
      st'.items = st.items ∧ ∃ b, st'.bitmap = some b ∧ b.writes = bmp.writes :=
  LoadLBM_raw_mismatch_at env items len chunks k tags st bmp clen R hl hreach hg hr hcl hb hp
    hc hne

/-- An instance of the size guard: a 2x2 image whose "BODY" chunk declares 6 bytes. -/
theorem LoadLBM_size_mismatch_witness :
    ∃ st', LoadLBM Env.zero
        (lbmFile [0, 0, 0, 0] (bhmdChunk 2 2 0 [0, 0, 0, 0] ++
          (cmapChunk 768 zeroPalette ++ bodyChunk 6 [1, 2, 3, 4, 5, 6]))) [] =
        some (.returned 222, st') ∧
      st'.items = [] ∧ ∃ b, st'.bitmap = some b ∧ b.writes = [] :=
  LoadLBM_size_mismatch Env.zero [] [0, 0, 0, 0] _ 2 _ _ ⟨2, 2, some zeroPalette, false, []⟩
    (u32be 6) [1, 2, 3, 4, 5, 6] rfl
    (chunkSteps_pixelsNext Env.zero [] [0, 0, 0, 0] [0, 0, 0, 0] zeroPalette
      (bodyChunk 6 [1, 2, 3, 4, 5, 6]) 2 2 0 768 rfl (by decide) (by decide) (Or.inl rfl)
      (Or.inl rfl) rfl zeroPalette_length).1
    rfl
    (chunkSteps_pixelsNext Env.zero [] [0, 0, 0, 0] [0, 0, 0, 0] zeroPalette
      (bodyChunk 6 [1, 2, 3, 4, 5, 6]) 2 2 0 768 rfl (by decide) (by decide) (Or.inl rfl)
      (Or.inl rfl) rfl zeroPalette_length).2
    rfl rfl (by simp) rfl (by decide)

/-- C10: a declared length that differs from the pixel count is accepted. The 2x1 image
(two pixels) whose uncompressed "BODY" chunk declares one byte is not rejected with 222
(SizeMismatch): the loader rounds the declared length 1 up to 2 before it compares it with
width times height, returns 0 and writes both pixels. -/
theorem LoadLBM_short_body_accepted :
    (1 : Nat) ≠ 2 * 1 ∧
    ∃ st', LoadLBM Env.zero
        (lbmFile [0, 0, 0, 0] (bhmdChunk 2 1 0 [0, 0, 0, 0] ++
          (cmapChunk 768 zeroPalette ++ bodyChunk 1 [9, 8]))) [] =
        some (.returned 0, st') ∧
      st'.items = [some ⟨2, 1, some zeroPalette, true, [(0, 0, 9), (1, 0, 8)]⟩] :=
  ⟨by decide, by
    obtain ⟨st', h1, h2, -⟩ := LoadLBM_raw_ok Env.zero [] [0, 0, 0, 0] [0, 0, 0, 0] zeroPalette
      [9, 8] 2 1 768 1 rfl (by decide) (by decide) (Or.inl rfl) rfl zeroPalette_length
      (by decide) (by decide) rfl
    exact ⟨st', h1, h2⟩⟩

/-- The same guard at the largest declared length: the increment wraps 2^32 - 1 around to
0, so an uncompressed 0x0 image whose "BODY" chunk declares 2^32 - 1 bytes is accepted. -/
theorem LoadLBM_max_length_body_accepted (env : Env) :
    ∃ st', LoadLBM env
        (lbmFile [0, 0, 0, 0] (bhmdChunk 0 0 0 [0, 0, 0, 0] ++
          (cmapChunk 768 zeroPalette ++ bodyChunk (2 ^ 32 - 1) []))) [] =
        some (.returned 0, st') := by
  obtain ⟨st', h1, -⟩ := LoadLBM_raw_ok env [] [0, 0, 0, 0] [0, 0, 0, 0] zeroPalette
    [] 0 0 768 (2 ^ 32 - 1) rfl (by decide) (by decide) (Or.inl rfl) rfl zeroPalette_length
    (by norm_num) (by norm_num [roundUpEven]) rfl
  exact ⟨st', h1⟩

/-- An uncompressed image with an odd number of pixels, in a file whose "BODY" chunk
declares exactly width times height bytes, is rejected with return code 222: the length is
rounded up to even before it is compared. -/
theorem LoadLBM_raw_odd_area (env : Env) (items : ArchivInfo) (len res pal body : List Byte)
    (w h : Nat) (hl : len.length = 4) (hw : w < 2 ^ 16) (hh : h < 2 ^ 16)
    (hres : res.length = 4) (hp : pal.length = 768) (hodd : w * h % 2 = 1) :
    ∃ st', LoadLBM env
        (lbmFile len (bhmdChunk w h 0 res ++ (cmapChunk 768 pal ++ bodyChunk (w * h) body)))
        items = some (.returned 222, st') ∧
      st'.items = items ∧ ∃ b, st'.bitmap = some b ∧ b.writes = [] := by
  obtain ⟨hreach, hrest⟩ := chunkSteps_pixelsNext env items len res pal
    (bodyChunk (w * h) body) w h 0 768 hl hw hh (Or.inl rfl) (Or.inl rfl) hres hp
  have hwh : w * h < 2 ^ 32 := by
    calc w * h < 2 ^ 16 * 2 ^ 16 := Nat.mul_lt_mul'' hw hh
      _ = 2 ^ 32 := by norm_num
  have hne : roundUpEven (beNat (u32be (w * h))) ≠ w * h % 2 ^ 32 := by
    rw [beNat_u32be _ hwh]
    unfold roundUpEven
    rw [if_pos hodd]
    omega
  exact LoadLBM_raw_mismatch_at env items len _ 2 _ _ ⟨w, h, some pal, false, []⟩
    (u32be (w * h)) body hl hreach rfl hrest rfl rfl (by simp) rfl hne

/-- The round-up of a length is never odd. -/
theorem roundUpEven_even (length : Nat) : roundUpEven length % 2 = 0 := by
  unfold roundUpEven
  split <;> omega

/-- An uncompressed image with an odd number of pixels is rejected with return code 222
whatever length its "BODY" chunk declares: the rounded length is even and cannot be equal
to the odd pixel count. -/
theorem LoadLBM_raw_odd_any_length (env : Env) (items : ArchivInfo)
    (len res pal body : List Byte) (w h L : Nat) (hl : len.length = 4) (hw : w < 2 ^ 16)
    (hh : h < 2 ^ 16) (hres : res.length = 4) (hp : pal.length = 768)
    (hodd : w * h % 2 = 1) :
    ∃ st', LoadLBM env
        (lbmFile len (bhmdChunk w h 0 res ++ (cmapChunk 768 pal ++ bodyChunk L body)))
        items = some (.returned 222, st') ∧
      st'.items = items ∧ ∃ b, st'.bitmap = some b ∧ b.writes = [] := by
  obtain ⟨hreach, hrest⟩ := chunkSteps_pixelsNext env items len res pal
    (bodyChunk L body) w h 0 768 hl hw hh (Or.inl rfl) (Or.inl rfl) hres hp
  have hwh : w * h < 2 ^ 32 := by
    calc w * h < 2 ^ 16 * 2 ^ 16 := Nat.mul_lt_mul'' hw hh
      _ = 2 ^ 32 := by norm_num
  have hne : roundUpEven (beNat (u32be L)) ≠ w * h % 2 ^ 32 := by
    have he := roundUpEven_even (beNat (u32be L))
    omega
  exact LoadLBM_raw_mismatch_at env items len _ 2 _ _ ⟨w, h, some pal, false, []⟩
    (u32be L) body hl hreach rfl hrest rfl rfl (by simp) rfl hne

/-- C4: an uncompressed image with an odd number of pixels does not load. The file of
scenario A with width 1, height 1 and one index byte, its "BODY" chunk declaring exactly
one byte, is rejected with return code 222 (SizeMismatch) instead of being decoded: the
declared length 1 is rounded up to 2 before it is compared with the pixel count 1. No
pixel is written and nothing is put into the output collection. -/
theorem LoadLBM_raw_1x1_rejected :
    ∃ st', LoadLBM Env.zero
        (lbmFile [0, 0, 0, 0] (bhmdChunk 1 1 0 [0, 0, 0, 0] ++
          (cmapChunk 768 zeroPalette ++ bodyChunk (1 * 1) [9]))) [] =
        some (.returned 222, st') ∧
      st'.items = [] ∧ ∃ b, st'.bitmap = some b ∧ b.writes = [] :=
  LoadLBM_raw_odd_area Env.zero [] [0, 0, 0, 0] [0, 0, 0, 0] zeroPalette [9] 1 1 rfl
    (by decide) (by decide) rfl zeroPalette_length (by decide)

/-- Write number `j` of a row-major layout puts byte number `j` at its place. -/
theorem gridWrites_getElem? (w : Nat) (bs : List Byte) :
    ∀ i j : Nat, (gridWrites w i bs)[j]? =
      (bs[j]?).map (fun b => ((i + j) % w, (i + j) / w, b)) := by
  induction bs with
  | nil => intro i j; simp [gridWrites]
  | cons b bs ih =>
    intro i j
    cases j with
    | zero => simp [gridWrites]
    | succ j =>
      simp only [gridWrites, List.getElem?_cons_succ, ih (i + 1) j]
      rw [show i + 1 + j = i + (j + 1) by omega]

/-- In the row-major layout of `w * h` bytes the write number `y * w + x` puts byte number
`y * w + x` at column `x` of row `y`. -/
theorem gridWrites_at (w : Nat) (bs : List Byte) (x y : Nat) (hx : x < w) :
    (gridWrites w 0 bs)[y * w + x]? = (bs[y * w + x]?).map (fun b => (x, y, b)) := by
  have hx1 : (y * w + x) % w = x := by
    rw [Nat.add_comm, Nat.add_mul_mod_self_right]
    exact Nat.mod_eq_of_lt hx
  have hx2 : (y * w + x) / w = y := by
    rw [Nat.add_comm, Nat.add_mul_div_right _ _ (by omega : 0 < w), Nat.div_eq_of_lt hx]
    omega
  rw [gridWrites_getElem?, Nat.zero_add, hx1, hx2]

/-- The uncompressed round trip for an even number of pixels: for every width and height
in 0..65535 whose product is even, every 768-byte palette and every sequence of `w * h`
index bytes, the uncompressed file of scenario A is decoded with return code 0 to an image
of that width, height and palette that received exactly `w * h` writes, write number
`y * w + x` putting index byte number `y * w + x` at `(x, y)`. -/
theorem LoadLBM_raw_even (env : Env) (items : ArchivInfo) (len res pal body : List Byte)
    (w h : Nat) (hl : len.length = 4) (hw : w < 2 ^ 16) (hh : h < 2 ^ 16)
    (hres : res.length = 4) (hp : pal.length = 768) (heven : w * h % 2 = 0)
    (hbody : body.length = w * h) :
    ∃ st' img, LoadLBM env
        (lbmFile len (bhmdChunk w h 0 res ++ (cmapChunk 768 pal ++ bodyChunk (w * h) body)))
        items = some (.returned 0, st') ∧
      st'.items = items.set0 img ∧ img.width = w ∧ img.height = h ∧
      img.palette = some pal ∧ img.writes.length = w * h ∧
      ∀ x y : Nat, x < w → y < h →
        img.writes[y * w + x]? = (body[y * w + x]?).map (fun b => (x, y, b)) := by
  have hwh : w * h < 2 ^ 32 := by
    calc w * h < 2 ^ 16 * 2 ^ 16 := Nat.mul_lt_mul'' hw hh
      _ = 2 ^ 32 := by norm_num
  have hround : roundUpEven (w * h) = w * h := by
    unfold roundUpEven
    rw [if_neg (by omega)]
  obtain ⟨st', h1, h2, -⟩ := LoadLBM_raw_ok env items len res pal body w h 768 (w * h) hl hw hh
    (Or.inl rfl) hres hp hwh hround hbody
  have hlen : ∀ (bs : List Byte) (i : Nat), (gridWrites w i bs).length = bs.length := by
    intro bs
    induction bs with
    | nil => intro i; rfl
    | cons b bs ih => intro i; simp [gridWrites, ih]
  exact ⟨st', ⟨w, h, some pal, true, gridWrites w 0 body⟩, h1, h2, rfl, rfl, rfl,
    (hlen body 0).trans hbody, fun x y hx _ => gridWrites_at w body x y hx⟩

/-- Scenario A: the 2x2 image with four index bytes. -/
theorem LoadLBM_raw_even_witness :
    ∃ st' img, LoadLBM Env.zero
        (lbmFile [0, 0, 0, 0] (bhmdChunk 2 2 0 [0, 0, 0, 0] ++
          (cmapChunk 768 zeroPalette ++ bodyChunk (2 * 2) [1, 2, 3, 4]))) [] =
        some (.returned 0, st') ∧
      st'.items = ArchivInfo.set0 [] img ∧ img.width = 2 ∧ img.height = 2 ∧
      img.palette = some zeroPalette ∧ img.writes.length = 2 * 2 ∧
      ∀ x y : Nat, x < 2 → y < 2 →
        img.writes[y * 2 + x]? = (([1, 2, 3, 4] : List Byte)[y * 2 + x]?).map
          (fun b => (x, y, b)) :=
  LoadLBM_raw_even Env.zero [] [0, 0, 0, 0] [0, 0, 0, 0] zeroPalette [1, 2, 3, 4] 2 2 rfl
    (by decide) (by decide) rfl zeroPalette_length (by decide) rfl

/-- C9: when the chunk loop reaches a "BODY" chunk and no "CMAP" chunk was handled before
it, the loader returns 20 (MissingPalette), whatever follows the tag and whatever the
compression mode; the image item has received no pixel and the output collection is as the
caller passed it. -/
theorem LoadLBM_missing_palette (env : Env) (items : ArchivInfo) (len chunks : List Byte)
    (k : Nat) (tags : List Nat) (st : LbmState) (R : List Byte) (hl : len.length = 4)
    (hreach : chunkSteps env k (loopStart env (lbmFile len chunks) items (beNat len)) =
      some (tags, st))
    (hnc : beNat tagCMAP ∉ tags) (hg : st.lbm.state = .good)
    (hr : st.lbm.rest = tagBODY ++ R) :
    ∃ st', LoadLBM env (lbmFile len chunks) items = some (.returned 20, st') ∧
      st'.items = items ∧ ∃ b, st'.bitmap = some b ∧ b.writes = [] := by
  obtain ⟨hi, bmp, hb, hw, hp⟩ :=
    chunkSteps_holds env items false k _ _ _ hreach hnc (loopStart_holds env _ items _ false)
  rw [LoadLBM_reaches env items len chunks hl k tags st hreach,
    chunkLoop_tag env _ st tagBODY _ hg hr rfl, handleChunk_BODY]
  unfold chunkBODY
  dsimp only
  rw [hb]
  dsimp only
  rw [if_pos (hp rfl)]
  exact ⟨_, rfl, hi, bmp, rfl, hw⟩

/-- The witness of C9: a "BODY" chunk right behind the file header. -/
theorem LoadLBM_missing_palette_witness :
    ∃ st', LoadLBM Env.zero (lbmFile [0, 0, 0, 0] (tagBODY ++ [0, 0, 0, 2, 7, 7])) [] =
        some (.returned 20, st') ∧
      st'.items = [] ∧ ∃ b, st'.bitmap = some b ∧ b.writes = [] :=
  LoadLBM_missing_palette Env.zero [] [0, 0, 0, 0] _ 0 [] _ [0, 0, 0, 2, 7, 7] rfl rfl
    (by simp) rfl rfl

/-! ## Theorems: the run-length decoder -/

theorem dec32_pos (n : Nat) (h0 : 0 < n) (h : n < 2 ^ 32) : dec32 n = n - 1 := by
  unfold dec32
  omega

/-- Column and row of the pixel after pixel `i` in rows of `w` pixels. -/
theorem succ_mod_div (i w : Nat) (hw : 0 < w) :
    (i % w + 1 ≥ w → (i + 1) % w = 0 ∧ (i + 1) / w = i / w + 1) ∧
    (¬ i % w + 1 ≥ w → (i + 1) % w = i % w + 1 ∧ (i + 1) / w = i / w) := by
  have hlt := Nat.mod_lt i hw
  have hd := Nat.div_add_mod i w
  constructor
  · intro h
    have hm : i % w + 1 = w := by omega
    have he : i + 1 = w * (i / w + 1) := by rw [Nat.mul_add, Nat.mul_one]; omega
    rw [he]
    exact ⟨Nat.mul_mod_right _ _, Nat.mul_div_cancel_left _ hw⟩
  · intro h
    have he : i + 1 = (i % w + 1) + w * (i / w) := by omega
    rw [he]
    constructor
    · rw [Nat.add_mul_mod_self_left]
      exact Nat.mod_eq_of_lt (by omega)
    · rw [Nat.add_mul_div_left _ _ hw, Nat.div_eq_of_lt (by omega)]
      omega

/-- Writing pixel number `i` and stepping to pixel number `i + 1`. -/
theorem rlePut_ok (w i : Nat) (st : RleState) (c : Byte) (hw : 0 < w) (hw16 : w < 2 ^ 16)
    (hx : st.x = i % w) (hy : st.y = i / w) (hyb : (i + 1) / w < 2 ^ 16) :
    rlePut w st c =
      { st with bmp := st.bmp.tex_setPixel (i % w) (i / w) c,
                x := (i + 1) % w, y := (i + 1) / w } := by
  have hlt := Nat.mod_lt i hw
  obtain ⟨h1, h2⟩ := succ_mod_div i w hw
  have hx1 : (st.x + 1) % 2 ^ 16 = i % w + 1 := by rw [hx]; omega
  unfold rlePut
  dsimp only
  rw [hx1]
  by_cases h : i % w + 1 ≥ w
  · obtain ⟨h3, h4⟩ := h1 h
    have hy1 : (st.y + 1) % 2 ^ 16 = (i + 1) / w := by rw [hy, h4]; omega
    rw [if_pos h, hy1, h3, hx, hy]
  · obtain ⟨h3, h4⟩ := h2 h
    rw [if_neg h, h3, h4, hx, ← hy]

/-- A repeat run writes its copies in row-major order. -/
theorem rleRepeat_ok (w : Nat) (v : Byte) (hw : 0 < w) (hw16 : w < 2 ^ 16) (n : Nat) :
    ∀ (i : Nat) (st : RleState), st.x = i % w → st.y = i / w → (i + n) / w < 2 ^ 16 →
      rleRepeat w v n st =
        { st with bmp := { st.bmp with
                    writes := st.bmp.writes ++ gridWrites w i (List.replicate n v) },
                  x := (i + n) % w, y := (i + n) / w } := by
  induction n with
  | zero =>
    intro i st hx hy _
    simp only [rleRepeat, List.replicate, gridWrites, List.append_nil, Nat.add_zero, ← hx, ← hy]
  | succ n ih =>
    intro i st hx hy hyb
    have hyb1 : (i + 1) / w < 2 ^ 16 :=
      Nat.lt_of_le_of_lt (Nat.div_le_div_right (by omega)) hyb
    unfold rleRepeat
    rw [rlePut_ok w i st v hw hw16 hx hy hyb1,
      ih (i + 1) _ rfl rfl (by rw [show i + 1 + n = i + (n + 1) by omega]; exact hyb)]
    simp only [Bitmap.tex_setPixel, List.replicate, gridWrites, List.append_assoc,
      List.singleton_append, show i + 1 + n = i + (n + 1) by omega]

/-- A literal run whose bytes are there, within the length budget, writes them in
row-major order. -/
theorem rleLiteral_ok (junk : Nat → Nat) (w : Nat) (hw : 0 < w) (hw16 : w < 2 ^ 16) (n : Nat) :
    ∀ (i : Nat) (st : RleState) (bs R : List Byte), st.lbm.state = .good →
      st.lbm.rest = bs ++ R → bs.length = n → n ≤ st.length → st.length < 2 ^ 32 →
      st.x = i % w → st.y = i / w → (i + n) / w < 2 ^ 16 →
      rleLiteral junk w n st =
        { lbm := st.lbm.skip n,
          bmp := { st.bmp with writes := st.bmp.writes ++ gridWrites w i bs },
          length := st.length - n, x := (i + n) % w, y := (i + n) / w } := by
  induction n with
  | zero =>
    intro i st bs R _ _ hl _ _ hx hy _
    have : bs = [] := List.eq_nil_of_length_eq_zero hl
    subst this
    simp only [rleLiteral, gridWrites, List.append_nil, Nat.add_zero, ← hx, ← hy, Nat.sub_zero]
    rfl
  | succ n ih =>
    intro i st bs R hg hr hl hn hlt hx hy hyb
    match bs, hl with
    | b :: bs, hl =>
      have hyb1 : (i + 1) / w < 2 ^ 16 :=
        Nat.lt_of_le_of_lt (Nat.div_le_div_right (by omega)) hyb
      have e := IStream.readByte_skip st.lbm junk b (bs ++ R) hg hr
      have r1 := IStream.rest_skip st.lbm 1 [b] (bs ++ R) hr rfl
      have hd := dec32_pos st.length (by omega) hlt
      unfold rleLiteral
      dsimp only
      rw [e]
      dsimp only
      rw [rlePut_ok w i { st with lbm := st.lbm.skip 1, length := dec32 st.length } b hw hw16
          hx hy hyb1,
        ih (i + 1)
          { lbm := st.lbm.skip 1, bmp := st.bmp.tex_setPixel (i % w) (i / w) b,
            length := dec32 st.length, x := (i + 1) % w, y := (i + 1) / w }
          bs R hg r1 (by simpa using hl) (by dsimp only; omega)
          (by dsimp only; omega) rfl rfl
          (by rw [show i + 1 + n = i + (n + 1) by omega]; exact hyb)]
      simp only [Bitmap.tex_setPixel, gridWrites, List.append_assoc, List.singleton_append,
        IStream.skip_skip, show i + 1 + n = i + (n + 1) by omega, hd,
        show st.length - 1 - n = st.length - (n + 1) by omega, Nat.add_comm 1 n]

theorem toSigned_literal (m : Nat) (h1 : 2 ≤ m) (h2 : m ≤ 128) :
    toSigned (Fin.ofNat (m - 1)) = (m : Int) - 1 := by
  have hv : (Fin.ofNat (m - 1) : Byte).val = m - 1 := by
    simp only [Fin.ofNat, Fin.val_mk]
    omega
  unfold toSigned
  rw [hv, if_pos (by omega)]
  omega

theorem toSigned_replicate (n : Nat) (h1 : 1 ≤ n) (h2 : n ≤ 129) :
    toSigned (Fin.ofNat (257 - n)) = 1 - (n : Int) := by
  have hv : (Fin.ofNat (257 - n) : Byte).val = (257 - n) % 256 := by
    simp only [Fin.ofNat, Fin.val_mk]
  unfold toSigned
  rw [hv]
  split <;> omega

/-- With the length budget used up the run-length loop is over. -/
theorem rleLoop_done (junk : Nat → Nat) (w fuel : Nat) (st : RleState) (h : st.length = 0) :
    rleLoop junk w fuel st = some st := by
  cases fuel with
  | zero => rw [rleLoop_zero, if_neg (by omega)]
  | succ f => rw [rleLoop_succ, if_neg (by omega)]

theorem eof_of_good (s : IStream) (h : s.state = .good) : s.eof = false := by
  simp [IStream.eof, h]

/-- The run-length loop on the encoding of valid runs, followed by at most one padding
byte and within the length budget, writes the pixels of the runs in row-major order,
starting at pixel number `i`, and consumes exactly the budget. -/
theorem rleLoop_runs (junk : Nat → Nat) (w : Nat) (hw : 0 < w) (hw16 : w < 2 ^ 16)
    (runs : List RleRun) :
    ∀ (fuel i : Nat) (st : RleState) (pad R : List Byte),
      (∀ r ∈ runs, r.Valid) → st.lbm.state = .good →
      st.lbm.rest = encodeRuns runs ++ (pad ++ R) → pad.length ≤ 1 →
      st.length = (encodeRuns runs).length + pad.length → st.length < 2 ^ 32 →
      st.x = i % w → st.y = i / w → (i + (runPixels runs).length) / w < 2 ^ 16 →
      runs.length + pad.length ≤ fuel →
      rleLoop junk w fuel st =
        some { lbm := st.lbm.skip st.length,
               bmp := { st.bmp with
                 writes := st.bmp.writes ++ gridWrites w i (runPixels runs) },
               length := 0,
               x := (i + (runPixels runs).length) % w,
               y := (i + (runPixels runs).length) / w } := by
  induction runs with
  | nil =>
    intro fuel i st pad R _ hg hr hp hlen _ hx hy _ hf
    simp only [encodeRuns, runPixels, List.length_nil, Nat.zero_add, List.nil_append,
      gridWrites, List.append_nil, Nat.add_zero] at hr hlen hf ⊢
    match pad, hp, hlen, hr, hf with
    | [], _, hlen, _, _ =>
      rw [rleLoop_done junk w fuel st hlen]
      cases st
      dsimp only at hlen hx hy ⊢
      subst hlen hx hy
      rfl
    | [p], _, hlen, hr, hf =>
      obtain ⟨f, rfl⟩ : ∃ f, fuel = f + 1 := ⟨fuel - 1, by simp at hf; omega⟩
      have e := IStream.readByte_skip st.lbm junk p R hg hr
      have hl1 : st.length = 1 := hlen
      have hd : dec32 st.length = 0 := by rw [hl1]; norm_num [dec32]
      rw [rleLoop_succ, if_pos ⟨by omega, eof_of_good _ hg⟩, if_pos hd, e]
      dsimp only
      rw [rleLoop_done junk w f ⟨st.lbm.skip 1, st.bmp, dec32 st.length, st.x, st.y⟩ hd,
        hd, hl1, ← hx, ← hy]
  | cons r rs ih =>
    intro fuel i st pad R hv hg hr hp hlen hlt hx hy hyb hf
    obtain ⟨f, rfl⟩ : ∃ f, fuel = f + 1 := ⟨fuel - 1, by simp at hf; omega⟩
    have hvr := hv r (List.mem_cons_self _ _)
    have hvs : ∀ r' ∈ rs, r'.Valid := fun r' h => hv r' (List.mem_cons_of_mem _ h)
    have hf' : rs.length + pad.length ≤ f := by simp at hf; omega
    cases r with
    | literal bs =>
      obtain ⟨hm1, hm2⟩ : 2 ≤ bs.length ∧ bs.length ≤ 128 := hvr
      simp only [encodeRuns, runPixels, RleRun.encode, RleRun.pixels, List.cons_append,
        List.append_assoc, List.length_cons, List.length_append] at hr hlen hyb ⊢
      have e := IStream.readByte_skip st.lbm junk _ _ hg hr
      have r1 := IStream.rest_skip st.lbm 1 [_] _ hr rfl
      have hd := dec32_pos st.length (by omega) hlt
      have hs := toSigned_literal bs.length hm1 hm2
      have hcount : (1 + ((bs.length : Int) - 1)).toNat = bs.length := by omega
      have e2 : rleLiteral junk w bs.length ⟨st.lbm.skip 1, st.bmp, st.length - 1, st.x, st.y⟩ =
          ⟨(st.lbm.skip 1).skip bs.length,
            { st.bmp with writes := st.bmp.writes ++ gridWrites w i bs },
            st.length - 1 - bs.length, (i + bs.length) % w, (i + bs.length) / w⟩ :=
        rleLiteral_ok junk w hw hw16 bs.length i
          ⟨st.lbm.skip 1, st.bmp, st.length - 1, st.x, st.y⟩ bs
          (encodeRuns rs ++ (pad ++ R)) hg r1 rfl (by dsimp only; omega) (by dsimp only; omega)
          hx hy (Nat.lt_of_le_of_lt (Nat.div_le_div_right (by omega)) hyb)
      have r2 := IStream.rest_skip _ bs.length bs _ r1 rfl
      rw [rleLoop_succ, if_pos ⟨by omega, eof_of_good _ hg⟩, if_neg (by omega), e]
      dsimp only
      rw [hs, if_pos (by omega), hcount, hd, e2,
        ih f (i + bs.length)
          ⟨(st.lbm.skip 1).skip bs.length,
            { st.bmp with writes := st.bmp.writes ++ gridWrites w i bs },
            st.length - 1 - bs.length, (i + bs.length) % w, (i + bs.length) / w⟩
          pad R hvs hg r2 hp (by dsimp only; omega)
          (by dsimp only; omega) rfl rfl
          (by rw [Nat.add_assoc]; exact hyb) hf']
      simp only [IStream.skip_skip, gridWrites_append, List.append_assoc, Nat.add_assoc]
      rw [show 1 + (bs.length + (st.length - 1 - bs.length)) = st.length by omega]
    | replicate n v =>
      obtain ⟨hn1, hn2⟩ : 1 ≤ n ∧ n ≤ 129 := hvr
      simp only [encodeRuns, runPixels, RleRun.encode, RleRun.pixels, List.cons_append,
        List.nil_append, List.length_cons, List.length_nil, List.length_append,
        List.length_replicate] at hr hlen hyb ⊢
      have e := IStream.readByte_skip st.lbm junk _ _ hg hr
      have r1 := IStream.rest_skip st.lbm 1 [_] _ hr rfl
      have e1 := IStream.readByte_skip (st.lbm.skip 1) junk v _ hg r1
      have r2 := IStream.rest_skip (st.lbm.skip 1) 1 [v] _ r1 rfl
      have hd := dec32_pos st.length (by omega) hlt
      have hd2 := dec32_pos (st.length - 1) (by omega) (by omega)
      have hs := toSigned_replicate n hn1 hn2
      have hcount : (1 - (1 - (n : Int))).toNat = n := by omega
      have e2 : rleRepeat w v n ⟨(st.lbm.skip 1).skip 1, st.bmp, st.length - 1 - 1, st.x, st.y⟩ =
          ⟨(st.lbm.skip 1).skip 1,
            { st.bmp with writes := st.bmp.writes ++ gridWrites w i (List.replicate n v) },
            st.length - 1 - 1, (i + n) % w, (i + n) / w⟩ :=
        rleRepeat_ok w v hw hw16 n i
          ⟨(st.lbm.skip 1).skip 1, st.bmp, st.length - 1 - 1, st.x, st.y⟩ hx hy
          (Nat.lt_of_le_of_lt (Nat.div_le_div_right (by omega)) hyb)
      rw [rleLoop_succ, if_pos ⟨by omega, eof_of_good _ hg⟩, if_neg (by omega), e]
      dsimp only
      rw [hs, if_neg (by omega), hcount, e1, hd, hd2, e2,
        ih f (i + n)
          ⟨(st.lbm.skip 1).skip 1,
            { st.bmp with writes := st.bmp.writes ++ gridWrites w i (List.replicate n v) },
            st.length - 1 - 1, (i + n) % w, (i + n) / w⟩
          pad R hvs hg r2 hp (by dsimp only; omega)
          (by dsimp only; omega) rfl rfl
          (by rw [Nat.add_assoc]; exact hyb) hf']
      simp only [IStream.skip_skip, gridWrites_append, List.append_assoc, Nat.add_assoc,
        List.length_replicate]
      rw [show 1 + (1 + (st.length - 1 - 1)) = st.length by omega]

theorem encodeRuns_length_ge (runs : List RleRun) : runs.length ≤ (encodeRuns runs).length := by
  induction runs with
  | nil => exact Nat.le_refl _
  | cons r rs ih =>
    cases r <;>
      simp only [encodeRuns, RleRun.encode, List.length_cons, List.length_append,
        List.length_nil] <;> omega

/-- The "BODY" case in compressed mode on the encoding of valid runs, declared with its
length and padded to even: the pixels of the runs are written in row-major order, the
cursor ends behind the padded payload and the image item goes to the output collection. -/
theorem chunkBODY_rle_ok (env : Env) (st : LbmState) (bmp : Bitmap) (runs : List RleRun)
    (pad R : List Byte) (hg : st.lbm.state = .good)
    (hr : st.lbm.rest = u32be (encodeRuns runs).length ++ (encodeRuns runs ++ (pad ++ R)))
    (hpad : pad.length = (encodeRuns runs).length % 2)
    (hN : (encodeRuns runs).length + pad.length < 2 ^ 32)
    (hb : st.bitmap = some bmp) (hp : bmp.palette ≠ none) (hc : st.compression = 256)
    (hw : 0 < st.width) (hw16 : st.width < 2 ^ 16) (hv : ∀ r ∈ runs, r.Valid)
    (hy : (runPixels runs).length / st.width < 2 ^ 16) :
    chunkBODY env st =
      some (.next { st with
        lbm := (st.lbm.skip 4).skip ((encodeRuns runs).length + pad.length),
        length := 0,
        bitmap := none,
        items := st.items.set0
          { bmp.tex_alloc with
            writes := bmp.writes ++ gridWrites st.width 0 (runPixels runs) } }) := by
  have hNlt : (encodeRuns runs).length < 2 ^ 32 := by omega
  have e1 := IStream.readBE_skip st.lbm env.junk 4 (u32be (encodeRuns runs).length) _ hg hr rfl
  have r1 := IStream.rest_skip st.lbm 4 (u32be (encodeRuns runs).length) _ hr rfl
  have hround : roundUpEven (beNat (u32be (encodeRuns runs).length)) =
      (encodeRuns runs).length + pad.length := by
    rw [beNat_u32be _ hNlt]
    unfold roundUpEven
    split <;> omega
  have hfuel : runs.length + pad.length ≤ (st.lbm.skip 4).rest.length + 1 := by
    have h := encodeRuns_length_ge runs
    rw [r1]
    simp only [List.length_append]
    omega
  have e2 := rleLoop_runs env.junk st.width hw hw16 runs ((st.lbm.skip 4).rest.length + 1) 0
    ⟨st.lbm.skip 4, bmp.tex_alloc, (encodeRuns runs).length + pad.length, 0, 0⟩ pad R hv hg r1
    (by omega) rfl hN (Nat.zero_mod _).symm (Nat.zero_div _).symm
    (by rw [Nat.zero_add]; exact hy) hfuel
  unfold chunkBODY
  dsimp only
  rw [e1]
  dsimp only
  rw [hb]
  dsimp only
  rw [if_neg hp, if_neg (by rw [hc]; decide), if_pos hc, hround, e2]
  rfl

/-- C5: for a width `w > 0`, a height `h` and a sequence of valid runs with exactly `w * h`
pixels, the file whose compressed "BODY" chunk declares the number of encoded bytes and
holds the concatenated encoding, padded to even, is decoded with return code 0, and the
image in the output collection has received exactly the pixels of the runs in row-major
order. The encoding with its padding is shorter than `2^32` bytes, so that the 32-bit
length can hold its rounded size. -/
theorem LoadLBM_rle_roundtrip (env : Env) (items : ArchivInfo) (len res pal pad : List Byte)
    (runs : List RleRun) (w h : Nat) (hl : len.length = 4) (hres : res.length = 4)
    (hp : pal.length = 768) (hw0 : 0 < w) (hw : w < 2 ^ 16) (hh : h < 2 ^ 16)
    (hv : ∀ r ∈ runs, r.Valid) (htotal : (runPixels runs).length = w * h)
    (hpad : pad.length = (encodeRuns runs).length % 2)
    (hN : (encodeRuns runs).length + pad.length < 2 ^ 32) :
    ∃ st', LoadLBM env
        (lbmFile len (bhmdChunk w h 256 res ++ (cmapChunk 768 pal ++
          bodyChunk (encodeRuns runs).length (encodeRuns runs ++ pad)))) items =
        some (.returned 0, st') ∧
      st'.items = items.set0 ⟨w, h, some pal, true, gridWrites w 0 (runPixels runs)⟩ := by
  obtain ⟨hreach, hrest⟩ := chunkSteps_pixelsNext env items len res pal
    (bodyChunk (encodeRuns runs).length (encodeRuns runs ++ pad))
    w h 256 768 hl hw hh (Or.inr rfl) (Or.inl rfl) hres hp
  have hlen := lbmFile_length len (bhmdChunk w h 256 res ++ (cmapChunk 768 pal ++
    bodyChunk (encodeRuns runs).length (encodeRuns runs ++ pad))) hl
  rw [LoadLBM_reaches env items len _ hl 2 _ _ hreach]
  generalize hfile : lbmFile len (bhmdChunk w h 256 res ++ (cmapChunk 768 pal ++
    bodyChunk (encodeRuns runs).length (encodeRuns runs ++ pad))) = file at hrest hlen ⊢
  have hNf : file.length - 2 = (file.length - 3) + 1 := by
    simp only [List.length_append, bodyChunk, tagBODY, List.length_cons, List.length_nil] at hlen
    omega
  have hr0 : (pixelsNext file items w h 256 pal).lbm.rest =
      tagBODY ++ (u32be (encodeRuns runs).length ++ (encodeRuns runs ++ (pad ++ []))) := by
    rw [hrest]; simp [bodyChunk]
  have r1 := IStream.rest_skip _ 4 tagBODY _ hr0 rfl
  have s3 : chunkBODY env
      { pixelsNext file items w h 256 pal with
        lbm := (pixelsNext file items w h 256 pal).lbm.skip 4 } =
      some (.next ⟨(((pixelsNext file items w h 256 pal).lbm.skip 4).skip 4).skip
          ((encodeRuns runs).length + pad.length), none,
        items.set0 ⟨w, h, some pal, true, gridWrites w 0 (runPixels runs)⟩, 0, w, h, 256⟩) :=
    chunkBODY_rle_ok env
      { pixelsNext file items w h 256 pal with
        lbm := (pixelsNext file items w h 256 pal).lbm.skip 4 }
      ⟨w, h, some pal, false, []⟩ runs pad [] rfl r1 hpad hN rfl (by simp) rfl hw0 hw hv
      (by
        show (runPixels runs).length / w < 2 ^ 16
        rw [htotal, Nat.mul_div_cancel_left _ hw0]; exact hh)
  have r2 : ((((pixelsNext file items w h 256 pal).lbm.skip 4).skip 4).skip
      ((encodeRuns runs).length + pad.length)).rest = [] := by
    have h4 := IStream.rest_skip _ 4 (u32be (encodeRuns runs).length) _ r1 rfl
    rw [← List.append_assoc] at h4
    exact IStream.rest_skip _ _ (encodeRuns runs ++ pad) [] h4 (by simp)
  rw [chunkLoop_tag env _ _ tagBODY _ rfl hr0 rfl, handleChunk_BODY, s3]
  dsimp only
  rw [hNf, chunkLoop_end env _
    ⟨(((pixelsNext file items w h 256 pal).lbm.skip 4).skip 4).skip
        ((encodeRuns runs).length + pad.length), none,
      items.set0 ⟨w, h, some pal, true, gridWrites w 0 (runPixels runs)⟩, 0, w, h, 256⟩
    rfl (by rw [r2]; decide)]
  exact ⟨_, rfl, rfl⟩

/-- The witness of C5 (scenario B): the 2x2 image with "BODY" payload 03 05 05 05 05 and a
padding byte decodes to four pixels of value 5. -/
theorem LoadLBM_rle_roundtrip_witness :
    ∃ st', LoadLBM Env.zero
        (lbmFile [0, 0, 0, 0] (bhmdChunk 2 2 256 [0, 0, 0, 0] ++ (cmapChunk 768 zeroPalette ++
          bodyChunk 5 ([3, 5, 5, 5, 5] ++ [0])))) [] =
        some (.returned 0, st') ∧
      st'.items =
        [some ⟨2, 2, some zeroPalette, true, [(0, 0, 5), (1, 0, 5), (0, 1, 5), (1, 1, 5)]⟩] :=
  LoadLBM_rle_roundtrip Env.zero [] [0, 0, 0, 0] [0, 0, 0, 0] zeroPalette [0]
    [RleRun.literal [5, 5, 5, 5]] 2 2 rfl rfl zeroPalette_length (by decide) (by decide)
    (by decide) (by simp [RleRun.Valid]) rfl rfl (by decide)

/-! ## Theorems: the handle after `release()` -/

/-- With the handle emptied the "BHMD" case makes its member call through it, right after
reading length, width and height. -/
theorem chunkBHMD_released (env : Env) (st : LbmState) (hb : st.bitmap = none) :
    ∃ st', chunkBHMD env st = .stop .nullDeref st' ∧ st'.items = st.items := by
  unfold chunkBHMD
  dsimp only
  rw [hb]
  exact ⟨_, rfl, rfl⟩

/-- With the handle emptied the "BODY" case makes its member call through it, right after
reading the length. -/
theorem chunkBODY_released (env : Env) (st : LbmState) (hb : st.bitmap = none) :
    ∃ st', chunkBODY env st = some (.stop .nullDeref st') ∧ st'.items = st.items := by
  unfold chunkBODY
  dsimp only
  rw [hb]
  exact ⟨_, rfl, rfl⟩

/-! ## Theorems: the loops end within their bounds -/

/-- A cursor that is good after an extraction was good before it and has moved by the size
of the extraction. -/
theorem IStream.readRaw_good (s : IStream) (n : Nat) (h : (s.readRaw n).2.state = .good) :
    s.state = .good ∧ (s.readRaw n).2.rest.length + n ≤ s.rest.length := by
  have hf : (s.readRaw n).2.fail = false := by simp [IStream.fail, h]
  obtain ⟨h1, h2, h3⟩ := IStream.readRaw_of_not_fail s n hf
  refine ⟨h1, ?_⟩
  rw [h3]
  simp only [IStream.skip_rest, List.length_drop]
  omega

theorem IStream.readByte_good (s : IStream) (junk : Nat → Nat)
    (h : (s.readByte junk).2.state = .good) :
    s.state = .good ∧ (s.readByte junk).2.rest.length + 1 ≤ s.rest.length := by
  rw [IStream.readByte_snd] at h ⊢
  exact IStream.readRaw_good s 1 h

theorem rleLiteral_good (junk : Nat → Nat) (width n : Nat) :
    ∀ st : RleState, (rleLiteral junk width n st).lbm.state = .good → st.lbm.state = .good := by
  induction n with
  | zero => intro st h; exact h
  | succ n ih =>
    intro st h
    unfold rleLiteral at h
    have h1 := ih _ h
    rw [rlePut_lbm] at h1
    exact (IStream.readByte_good _ _ h1).1

/-- The run-length loop comes to its end within as many passes as there are bytes left,
and one more. -/
theorem rleLoop_isSome (junk : Nat → Nat) (width fuel : Nat) :
    ∀ st : RleState, (st.lbm.state = .good → st.lbm.rest.length < fuel) →
      (rleLoop junk width fuel st).isSome = true := by
  induction fuel with
  | zero =>
    intro st h
    rw [rleLoop_zero]
    split
    · rename_i hc
      have hg : st.lbm.state = .good := by
        have := hc.2
        simp only [IStream.eof, bne_eq_false_iff_eq] at this
        exact this
      exact absurd (h hg) (Nat.not_lt_zero _)
    · rfl
  | succ f ih =>
    intro st h
    rw [rleLoop_succ]
    split
    · rename_i hc
      have hg : st.lbm.state = .good := by
        have := hc.2
        simp only [IStream.eof, bne_eq_false_iff_eq] at this
        exact this
      have hlt := h hg
      split
      · apply ih
        intro hg1
        have := (IStream.readByte_good _ _ hg1).2
        show (st.lbm.readByte junk).2.rest.length < f
        omega
      · split
        · apply ih
          intro hg2
          have hg1 := rleLiteral_good _ _ _ _ hg2
          have h1 := (IStream.readByte_good st.lbm junk hg1).2
          have h2 := rleLiteral_rest_le junk width
            (1 + toSigned (st.lbm.readByte junk).1).toNat
            { st with lbm := (st.lbm.readByte junk).2, length := dec32 st.length }
          have h3 : (({ st with lbm := (st.lbm.readByte junk).2, length := dec32 st.length } :
              RleState).lbm).rest.length = (st.lbm.readByte junk).2.rest.length := rfl
          omega
        · apply ih
          intro hg2
          rw [rleRepeat_lbm] at hg2 ⊢
          have hg2' : ((st.lbm.readByte junk).2.readByte junk).2.state = .good := hg2
          have h2 := IStream.readByte_good _ junk hg2'
          have h1 := (IStream.readByte_good st.lbm junk h2.1).2
          have h3 := h2.2
          show ((st.lbm.readByte junk).2.readByte junk).2.rest.length < f
          omega
    · rfl

theorem handleChunk_isSome (env : Env) (st : LbmState) (chunk : Nat) :
    (handleChunk env st chunk).isSome = true := by
  unfold handleChunk
  split
  · rfl
  · split
    · rfl
    · split
      · unfold chunkBODY
        dsimp only
        split
        · rfl
        · split
          · rfl
          · split
            · split <;> rfl
            · split
              · split
                · rename_i hn
                  have h : (none : Option RleState).isSome = true :=
                    hn ▸ rleLoop_isSome env.junk st.width _ _ (fun _ => Nat.lt_succ_self _)
                  cases h
                · rfl
              · rfl
      · rfl

/-- The chunk loop comes to its end within as many passes as there are bytes left, and one
more. -/
theorem chunkLoop_isSome (env : Env) (fuel : Nat) :
    ∀ st : LbmState, st.lbm.rest.length < fuel → (chunkLoop env fuel st).isSome = true := by
  induction fuel with
  | zero => intro st h; exact absurd h (Nat.not_lt_zero _)
  | succ f ih =>
    intro st h
    rw [chunkLoop_succ]
    split
    · rename_i hf
      have h4 := (IStream.readBE_of_not_fail _ _ _ hf).2
      have hs := handleChunk_isSome env { st with lbm := (st.lbm.readBE env.junk 4).2 }
        (st.lbm.readBE env.junk 4).1
      split
      · rename_i hn
        rw [hn] at hs
        cases hs
      · rfl
      · rename_i st1 hh
        have h5 := handleChunk_rest_le _ _ _ _ hh
        apply ih
        dsimp only [Step.state] at h5
        omega
    · split <;> rfl

/-- The loader is total: on every file, with every output collection and whatever the
indeterminate values are, the run comes to an end within the bounds of its loops. -/
theorem LoadLBM_isSome (env : Env) (file : List Byte) (items : ArchivInfo) :
    (LoadLBM env file items).isSome = true := by
  unfold LoadLBM
  dsimp only
  split
  · rfl
  · split
    · rfl
    · apply chunkLoop_isSome
      show (((IStream.ofBytes file).readChars env.header0).2.readBE env.junk 4).2.readChars
        env.pbm0 |>.2.rest.length < file.length + 1
      rw [IStream.rest_length, IStream.readChars_data, IStream.readBE_snd, IStream.readRaw_data,
        IStream.readChars_data]
      show file.length - _ < file.length + 1
      omega

/-! ## Theorems: the colour word -/

theorem ofChannels_clrValue (a r g b : Byte) :
    (ColorARGB.ofChannels a r g b).clrValue
      = a.val * 2 ^ 24 + r.val * 2 ^ 16 + g.val * 2 ^ 8 + b.val := by
  have ha := a.isLt
  have hr := r.isLt
  have hg := g.isLt
  have hb := b.isLt
  have h1 : g.val <<< 8 ||| b.val = g.val * 2 ^ 8 + b.val := by
    rw [Nat.shiftLeft_eq, Nat.mul_comm, Nat.mul_add_lt_is_or (by omega)]
  have h2 : r.val <<< 16 ||| (g.val * 2 ^ 8 + b.val)
      = r.val * 2 ^ 16 + (g.val * 2 ^ 8 + b.val) := by
    rw [Nat.shiftLeft_eq, Nat.mul_comm, Nat.mul_add_lt_is_or (by omega)]
  have h3 : a.val <<< 24 ||| (r.val * 2 ^ 16 + (g.val * 2 ^ 8 + b.val))
      = a.val * 2 ^ 24 + (r.val * 2 ^ 16 + (g.val * 2 ^ 8 + b.val)) := by
    rw [Nat.shiftLeft_eq, Nat.mul_comm, Nat.mul_add_lt_is_or (by omega)]
  show (a.val <<< 24 ||| r.val <<< 16 ||| g.val <<< 8 ||| b.val) % 2 ^ 32 = _
  rw [Nat.lor_assoc, Nat.lor_assoc, h1, h2, h3]
  omega

theorem byte_ofNat_eq (n : Nat) (v : Byte) (h : n % 256 = v.val) :
    (Fin.ofNat n : Byte) = v := by
  apply Fin.ext
  show n % 256 = v.val
  exact h

theorem ofChannels_getters (a r g b : Byte) :
    (ColorARGB.ofChannels a r g b).getAlpha = a
      ∧ (ColorARGB.ofChannels a r g b).getRed = r
      ∧ (ColorARGB.ofChannels a r g b).getGreen = g
      ∧ (ColorARGB.ofChannels a r g b).getBlue = b := by
  have ha := a.isLt
  have hr := r.isLt
  have hg := g.isLt
  have hb := b.isLt
  have hv := ofChannels_clrValue a r g b
  refine ⟨?_, ?_, ?_, ?_⟩
  · apply byte_ofNat_eq
    rw [hv, Nat.shiftRight_eq_div_pow]
    omega
  · apply byte_ofNat_eq
    rw [hv, Nat.shiftRight_eq_div_pow]
    omega
  · apply byte_ofNat_eq
    rw [hv, Nat.shiftRight_eq_div_pow]
    omega
  · apply byte_ofNat_eq
    rw [hv]
    omega

theorem clrValue_of_getters (c : ColorARGB) (h : c.clrValue < 2 ^ 32) :
    c.clrValue = c.getAlpha.val * 2 ^ 24 + c.getRed.val * 2 ^ 16
      + c.getGreen.val * 2 ^ 8 + c.getBlue.val := by
  show c.clrValue = (c.clrValue >>> 24) % 256 * 2 ^ 24 + (c.clrValue >>> 16) % 256 * 2 ^ 16
      + (c.clrValue >>> 8) % 256 * 2 ^ 8 + c.clrValue % 256
  simp only [Nat.shiftRight_eq_div_pow]
  omega

theorem logicalAnd_cases (x y : Nat) : logicalAnd x y = 0 ∨ logicalAnd x y = 1 := by
  unfold logicalAnd
  split
  · exact Or.inr rfl
  · exact Or.inl rfl

theorem lor_shiftLeft_small (t v k : Nat) (ht : t < 2 ^ k) :
    t ||| v <<< k = v * 2 ^ k + t := by
  rw [Nat.lor_comm, Nat.shiftLeft_eq, Nat.mul_comm, Nat.mul_add_lt_is_or ht]

/-- What `setAlpha` leaves in the word: the alpha byte on top of the truth value of
`clrValue && 0x00FFFFFF`. -/
theorem setAlpha_getters (c : ColorARGB) (val : Byte) :
    (c.setAlpha val).getAlpha = val ∧ (c.setAlpha val).getRed = 0
      ∧ (c.setAlpha val).getGreen = 0
      ∧ (c.setAlpha val).getBlue = Fin.ofNat (logicalAnd c.clrValue 0x00FFFFFF) := by
  have hv := val.isLt
  have ht := logicalAnd_cases c.clrValue 0x00FFFFFF
  have hlt : logicalAnd c.clrValue 0x00FFFFFF < 2 ^ 24 := by
    rcases ht with h | h <;> rw [h] <;> norm_num
  have hw : (c.setAlpha val).clrValue
      = (val.val * 2 ^ 24 + logicalAnd c.clrValue 0x00FFFFFF) % 2 ^ 32 := by
    show (logicalAnd c.clrValue 0x00FFFFFF ||| val.val <<< 24) % 2 ^ 32 = _
    rw [lor_shiftLeft_small _ _ _ hlt]
  refine ⟨?_, ?_, ?_, ?_⟩
  · apply byte_ofNat_eq
    rw [hw, Nat.shiftRight_eq_div_pow]
    omega
  · apply byte_ofNat_eq
    rw [hw, Nat.shiftRight_eq_div_pow]
    show _ = 0
    omega
  · apply byte_ofNat_eq
    rw [hw, Nat.shiftRight_eq_div_pow]
    show _ = 0
    omega
  · apply byte_ofNat_eq
    rw [hw]
    show _ = logicalAnd c.clrValue 0x00FFFFFF % 256
    omega

/-- What the constructor from a `ColorRGB` stores: the green byte twice. -/
theorem ofRGB_getters (clrRGB : ColorRGB) :
    (ColorARGB.ofRGB clrRGB).getAlpha = 0xFF ∧ (ColorARGB.ofRGB clrRGB).getRed = clrRGB.r
      ∧ (ColorARGB.ofRGB clrRGB).getGreen = clrRGB.g
      ∧ (ColorARGB.ofRGB clrRGB).getBlue = clrRGB.g :=
  ofChannels_getters 0xFF clrRGB.r clrRGB.g clrRGB.g

/-- The bytes the two writers store, for every colour built from four channels: the
big-endian writer stores a, r, g, b and the little-endian writer stores b, g, r, a. -/
theorem ofChannels_bytes (a r g b : Byte) :
    (ColorARGB.ofChannels a r g b).toRGBA = [a, r, g, b]
      ∧ (ColorARGB.ofChannels a r g b).toABGR = [b, g, r, a] := by
  obtain ⟨h1, h2, h3, h4⟩ := ofChannels_getters a r g b
  unfold ColorARGB.getAlpha at h1
  unfold ColorARGB.getRed at h2
  unfold ColorARGB.getGreen at h3
  unfold ColorARGB.getBlue at h4
  constructor
  · show [_, _, _, _] = _
    rw [h1, h2, h3, h4]
  · show [_, _, _, _] = _
    rw [h1, h2, h3, h4]

/-- The colours the two readers build from four bytes in memory order. -/
theorem fromBytes_ofChannels (x0 x1 x2 x3 : Byte) :
    ColorARGB.fromRGBA [x0, x1, x2, x3] = ColorARGB.ofChannels x0 x1 x2 x3
      ∧ ColorARGB.fromABGR [x0, x1, x2, x3] = ColorARGB.ofChannels x3 x2 x1 x0 := by
  have h0 := x0.isLt
  have h1 := x1.isLt
  have h2 := x2.isLt
  have h3 := x3.isLt
  constructor
  · have hv := ofChannels_clrValue x0 x1 x2 x3
    show ColorARGB.mk _ = ColorARGB.mk _
    congr 1
    rw [show (ColorARGB.ofChannels x0 x1 x2 x3).clrValue
          = (x0.val <<< 24 ||| x1.val <<< 16 ||| x2.val <<< 8 ||| x3.val) % 2 ^ 32 from rfl] at hv
    rw [hv]
    simp only [big_to_native, beNat, List.take, List.foldl]
    omega
  · have hv := ofChannels_clrValue x3 x2 x1 x0
    show ColorARGB.mk _ = ColorARGB.mk _
    congr 1
    rw [show (ColorARGB.ofChannels x3 x2 x1 x0).clrValue
          = (x3.val <<< 24 ||| x2.val <<< 16 ||| x1.val <<< 8 ||| x0.val) % 2 ^ 32 from rfl] at hv
    rw [hv]
    simp only [little_to_native, beNat, List.take, List.reverse_cons, List.reverse_nil,
      List.nil_append, List.cons_append, List.foldl]
    omega

/-- C15: the byte layout the code produces is not the documented one. For the colour
with channels a = 1, r = 2, g = 3, b = 4, `toRGBA` stores 1, 2, 3, 4 (a, r, g, b; the
documented order r, g, b, a would be 2, 3, 4, 1) and `toABGR` stores 4, 3, 2, 1
(b, g, r, a; documented a, b, g, r would be 1, 4, 3, 2); `fromRGBA` on the bytes
2, 3, 4, 1 and `fromABGR` on the bytes 1, 4, 3, 2 both give alpha 2, red 3, green 4,
blue 1 instead of 1, 2, 3, 4. -/
theorem ColorARGB_byte_layout_differs :
    (ColorARGB.ofChannels 1 2 3 4).toRGBA = [1, 2, 3, 4]
      ∧ (ColorARGB.ofChannels 1 2 3 4).toABGR = [4, 3, 2, 1]
      ∧ (ColorARGB.fromRGBA [2, 3, 4, 1]).getAlpha = 2
      ∧ (ColorARGB.fromRGBA [2, 3, 4, 1]).getRed = 3
      ∧ (ColorARGB.fromRGBA [2, 3, 4, 1]).getGreen = 4
      ∧ (ColorARGB.fromRGBA [2, 3, 4, 1]).getBlue = 1
      ∧ (ColorARGB.fromABGR [1, 4, 3, 2]).getAlpha = 2
      ∧ (ColorARGB.fromABGR [1, 4, 3, 2]).getRed = 3
      ∧ (ColorARGB.fromABGR [1, 4, 3, 2]).getGreen = 4
      ∧ (ColorARGB.fromABGR [1, 4, 3, 2]).getBlue = 1 := by
  decide

/-- C18: the setters do not leave the other channels alone. On the colour with channels
a = 0xFF, r = 0x10, g = 0x20, b = 0x30, `setAlpha(0x80)` leaves red 0, green 0 and
blue 1; `setRed(0x80)` leaves alpha 0, green 0, blue 1; `setGreen(0x80)` leaves alpha 0,
red 0, blue 1; and `setBlue(0x80)` leaves alpha 0, red 0, green 0 and stores 0x81, not
0x80, in its own channel. -/
theorem ColorARGB_setters_clobber :
    ((ColorARGB.ofChannels 0xFF 0x10 0x20 0x30).setAlpha 0x80).getAlpha = 0x80
      ∧ ((ColorARGB.ofChannels 0xFF 0x10 0x20 0x30).setAlpha 0x80).getRed = 0
      ∧ ((ColorARGB.ofChannels 0xFF 0x10 0x20 0x30).setAlpha 0x80).getGreen = 0
      ∧ ((ColorARGB.ofChannels 0xFF 0x10 0x20 0x30).setAlpha 0x80).getBlue = 1
      ∧ (ColorARGB.ofChannels 0xFF 0x10 0x20 0x30).setRed 0x80 = ⟨0x00800001⟩
      ∧ (ColorARGB.ofChannels 0xFF 0x10 0x20 0x30).setGreen 0x80 = ⟨0x00008001⟩
      ∧ (ColorARGB.ofChannels 0xFF 0x10 0x20 0x30).setBlue 0x80 = ⟨0x00000081⟩
      ∧ ((ColorARGB.ofChannels 0xFF 0x10 0x20 0x30).setBlue 0x80).getBlue = 0x81 := by
  decide

/-- C19: the conversion from `ColorRGB` loses the blue channel. For the triple
r = 0x10, g = 0x20, b = 0x30 the constructed colour has alpha 0xFF, red 0x10,
green 0x20 and blue 0x20: the green byte, not the blue byte 0x30. -/
theorem ColorARGB_ofRGB_blue_is_green :
    (ColorARGB.ofRGB ⟨0x10, 0x20, 0x30⟩).getAlpha = 0xFF
      ∧ (ColorARGB.ofRGB ⟨0x10, 0x20, 0x30⟩).getRed = 0x10
      ∧ (ColorARGB.ofRGB ⟨0x10, 0x20, 0x30⟩).getGreen = 0x20
      ∧ (ColorARGB.ofRGB ⟨0x10, 0x20, 0x30⟩).getBlue = 0x20
      ∧ (ColorARGB.ofRGB ⟨0x10, 0x20, 0x30⟩).getBlue ≠ (ColorRGB.mk 0x10 0x20 0x30).b := by
  decide

/-- C20: channel packing round trip. For all bytes a, r, g, b the colour
`ColorARGB(a, r, g, b)` holds the word a*2^24 + r*2^16 + g*2^8 + b (also when
a >= 128) and its four getters return a, r, g, b; and two colours (32-bit words)
compare equal with `operator==` exactly when their four channels are equal, with
`operator!=` the negation. -/
theorem ColorARGB_packing_round_trip (a r g b : Byte) (c rhs : ColorARGB)
    (hc : c.clrValue < 2 ^ 32) (hrhs : rhs.clrValue < 2 ^ 32) :
    (ColorARGB.ofChannels a r g b).clrValue
        = a.val * 2 ^ 24 + r.val * 2 ^ 16 + g.val * 2 ^ 8 + b.val
      ∧ (ColorARGB.ofChannels a r g b).clrValue < 2 ^ 32
      ∧ (ColorARGB.ofChannels a r g b).getAlpha = a
      ∧ (ColorARGB.ofChannels a r g b).getRed = r
      ∧ (ColorARGB.ofChannels a r g b).getGreen = g
      ∧ (ColorARGB.ofChannels a r g b).getBlue = b
      ∧ (c.eq rhs = true ↔ (c.getAlpha = rhs.getAlpha ∧ c.getRed = rhs.getRed
          ∧ c.getGreen = rhs.getGreen ∧ c.getBlue = rhs.getBlue))
      ∧ c.ne rhs = !(c.eq rhs) := by
  obtain ⟨h1, h2, h3, h4⟩ := ofChannels_getters a r g b
  refine ⟨ofChannels_clrValue a r g b, ?_, h1, h2, h3, h4, ?_, rfl⟩
  · exact Nat.mod_lt _ (by norm_num)
  · constructor
    · intro h
      have he : c.clrValue = rhs.clrValue := by
        simpa [ColorARGB.eq] using h
      have hce : c = rhs := by
        cases c
        cases rhs
        simp only at he
        rw [he]
      rw [hce]
      exact ⟨rfl, rfl, rfl, rfl⟩
    · rintro ⟨ea, er, eg, eb⟩
      have e1 := clrValue_of_getters c hc
      have e2 := clrValue_of_getters rhs hrhs
      rw [ea, er, eg, eb] at e1
      have he : c.clrValue = rhs.clrValue := e1.trans e2.symm
      simp [ColorARGB.eq, he]

theorem ColorARGB_packing_round_trip_witness :
    (ColorARGB.ofWord 0x80FF0102).clrValue < 2 ^ 32
      ∧ (ColorARGB.ofChannels 0x80 0xFF 1 2).clrValue < 2 ^ 32
      ∧ (ColorARGB.ofChannels 0x80 0xFF 1 2).clrValue = 0x80 * 2 ^ 24 + 0xFF * 2 ^ 16 + 1 * 2 ^ 8 + 2
      ∧ (ColorARGB.ofChannels 0x80 0xFF 1 2).getAlpha = 0x80
      ∧ ((ColorARGB.ofWord 0x80FF0102).eq (ColorARGB.ofChannels 0x80 0xFF 1 2) = true ↔
          ((ColorARGB.ofWord 0x80FF0102).getAlpha = (ColorARGB.ofChannels 0x80 0xFF 1 2).getAlpha
            ∧ (ColorARGB.ofWord 0x80FF0102).getRed = (ColorARGB.ofChannels 0x80 0xFF 1 2).getRed
            ∧ (ColorARGB.ofWord 0x80FF0102).getGreen
                = (ColorARGB.ofChannels 0x80 0xFF 1 2).getGreen
            ∧ (ColorARGB.ofWord 0x80FF0102).getBlue
                = (ColorARGB.ofChannels 0x80 0xFF 1 2).getBlue)) :=
  have h := ColorARGB_packing_round_trip 0x80 0xFF 1 2 (ColorARGB.ofWord 0x80FF0102)
    (ColorARGB.ofChannels 0x80 0xFF 1 2) (by decide) (by decide)
  ⟨by decide, by decide, h.1, h.2.2.1, h.2.2.2.2.2.2.1⟩

/-! ## Theorems: chunks after the pixel data -/

/-- With the handle emptied the "CMAP" case stops: with 17 when the length does not round
to 768, else in the member call through the handle. -/
theorem chunkCMAP_released (env : Env) (st : LbmState) (hb : st.bitmap = none) :
    ∃ st', (chunkCMAP env st = .stop .nullDeref st' ∧
        roundUpEven (st.lbm.readBE env.junk 4).1 = 768 ∨
      chunkCMAP env st = .stop (.returned 17) st' ∧
        roundUpEven (st.lbm.readBE env.junk 4).1 ≠ 768) ∧ st'.items = st.items := by
  unfold chunkCMAP
  dsimp only
  rw [hb]
  by_cases h : roundUpEven (st.lbm.readBE env.junk 4).1 = 768
  · rw [if_neg (by rw [h]; decide)]
    exact ⟨_, Or.inl ⟨rfl, h⟩, rfl⟩
  · rw [if_pos (by intro e; exact h e)]
    exact ⟨_, Or.inr ⟨rfl, h⟩, rfl⟩

/-- A "BODY" case that ends in `break` has emptied the handle. -/
theorem chunkBODY_next_bitmap (env : Env) (st st' : LbmState)
    (h : chunkBODY env st = some (.next st')) : st'.bitmap = none := by
  unfold chunkBODY at h
  dsimp only at h
  split at h
  · cases h
  · split at h
    · cases h
    · split at h
      · split at h
        · cases h
        · cases h
          rfl
      · split at h
        · split at h
          · cases h
          · cases h
            rfl
        · cases h
          rfl

/-- Once the handle is empty, only the `default` case ends in `break`, and it leaves the
handle empty. -/
theorem handleChunk_released_next (env : Env) (st st' : LbmState) (chunk : Nat)
    (hb : st.bitmap = none) (h : handleChunk env st chunk = some (.next st')) :
    st'.bitmap = none := by
  unfold handleChunk at h
  split at h
  · obtain ⟨s, hs, -⟩ := chunkBHMD_released env st hb
    rw [hs] at h
    cases h
  · split at h
    · obtain ⟨s, hs | hs, -⟩ := chunkCMAP_released env st hb
      · rw [hs.1] at h
        cases h
      · rw [hs.1] at h
        cases h
    · split at h
      · exact chunkBODY_next_bitmap env st st' h
      · have e := Option.some.inj h
        unfold chunkDefault at e
        cases e
        exact hb

theorem chunkSteps_released_keep (env : Env) (k : Nat) :
    ∀ (st st' : LbmState) (tags : List Nat), chunkSteps env k st = some (tags, st') →
      st.bitmap = none → st'.bitmap = none := by
  induction k with
  | zero =>
    intro st st' tags h hb
    unfold chunkSteps at h
    cases h
    exact hb
  | succ k ih =>
    intro st st' tags h hb
    rw [chunkSteps_succ] at h
    split at h
    · split at h
      · rename_i st1 hh
        cases hk : chunkSteps env k st1 with
        | none => rw [hk] at h; cases h
        | some p =>
          rw [hk] at h
          cases h
          exact ih st1 p.2 p.1 hk (handleChunk_released_next env
            { st with lbm := (st.lbm.readBE env.junk 4).2 } st1 _ hb hh)
      · cases h
    · cases h

/-- After a "BODY" chunk has been handled the loader's handle to the image item is empty,
whatever chunks were skipped since. -/
theorem chunkSteps_released (env : Env) (k : Nat) :
    ∀ (st st' : LbmState) (tags : List Nat), chunkSteps env k st = some (tags, st') →
      beNat tagBODY ∈ tags → st'.bitmap = none := by
  induction k with
  | zero =>
    intro st st' tags h hm
    unfold chunkSteps at h
    cases h
    cases hm
  | succ k ih =>
    intro st st' tags h hm
    rw [chunkSteps_succ] at h
    split at h
    · split at h
      · rename_i st1 hh
        cases hk : chunkSteps env k st1 with
        | none => rw [hk] at h; cases h
        | some p =>
          rw [hk] at h
          cases h
          rcases List.mem_cons.mp hm with e | hm'
          · rw [← e, handleChunk_BODY] at hh
            exact chunkSteps_released_keep env k st1 p.2 p.1 hk
              (chunkBODY_next_bitmap env _ st1 hh)
          · exact ih st1 p.2 p.1 hk hm'
      · cases h
    · cases h

/-- C17: a recognised chunk behind the pixel data is not handled safely. When the chunk
loop has handled a "BODY" chunk (the image item is handed over and the loader's handle to
it is empty) and then reads the tag "BHMD", the tag "BODY", or the tag "CMAP" with a
length field that rounds to 768, the loader makes a member call through the empty handle:
the run ends in `nullDeref`, not in success or one of the return codes. -/
theorem LoadLBM_chunk_after_body (env : Env) (items : ArchivInfo) (len chunks : List Byte)
    (k : Nat) (tags : List Nat) (st : LbmState) (tag clen tail : List Byte)
    (hl : len.length = 4)
    (hreach : chunkSteps env k (loopStart env (lbmFile len chunks) items (beNat len)) =
      some (tags, st))
    (hbody : beNat tagBODY ∈ tags) (hg : st.lbm.state = .good)
    (hr : st.lbm.rest = tag ++ (clen ++ tail)) (hcl : clen.length = 4)
    (htag : tag = tagBHMD ∨ tag = tagBODY ∨
      (tag = tagCMAP ∧ roundUpEven (beNat clen) = 768)) :
    ∃ st', LoadLBM env (lbmFile len chunks) items = some (.nullDeref, st') ∧
      st'.items = st.items := by
  have hb := chunkSteps_released env k _ _ _ hreach hbody
  have hb' : ({ st with lbm := st.lbm.skip 4 } : LbmState).bitmap = none := hb
  rw [LoadLBM_reaches env items len chunks hl k tags st hreach]
  rcases htag with e | e | ⟨e, hround⟩
  · subst e
    rw [chunkLoop_tag env _ st tagBHMD _ hg hr rfl, handleChunk_BHMD]
    obtain ⟨s, hs, hi⟩ := chunkBHMD_released env { st with lbm := st.lbm.skip 4 } hb'
    rw [hs]
    exact ⟨s, rfl, hi⟩
  · subst e
    rw [chunkLoop_tag env _ st tagBODY _ hg hr rfl, handleChunk_BODY]
    obtain ⟨s, hs, hi⟩ := chunkBODY_released env { st with lbm := st.lbm.skip 4 } hb'
    rw [hs]
    exact ⟨s, rfl, hi⟩
  · subst e
    rw [chunkLoop_tag env _ st tagCMAP _ hg hr rfl, handleChunk_CMAP]
    obtain ⟨s, hs | hs, hi⟩ := chunkCMAP_released env { st with lbm := st.lbm.skip 4 } hb'
    · rw [hs.1]
      exact ⟨s, rfl, hi⟩
    · exfalso
      apply hs.2
      have e := IStream.readBE_skip (st.lbm.skip 4) env.junk 4 clen tail hg
        (IStream.rest_skip _ 4 tagCMAP _ hr rfl) hcl
      have e' : (({ st with lbm := st.lbm.skip 4 } : LbmState).lbm.readBE env.junk 4).1
          = beNat clen := by
        rw [show ({ st with lbm := st.lbm.skip 4 } : LbmState).lbm = st.lbm.skip 4 from rfl, e]
      rw [e', hround]

theorem chunkSteps_append (env : Env) (k : Nat) :
    ∀ (j : Nat) (st st1 st2 : LbmState) (t1 t2 : List Nat),
      chunkSteps env k st = some (t1, st1) → chunkSteps env j st1 = some (t2, st2) →
      chunkSteps env (k + j) st = some (t1 ++ t2, st2) := by
  induction k with
  | zero =>
    intro j st st1 st2 t1 t2 h1 h2
    unfold chunkSteps at h1
    cases h1
    rw [Nat.zero_add]
    exact h2
  | succ k ih =>
    intro j st st1 st2 t1 t2 h1 h2
    rw [chunkSteps_succ] at h1
    rw [Nat.add_right_comm, chunkSteps_succ]
    split at h1
    · rename_i hf
      rw [if_pos hf]
      split at h1
      · rename_i sa hh
        cases hk : chunkSteps env k sa with
        | none => rw [hk] at h1; cases h1
        | some p =>
          rw [hk] at h1
          cases h1
          rw [ih j sa p.2 st2 p.1 t2 hk h2]
          rfl
      · cases h1
    · cases h1

/-- The chunk loop over a header-info chunk, a palette chunk and an uncompressed "BODY"
chunk that fits the image: three passes, after which the image item is handed over, the
handle is empty and the cursor stands behind the pixel data. -/
theorem chunkSteps_raw_body (env : Env) (items : ArchivInfo) (len res pal body R : List Byte)
    (w h cl L : Nat) (hl : len.length = 4) (hw : w < 2 ^ 16) (hh : h < 2 ^ 16)
    (hcl : cl = 768 ∨ cl = 767) (hres : res.length = 4) (hp : pal.length = 768)
    (hL : L < 2 ^ 32) (hround : roundUpEven L = w * h) (hbody : body.length = w * h) :
    chunkSteps env 3
        (loopStart env
          (lbmFile len (bhmdChunk w h 0 res ++ (cmapChunk cl pal ++ (bodyChunk L body ++ R))))
          items (beNat len)) =
      some ([beNat tagBHMD, beNat tagCMAP, beNat tagBODY],
        ⟨(((IStream.ofBytes
            (lbmFile len (bhmdChunk w h 0 res ++ (cmapChunk cl pal ++ (bodyChunk L body ++ R))))
            ).skip 808).skip 8).skip (w * h), none,
          items.set0 ⟨w, h, some pal, true, gridWrites w 0 body⟩,
          roundUpEven (beNat (u32be L)), w, h, 0⟩) ∧
    ((((IStream.ofBytes
        (lbmFile len (bhmdChunk w h 0 res ++ (cmapChunk cl pal ++ (bodyChunk L body ++ R))))
        ).skip 808).skip 8).skip (w * h)).rest = R := by
  obtain ⟨hreach, hrest⟩ := chunkSteps_pixelsNext env items len res pal (bodyChunk L body ++ R)
    w h 0 cl hl hw hh (Or.inl rfl) hcl hres hp
  generalize hfile :
    lbmFile len (bhmdChunk w h 0 res ++ (cmapChunk cl pal ++ (bodyChunk L body ++ R)))
    = file at hrest hreach ⊢
  have hwh : w * h < 2 ^ 32 := by
    calc w * h < 2 ^ 16 * 2 ^ 16 := Nat.mul_lt_mul'' hw hh
      _ = 2 ^ 32 := by norm_num
  have hr0 : (pixelsNext file items w h 0 pal).lbm.rest = tagBODY ++ (u32be L ++ (body ++ R)) := by
    rw [hrest]; simp [bodyChunk]
  have r1 := IStream.rest_skip _ 4 tagBODY _ hr0 rfl
  have s3 : chunkBODY env
      { pixelsNext file items w h 0 pal with
        lbm := (pixelsNext file items w h 0 pal).lbm.skip 4 } =
      some (.next ⟨(((IStream.ofBytes file).skip 808).skip 8).skip (w * h), none,
        items.set0 ⟨w, h, some pal, true, gridWrites w 0 body⟩,
        roundUpEven (beNat (u32be L)), w, h, 0⟩) := by
    refine (chunkBODY_raw_ok env
      { pixelsNext file items w h 0 pal with
        lbm := (pixelsNext file items w h 0 pal).lbm.skip 4 }
      ⟨w, h, some pal, false, []⟩ (u32be L) body R rfl r1 rfl rfl (by simp) rfl
      (by rw [beNat_u32be L hL, hround]; exact (Nat.mod_eq_of_lt hwh).symm) hbody).trans ?_
    simp only [pixelsNext, IStream.skip_skip]
    rfl
  have r2 := IStream.rest_skip _ (w * h) body R (IStream.rest_skip _ 4 (u32be L) _ r1 rfl) hbody
  constructor
  · refine chunkSteps_append env 2 1 _ _ _ _ _ hreach ?_
    rw [chunkSteps_tag env 0 (pixelsNext file items w h 0 pal) _ tagBODY _ rfl hr0 rfl
      (by rw [handleChunk_BODY, s3])]
    rfl
  · simp only [pixelsNext, IStream.skip_skip] at r2 ⊢
    exact r2

/-- The witness of C17: a 2x1 uncompressed image followed by a second "BHMD" tag. -/
theorem LoadLBM_chunk_after_body_witness :
    ∃ st', LoadLBM Env.zero
        (lbmFile [0, 0, 0, 0] (bhmdChunk 2 1 0 [0, 0, 0, 0] ++ (cmapChunk 768 zeroPalette ++
          (bodyChunk 2 [1, 2] ++ (tagBHMD ++ ([0, 0, 0, 12] ++ [])))))) [] =
        some (.nullDeref, st') ∧
      st'.items = [some ⟨2, 1, some zeroPalette, true, [(0, 0, 1), (1, 0, 2)]⟩] :=
  have h3 := chunkSteps_raw_body Env.zero [] [0, 0, 0, 0] [0, 0, 0, 0] zeroPalette [1, 2]
    (tagBHMD ++ ([0, 0, 0, 12] ++ [])) 2 1 768 2 rfl (by decide) (by decide) (Or.inl rfl) rfl
    zeroPalette_length (by norm_num) (by decide) rfl
  LoadLBM_chunk_after_body Env.zero [] [0, 0, 0, 0] _ 3 _ _ tagBHMD [0, 0, 0, 12] [] rfl h3.1
    (by simp) rfl h3.2 rfl (Or.inl rfl)

/-- From a state the chunk loop reaches after a handled "BODY" chunk, a "BHMD" tag ends the
run in the member call through the emptied handle, whatever the fields of the chunk are:
none of them is checked before. -/
theorem LoadLBM_BHMD_after_body (env : Env) (items : ArchivInfo) (len chunks : List Byte)
    (k : Nat) (tags : List Nat) (st : LbmState) (tail : List Byte) (hl : len.length = 4)
    (hreach : chunkSteps env k (loopStart env (lbmFile len chunks) items (beNat len)) =
      some (tags, st))
    (hbody : beNat tagBODY ∈ tags) (hg : st.lbm.state = .good)
    (hr : st.lbm.rest = tagBHMD ++ tail) :
    ∃ st', LoadLBM env (lbmFile len chunks) items = some (.nullDeref, st') ∧
      st'.items = st.items := by
  have hb := chunkSteps_released env k _ _ _ hreach hbody
  have hb' : ({ st with lbm := st.lbm.skip 4 } : LbmState).bitmap = none := hb
  rw [LoadLBM_reaches env items len chunks hl k tags st hreach,
    chunkLoop_tag env _ st tagBHMD _ hg hr rfl, handleChunk_BHMD]
  obtain ⟨s, hs, hi⟩ := chunkBHMD_released env { st with lbm := st.lbm.skip 4 } hb'
  rw [hs]
  exact ⟨s, rfl, hi⟩

/-- C7: a header-info chunk behind the pixel data is not validated. In the file that holds
a complete 2x1 uncompressed image and then a "BHMD" chunk with the depth field 1, the
loader does not return 13 (UnsupportedDepth); and in the file where that chunk has the
depth 2048 and the compression field 1, it does not return 15 (UnsupportedCompression).
In both files the "BHMD" case calls `setWidth` through the handle that the "BODY" case
emptied, before it reads the depth: the run ends in that call (`nullDeref`), with the image
of the "BODY" chunk in the output collection. -/
theorem LoadLBM_header_info_after_body (env : Env) :
    (∃ st', LoadLBM env
        (lbmFile [0, 0, 0, 0] (bhmdChunk 2 1 0 [0, 0, 0, 0] ++ (cmapChunk 768 zeroPalette ++
          (bodyChunk 2 [1, 2] ++ (tagBHMD ++ ([0, 0, 0, 12] ++ ([0, 2] ++ ([0, 1] ++
            ([0, 0, 0, 0] ++ ([0, 1] ++ [0, 0])))))))))) [] =
        some (.nullDeref, st') ∧
      st'.items = [some ⟨2, 1, some zeroPalette, true, [(0, 0, 1), (1, 0, 2)]⟩]) ∧
    (∃ st', LoadLBM env
        (lbmFile [0, 0, 0, 0] (bhmdChunk 2 1 0 [0, 0, 0, 0] ++ (cmapChunk 768 zeroPalette ++
          (bodyChunk 2 [1, 2] ++ (tagBHMD ++ ([0, 0, 0, 12] ++ ([0, 2] ++ ([0, 1] ++
            ([0, 0, 0, 0] ++ ([8, 0] ++ [0, 1])))))))))) [] =
        some (.nullDeref, st') ∧
      st'.items = [some ⟨2, 1, some zeroPalette, true, [(0, 0, 1), (1, 0, 2)]⟩]) := by
  have h1 := chunkSteps_raw_body env [] [0, 0, 0, 0] [0, 0, 0, 0] zeroPalette [1, 2]
    (tagBHMD ++ ([0, 0, 0, 12] ++ ([0, 2] ++ ([0, 1] ++ ([0, 0, 0, 0] ++ ([0, 1] ++ [0, 0]))))))
    2 1 768 2 rfl (by decide) (by decide) (Or.inl rfl) rfl zeroPalette_length (by norm_num)
    (by decide) rfl
  have h2 := chunkSteps_raw_body env [] [0, 0, 0, 0] [0, 0, 0, 0] zeroPalette [1, 2]
    (tagBHMD ++ ([0, 0, 0, 12] ++ ([0, 2] ++ ([0, 1] ++ ([0, 0, 0, 0] ++ ([8, 0] ++ [0, 1]))))))
    2 1 768 2 rfl (by decide) (by decide) (Or.inl rfl) rfl zeroPalette_length (by norm_num)
    (by decide) rfl
  exact ⟨LoadLBM_BHMD_after_body env [] [0, 0, 0, 0] _ 3 _ _ _ rfl h1.1 (by simp) rfl h1.2,
    LoadLBM_BHMD_after_body env [] [0, 0, 0, 0] _ 3 _ _ _ rfl h2.1 (by simp) rfl h2.2⟩

/-! ## Theorems: skipped chunks -/

/-- The rounding `if(length & 1) ++length` is the least even number not below `length`
for every 32-bit length but the largest. -/
theorem roundUpEven_le (length : Nat) (h : length ≤ 2 ^ 32 - 2) :
    roundUpEven length = length + length % 2 := by
  unfold roundUpEven
  split <;> omega

/-- At the largest 32-bit length the increment wraps around to 0. -/
theorem roundUpEven_max : roundUpEven (2 ^ 32 - 1) = 0 := by
  norm_num [roundUpEven]

theorem handleChunk_default (env : Env) (st : LbmState) (chunk : Nat)
    (h1 : chunk ≠ beNat tagBHMD) (h2 : chunk ≠ beNat tagCMAP) (h3 : chunk ≠ beNat tagBODY) :
    handleChunk env st chunk = some (chunkDefault env st) := by
  rw [beNat_tagBHMD] at h1
  rw [beNat_tagCMAP] at h2
  rw [beNat_tagBODY] at h3
  unfold handleChunk
  rw [if_neg h1, if_neg h2, if_neg h3]

/-- The `default` case on a chunk whose rounded length is covered by the input: the cursor
moves over the length field and over that many bytes. -/
theorem chunkDefault_ok (env : Env) (st : LbmState) (clen R : List Byte)
    (hg : st.lbm.state = .good) (hr : st.lbm.rest = clen ++ R) (hcl : clen.length = 4)
    (hfit : roundUpEven (beNat clen) ≤ R.length) :
    chunkDefault env st =
      .next { st with lbm := st.lbm.skip (4 + roundUpEven (beNat clen)),
                      length := roundUpEven (beNat clen) } := by
  have e := IStream.readBE_skip st.lbm env.junk 4 clen R hg hr hcl
  have r1 := IStream.rest_skip st.lbm 4 clen R hr hcl
  unfold chunkDefault
  dsimp only
  rw [e]
  dsimp only
  rw [IStream.ignore_skip (st.lbm.skip 4) _ hg (by rw [r1]; exact hfit), IStream.skip_skip]

/-- The `default` case on a chunk whose rounded length is more than the input holds: the
cursor goes to the end of the input and the end-of-input flag is raised. -/
theorem chunkDefault_short (env : Env) (st : LbmState) (clen R : List Byte)
    (hg : st.lbm.state = .good) (hr : st.lbm.rest = clen ++ R) (hcl : clen.length = 4)
    (hshort : R.length < roundUpEven (beNat clen)) :
    chunkDefault env st =
      .next { st with lbm := { (st.lbm.skip 4).skip R.length with state := .eofOnly },
                      length := roundUpEven (beNat clen) } := by
  have e := IStream.readBE_skip st.lbm env.junk 4 clen R hg hr hcl
  have r1 := IStream.rest_skip st.lbm 4 clen R hr hcl
  have hs : (st.lbm.skip 4).state = .good := hg
  unfold chunkDefault
  dsimp only
  rw [e]
  dsimp only
  unfold IStream.ignore
  rw [hs]
  dsimp only
  rw [if_neg (by rw [r1]; omega), r1]
  rfl

/-- One pass of the chunk loop over an unrecognised chunk that the input covers: the next
tag is read `8 + roundUpEven L` bytes further on. -/
theorem chunkSteps_default (env : Env) (st : LbmState) (tag clen R : List Byte)
    (hg : st.lbm.state = .good) (hr : st.lbm.rest = tag ++ (clen ++ R))
    (ht : tag.length = 4) (hcl : clen.length = 4)
    (h1 : beNat tag ≠ beNat tagBHMD) (h2 : beNat tag ≠ beNat tagCMAP)
    (h3 : beNat tag ≠ beNat tagBODY) (hfit : roundUpEven (beNat clen) ≤ R.length) :
    chunkSteps env 1 st =
      some ([beNat tag],
        { st with lbm := st.lbm.skip (8 + roundUpEven (beNat clen)),
                  length := roundUpEven (beNat clen) }) := by
  have r1 := IStream.rest_skip st.lbm 4 tag _ hr ht
  rw [chunkSteps_tag env 0 st
    { st with lbm := st.lbm.skip (8 + roundUpEven (beNat clen)),
              length := roundUpEven (beNat clen) } tag _ hg hr ht
    (by
      rw [handleChunk_default env _ _ h1 h2 h3,
        chunkDefault_ok env { st with lbm := st.lbm.skip 4 } clen R hg r1 hcl hfit]
      simp only [IStream.skip_skip]
      rw [show 4 + (4 + roundUpEven (beNat clen)) = 8 + roundUpEven (beNat clen) by omega])]
  rfl

/-- A pass of the chunk loop over an unrecognised chunk whose rounded length is more than
the input holds ends the loop: the next read of a tag fails. -/
theorem chunkLoop_default_short (env : Env) (fuel : Nat) (st : LbmState)
    (tag clen R : List Byte) (hg : st.lbm.state = .good)
    (hr : st.lbm.rest = tag ++ (clen ++ R)) (ht : tag.length = 4) (hcl : clen.length = 4)
    (h1 : beNat tag ≠ beNat tagBHMD) (h2 : beNat tag ≠ beNat tagCMAP)
    (h3 : beNat tag ≠ beNat tagBODY) (hshort : R.length < roundUpEven (beNat clen)) :
    ∃ st', chunkLoop env (fuel + 2) st =
        some (.returned (if st.items.isEmpty then 25 else 0), st') ∧
      st'.lbm.pos = st.lbm.pos + 8 + R.length := by
  have r1 := IStream.rest_skip st.lbm 4 tag _ hr ht
  rw [chunkLoop_tag env (fuel + 1) st tag _ hg hr ht, handleChunk_default env _ _ h1 h2 h3,
    chunkDefault_short env { st with lbm := st.lbm.skip 4 } clen R hg r1 hcl hshort]
  dsimp only
  rw [chunkLoop_succ, IStream.readBE_snd]
  have e : (({ ((st.lbm.skip 4).skip 4).skip R.length with state := IoState.eofOnly }
      : IStream).readRaw 4).2 =
      { ((st.lbm.skip 4).skip 4).skip R.length with
        state := .eofFail, fails := st.lbm.fails + 1 } := rfl
  rw [e]
  have hf : ¬ (({ ((st.lbm.skip 4).skip 4).skip R.length with
        state := IoState.eofFail, fails := st.lbm.fails + 1 } : IStream).fail = false) := by
    simp [IStream.fail]
  rw [if_neg hf]
  dsimp only
  by_cases hi : st.items.isEmpty = true
  · rw [if_pos (Or.inl hi), if_pos hi]
    refine ⟨_, rfl, ?_⟩
    simp only [IStream.skip_pos, Nat.add_assoc]
    omega
  · rw [if_neg (by simp [hi, IStream.eof]), if_neg hi]
    refine ⟨_, rfl, ?_⟩
    simp only [IStream.skip_pos, Nat.add_assoc]
    omega

/-- C13: an unrecognised chunk with the largest declared length is not skipped. The length
2^32 - 1 is odd and the increment wraps it around to 0 instead of rounding it up, so the
cursor advances by 8 bytes only. In the 28 byte file "FORM", 0, "PBM ", "JUNK",
0xFFFFFFFF, "BODY", 0 the chunk "JUNK" starts at offset 12 and the stream ends long before
offset 12 + 8 + 2^32; the loop does not end there (which gives 25): the next tag is read at
offset 20, the "BODY" found there is handled and the loader returns 20. -/
theorem LoadLBM_skip_length_wraps (env : Env) :
    roundUpEven (beNat [255, 255, 255, 255]) = 0 ∧
    ∃ st', LoadLBM env
        (lbmFile [0, 0, 0, 0]
          ([0x4A, 0x55, 0x4E, 0x4B] ++ ([255, 255, 255, 255] ++ (tagBODY ++ [0, 0, 0, 0])))) [] =
        some (.returned 20, st') ∧ st'.lbm.pos = 28 := by
  have hround : roundUpEven (beNat [255, 255, 255, 255]) = 0 := by decide
  refine ⟨hround, ?_⟩
  have r0 := loopStart_rest env [] [0, 0, 0, 0]
    ([0x4A, 0x55, 0x4E, 0x4B] ++ ([255, 255, 255, 255] ++ (tagBODY ++ [0, 0, 0, 0]))) rfl
    (beNat [0, 0, 0, 0])
  have h1 := chunkSteps_default env
    (loopStart env (lbmFile [0, 0, 0, 0]
      ([0x4A, 0x55, 0x4E, 0x4B] ++ ([255, 255, 255, 255] ++ (tagBODY ++ [0, 0, 0, 0])))) []
      (beNat [0, 0, 0, 0]))
    [0x4A, 0x55, 0x4E, 0x4B] [255, 255, 255, 255] (tagBODY ++ [0, 0, 0, 0]) rfl r0 rfl rfl
    (by decide) (by decide) (by decide) (by rw [hround]; exact Nat.zero_le _)
  rw [LoadLBM_reaches env [] [0, 0, 0, 0] _ rfl 1 _ _ h1, hround]
  have hlen : (lbmFile [0, 0, 0, 0]
      ([0x4A, 0x55, 0x4E, 0x4B] ++ ([255, 255, 255, 255] ++ (tagBODY ++ [0, 0, 0, 0])))).length
      - 1 + 1 = 27 + 1 := rfl
  rw [hlen]
  generalize lbmFile [0, 0, 0, 0]
      ([0x4A, 0x55, 0x4E, 0x4B] ++ ([255, 255, 255, 255] ++ (tagBODY ++ [0, 0, 0, 0])))
    = file at r0 ⊢
  have r8 := IStream.rest_skip (loopStart env file [] (beNat [0, 0, 0, 0])).lbm (8 + 0)
    ([0x4A, 0x55, 0x4E, 0x4B] ++ [255, 255, 255, 255]) (tagBODY ++ [0, 0, 0, 0])
    (by rw [r0]; rfl) (by decide)
  rw [chunkLoop_tag env 27
    { loopStart env file [] (beNat [0, 0, 0, 0]) with
      lbm := (loopStart env file [] (beNat [0, 0, 0, 0])).lbm.skip (8 + 0), length := 0 }
    tagBODY [0, 0, 0, 0] rfl r8 rfl, handleChunk_BODY]
  have r12 := IStream.rest_skip _ 4 tagBODY [0, 0, 0, 0] r8 rfl
  have e := IStream.readBE_skip
    (((loopStart env file [] (beNat [0, 0, 0, 0])).lbm.skip (8 + 0)).skip 4) env.junk 4
    [0, 0, 0, 0] [] rfl (by rw [r12]; rfl) rfl
  unfold chunkBODY
  dsimp only
  rw [e]
  exact ⟨_, rfl, rfl⟩

/-! ## Theorems: the run-length decoder outside its bounds -/

/-- A compressed "BODY" chunk made of valid runs is decoded to the pixels of the runs in
rows of `w`, however many rows that takes: the decoder does not compare the row with the
height. -/
theorem LoadLBM_rle_runs (env : Env) (items : ArchivInfo) (len res pal pad : List Byte)
    (runs : List RleRun) (w h : Nat) (hl : len.length = 4) (hres : res.length = 4)
    (hp : pal.length = 768) (hw0 : 0 < w) (hw : w < 2 ^ 16) (hh : h < 2 ^ 16)
    (hv : ∀ r ∈ runs, r.Valid) (hy : (runPixels runs).length / w < 2 ^ 16)
    (hpad : pad.length = (encodeRuns runs).length % 2)
    (hN : (encodeRuns runs).length + pad.length < 2 ^ 32) :
    ∃ st', LoadLBM env
        (lbmFile len (bhmdChunk w h 256 res ++ (cmapChunk 768 pal ++
          bodyChunk (encodeRuns runs).length (encodeRuns runs ++ pad)))) items =
        some (.returned 0, st') ∧
      st'.items = items.set0 ⟨w, h, some pal, true, gridWrites w 0 (runPixels runs)⟩ := by
  obtain ⟨hreach, hrest⟩ := chunkSteps_pixelsNext env items len res pal
    (bodyChunk (encodeRuns runs).length (encodeRuns runs ++ pad))
    w h 256 768 hl hw hh (Or.inr rfl) (Or.inl rfl) hres hp
  have hlen := lbmFile_length len (bhmdChunk w h 256 res ++ (cmapChunk 768 pal ++
    bodyChunk (encodeRuns runs).length (encodeRuns runs ++ pad))) hl
  rw [LoadLBM_reaches env items len _ hl 2 _ _ hreach]
  generalize hfile : lbmFile len (bhmdChunk w h 256 res ++ (cmapChunk 768 pal ++
    bodyChunk (encodeRuns runs).length (encodeRuns runs ++ pad))) = file at hrest hlen ⊢
  have hNf : file.length - 2 = (file.length - 3) + 1 := by
    simp only [List.length_append, bodyChunk, tagBODY, List.length_cons, List.length_nil] at hlen
    omega
  have hr0 : (pixelsNext file items w h 256 pal).lbm.rest =
      tagBODY ++ (u32be (encodeRuns runs).length ++ (encodeRuns runs ++ (pad ++ []))) := by
    rw [hrest]; simp [bodyChunk]
  have r1 := IStream.rest_skip _ 4 tagBODY _ hr0 rfl
  have s3 : chunkBODY env
      { pixelsNext file items w h 256 pal with
        lbm := (pixelsNext file items w h 256 pal).lbm.skip 4 } =
      some (.next ⟨(((pixelsNext file items w h 256 pal).lbm.skip 4).skip 4).skip
          ((encodeRuns runs).length + pad.length), none,
        items.set0 ⟨w, h, some pal, true, gridWrites w 0 (runPixels runs)⟩, 0, w, h, 256⟩) :=
    chunkBODY_rle_ok env
      { pixelsNext file items w h 256 pal with
        lbm := (pixelsNext file items w h 256 pal).lbm.skip 4 }
      ⟨w, h, some pal, false, []⟩ runs pad [] rfl r1 hpad hN rfl (by simp) rfl hw0 hw hv hy
  have r2 : ((((pixelsNext file items w h 256 pal).lbm.skip 4).skip 4).skip
      ((encodeRuns runs).length + pad.length)).rest = [] := by
    have h4 := IStream.rest_skip _ 4 (u32be (encodeRuns runs).length) _ r1 rfl
    rw [← List.append_assoc] at h4
    exact IStream.rest_skip _ _ (encodeRuns runs ++ pad) [] h4 (by simp)
  rw [chunkLoop_tag env _ _ tagBODY _ rfl hr0 rfl, handleChunk_BODY, s3]
  dsimp only
  rw [hNf, chunkLoop_end env _
    ⟨(((pixelsNext file items w h 256 pal).lbm.skip 4).skip 4).skip
        ((encodeRuns runs).length + pad.length), none,
      items.set0 ⟨w, h, some pal, true, gridWrites w 0 (runPixels runs)⟩, 0, w, h, 256⟩
    rfl (by rw [r2]; decide)]
  exact ⟨_, rfl, rfl⟩

/-- C12: the run-length decoder writes below the last row. For the 1x1 image whose
compressed "BODY" chunk of declared length 2 holds the one repeat run FF 05 (two copies
of index 5), the loader returns 0 and the image item has received the writes (0, 0, 5)
and (0, 1, 5): the second one has y = 1, which is not below the height 1. -/
theorem LoadLBM_rle_write_below_image (env : Env) :
    ∃ st', LoadLBM env
        (lbmFile [0, 0, 0, 0] (bhmdChunk 1 1 256 [0, 0, 0, 0] ++ (cmapChunk 768 zeroPalette ++
          bodyChunk 2 ([255, 5] ++ [])))) [] =
        some (.returned 0, st') ∧
      st'.items = [some ⟨1, 1, some zeroPalette, true, [(0, 0, 5), (0, 1, 5)]⟩] :=
  LoadLBM_rle_runs env [] [0, 0, 0, 0] [0, 0, 0, 0] zeroPalette []
    [RleRun.replicate 2 5] 1 1 rfl rfl zeroPalette_length (by decide) (by decide)
    (by decide) (by simp [RleRun.Valid]) (by decide) rfl (by decide)

/-- A literal run whose bytes are there reads and writes all of them, whatever the length
budget says: the loop of the run does not look at `length`. -/
theorem rleLiteral_reads (junk : Nat → Nat) (w : Nat) (hw : 0 < w) (hw16 : w < 2 ^ 16)
    (n : Nat) :
    ∀ (i : Nat) (st : RleState) (bs R : List Byte), st.lbm.state = .good →
      st.lbm.rest = bs ++ R → bs.length = n →
      st.x = i % w → st.y = i / w → (i + n) / w < 2 ^ 16 →
      (rleLiteral junk w n st).lbm = st.lbm.skip n ∧
      (rleLiteral junk w n st).bmp =
        { st.bmp with writes := st.bmp.writes ++ gridWrites w i bs } := by
  induction n with
  | zero =>
    intro i st bs R _ _ hl _ _ _
    have : bs = [] := List.eq_nil_of_length_eq_zero hl
    subst this
    refine ⟨rfl, ?_⟩
    simp only [rleLiteral, gridWrites, List.append_nil]
  | succ n ih =>
    intro i st bs R hg hr hl hx hy hyb
    match bs, hl with
    | b :: bs, hl =>
      have hyb1 : (i + 1) / w < 2 ^ 16 :=
        Nat.lt_of_le_of_lt (Nat.div_le_div_right (by omega)) hyb
      have e := IStream.readByte_skip st.lbm junk b (bs ++ R) hg hr
      have r1 := IStream.rest_skip st.lbm 1 [b] (bs ++ R) hr rfl
      unfold rleLiteral
      dsimp only
      rw [e]
      dsimp only
      rw [rlePut_ok w i { st with lbm := st.lbm.skip 1, length := dec32 st.length } b hw hw16
          hx hy hyb1]
      obtain ⟨h1, h2⟩ := ih (i + 1)
          { lbm := st.lbm.skip 1, bmp := st.bmp.tex_setPixel (i % w) (i / w) b,
            length := dec32 st.length, x := (i + 1) % w, y := (i + 1) / w }
          bs R hg r1 (by simpa using hl) rfl rfl
          (by rw [show i + 1 + n = i + (n + 1) by omega]; exact hyb)
      constructor
      · rw [h1]
        simp only [IStream.skip_skip, Nat.add_comm 1 n]
      · rw [h2]
        simp only [Bitmap.tex_setPixel, gridWrites, List.append_assoc, List.singleton_append]

theorem Bitmap.writes_trans (b0 b1 b2 : Bitmap)
    (h1 : ∃ m, b1 = { b0 with writes := b0.writes ++ m })
    (h2 : ∃ m, b2 = { b1 with writes := b1.writes ++ m }) :
    ∃ m, b2 = { b0 with writes := b0.writes ++ m } := by
  obtain ⟨m1, e1⟩ := h1
  obtain ⟨m2, e2⟩ := h2
  subst e1
  subst e2
  exact ⟨m1 ++ m2, by simp only [List.append_assoc]⟩

theorem rlePut_writes (width : Nat) (st : RleState) (color : Byte) :
    ∃ m, (rlePut width st color).bmp = { st.bmp with writes := st.bmp.writes ++ m } := by
  unfold rlePut
  dsimp only
  split <;> exact ⟨[(st.x, st.y, color)], rfl⟩

theorem rleLiteral_writes (junk : Nat → Nat) (width n : Nat) :
    ∀ st : RleState, ∃ m, (rleLiteral junk width n st).bmp =
      { st.bmp with writes := st.bmp.writes ++ m } := by
  induction n with
  | zero => intro st; exact ⟨[], by simp only [rleLiteral, List.append_nil]⟩
  | succ n ih =>
    intro st
    unfold rleLiteral
    exact Bitmap.writes_trans _ _ _
      (rlePut_writes width
        { st with lbm := (st.lbm.readByte junk).2, length := dec32 st.length }
        (st.lbm.readByte junk).1)
      (ih _)

theorem rleRepeat_writes (width : Nat) (color : Byte) (n : Nat) :
    ∀ st : RleState, ∃ m, (rleRepeat width color n st).bmp =
      { st.bmp with writes := st.bmp.writes ++ m } := by
  induction n with
  | zero => intro st; exact ⟨[], by simp only [rleRepeat, List.append_nil]⟩
  | succ n ih =>
    intro st
    unfold rleRepeat
    exact Bitmap.writes_trans _ _ _ (rlePut_writes width st color) (ih _)

/-- The run-length loop only adds writes to the image item. -/
theorem rleLoop_writes (junk : Nat → Nat) (width fuel : Nat) :
    ∀ st st' : RleState, rleLoop junk width fuel st = some st' →
      ∃ m, st'.bmp = { st.bmp with writes := st.bmp.writes ++ m } := by
  induction fuel with
  | zero =>
    intro st st' h
    rw [rleLoop_zero] at h
    split at h
    · cases h
    · cases h
      exact ⟨[], by simp only [List.append_nil]⟩
  | succ fuel ih =>
    intro st st' h
    rw [rleLoop_succ] at h
    split at h
    · split at h
      · exact ih { st with lbm := (st.lbm.readByte junk).2, length := dec32 st.length } st' h
      · split at h
        · exact Bitmap.writes_trans _ _ _
            (rleLiteral_writes junk width _
              { st with lbm := (st.lbm.readByte junk).2, length := dec32 st.length })
            (ih _ _ h)
        · exact Bitmap.writes_trans _ _ _
            (rleRepeat_writes width _ _
              { st with lbm := ((st.lbm.readByte junk).2.readByte junk).2,
                        length := dec32 (dec32 st.length) })
            (ih _ _ h)
    · cases h
      exact ⟨[], by simp only [List.append_nil]⟩

/-- The compressed "BODY" case on a chunk of declared length 2 that starts with the
control byte 3 of a literal run of four bytes: all four bytes are read and written, and
the cursor ends behind them, three bytes past the declared end of the chunk. -/
theorem chunkBODY_literal_overrun (env : Env) (st : LbmState) (bmp : Bitmap)
    (b1 b2 b3 b4 : Byte) (R : List Byte) (hg : st.lbm.state = .good)
    (hr : st.lbm.rest = u32be 2 ++ ([3, b1, b2, b3, b4] ++ R))
    (hb : st.bitmap = some bmp) (hp : bmp.palette ≠ none) (hc : st.compression = 256)
    (hw : st.width = 4) :
    ∃ st' more, chunkBODY env st = some (.next st') ∧
      st'.lbm.rest.length ≤ R.length ∧ st'.bitmap = none ∧
      st'.items = st.items.set0 { bmp.tex_alloc with
        writes := bmp.writes ++ ([(0, 0, b1), (1, 0, b2), (2, 0, b3), (3, 0, b4)] ++ more) }
      := by
  have e1 := IStream.readBE_skip st.lbm env.junk 4 (u32be 2) _ hg hr rfl
  have r1 := IStream.rest_skip st.lbm 4 (u32be 2) _ hr rfl
  have hround : roundUpEven (beNat (u32be 2)) = 2 := by decide
  have e2 := IStream.readByte_skip (st.lbm.skip 4) env.junk 3 ([b1, b2, b3, b4] ++ R) hg r1
  have r2 := IStream.rest_skip (st.lbm.skip 4) 1 [3] ([b1, b2, b3, b4] ++ R) r1 rfl
  have hs : toSigned (3 : Byte) = 3 := by decide
  have hd : dec32 2 = 1 := by norm_num [dec32]
  obtain ⟨l1, l2⟩ := rleLiteral_reads env.junk 4 (by decide) (by decide) 4 0
    { lbm := (st.lbm.skip 4).skip 1, bmp := bmp.tex_alloc, length := 1, x := 0, y := 0 }
    [b1, b2, b3, b4] R hg r2 rfl rfl rfl (by decide)
  have r3 := IStream.rest_skip ((st.lbm.skip 4).skip 1) 4 [b1, b2, b3, b4] R r2 rfl
  have hfirst : rleLoop env.junk 4 ((st.lbm.skip 4).rest.length + 1)
      ⟨st.lbm.skip 4, bmp.tex_alloc, 2, 0, 0⟩ =
      rleLoop env.junk 4 (st.lbm.skip 4).rest.length
        (rleLiteral env.junk 4 4
          { lbm := (st.lbm.skip 4).skip 1, bmp := bmp.tex_alloc, length := 1, x := 0, y := 0 })
      := by
    rw [rleLoop_succ]
    dsimp only
    rw [if_pos ⟨by decide, by simp [IStream.eof, hg]⟩, hd, if_neg (by decide), e2]
    dsimp only
    rw [hs, if_pos (by decide)]
    rfl
  have hsome := rleLoop_isSome env.junk 4 ((st.lbm.skip 4).rest.length + 1)
    ⟨st.lbm.skip 4, bmp.tex_alloc, 2, 0, 0⟩ (fun _ => Nat.lt_succ_self _)
  unfold chunkBODY
  dsimp only
  rw [e1]
  dsimp only
  rw [hb]
  dsimp only
  rw [if_neg hp, if_neg (by rw [hc]; decide), if_pos hc, hround, hw]
  cases hrl : rleLoop env.junk 4 ((st.lbm.skip 4).rest.length + 1)
      ⟨st.lbm.skip 4, bmp.tex_alloc, 2, 0, 0⟩ with
  | none => rw [hrl] at hsome; cases hsome
  | some r =>
    dsimp only
    rw [hfirst] at hrl
    have hle := rleLoop_rest_le env.junk 4 _ _ r hrl
    obtain ⟨m, hwr⟩ := rleLoop_writes env.junk 4 _ _ r hrl
    rw [l1, r3] at hle
    rw [l2] at hwr
    refine ⟨_, m, rfl, hle, rfl, ?_⟩
    dsimp only
    rw [hwr]
    simp only [Bitmap.tex_alloc, gridWrites, List.append_assoc]

/-- C16: a literal run reads past the declared length of its chunk. In the file with a
4x1 compressed image whose "BODY" chunk declares the length 2 and starts with the bytes
03 01 02 03 04, the budget covers the control byte 03 and one more byte; the decoder
nevertheless reads and writes all four bytes of the literal run, and after the "BODY" pass
the cursor stands behind these five bytes or further on: at least three bytes that come
after the declared end of the chunk are consumed as pixel data, whatever bytes `R` follow
them. The loader goes on from that state. -/
theorem LoadLBM_rle_budget_overrun (env : Env) (R : List Byte) :
    ∃ st more,
      chunkSteps env 3
        (loopStart env
          (lbmFile [0, 0, 0, 0] (bhmdChunk 4 1 256 [0, 0, 0, 0] ++
            (cmapChunk 768 zeroPalette ++ bodyChunk 2 ([3, 1, 2, 3, 4] ++ R)))) []
          (beNat [0, 0, 0, 0])) =
        some ([beNat tagBHMD, beNat tagCMAP, beNat tagBODY], st) ∧
      LoadLBM env
        (lbmFile [0, 0, 0, 0] (bhmdChunk 4 1 256 [0, 0, 0, 0] ++
          (cmapChunk 768 zeroPalette ++ bodyChunk 2 ([3, 1, 2, 3, 4] ++ R)))) [] =
        chunkLoop env
          ((lbmFile [0, 0, 0, 0] (bhmdChunk 4 1 256 [0, 0, 0, 0] ++
            (cmapChunk 768 zeroPalette ++ bodyChunk 2 ([3, 1, 2, 3, 4] ++ R)))).length - 3 + 1)
          st ∧
      st.lbm.rest.length ≤ R.length ∧
      st.items = [some ⟨4, 1, some zeroPalette, true,
        [(0, 0, 1), (1, 0, 2), (2, 0, 3), (3, 0, 4)] ++ more⟩] := by
  obtain ⟨hreach, hrest⟩ := chunkSteps_pixelsNext env [] [0, 0, 0, 0] [0, 0, 0, 0] zeroPalette
    (bodyChunk 2 ([3, 1, 2, 3, 4] ++ R)) 4 1 256 768 rfl (by decide) (by decide) (Or.inr rfl)
    (Or.inl rfl) rfl zeroPalette_length
  have hr0 : (pixelsNext (lbmFile [0, 0, 0, 0] (bhmdChunk 4 1 256 [0, 0, 0, 0] ++
      (cmapChunk 768 zeroPalette ++ bodyChunk 2 ([3, 1, 2, 3, 4] ++ R)))) [] 4 1 256
      zeroPalette).lbm.rest = tagBODY ++ (u32be 2 ++ ([3, 1, 2, 3, 4] ++ R)) := by
    rw [hrest]; rfl
  have r1 := IStream.rest_skip _ 4 tagBODY _ hr0 rfl
  obtain ⟨st3, more, h3, hle, -, hi⟩ := chunkBODY_literal_overrun env
    { pixelsNext (lbmFile [0, 0, 0, 0] (bhmdChunk 4 1 256 [0, 0, 0, 0] ++
        (cmapChunk 768 zeroPalette ++ bodyChunk 2 ([3, 1, 2, 3, 4] ++ R)))) [] 4 1 256
        zeroPalette with
      lbm := (pixelsNext (lbmFile [0, 0, 0, 0] (bhmdChunk 4 1 256 [0, 0, 0, 0] ++
        (cmapChunk 768 zeroPalette ++ bodyChunk 2 ([3, 1, 2, 3, 4] ++ R)))) [] 4 1 256
        zeroPalette).lbm.skip 4 }
    ⟨4, 1, some zeroPalette, false, []⟩ 1 2 3 4 R rfl r1 rfl (by simp) rfl rfl
  have hsteps := chunkSteps_append env 2 1 _ _ st3 _ [beNat tagBODY] hreach
    (by
      rw [chunkSteps_tag env 0 _ st3 tagBODY _ rfl hr0 rfl (by rw [handleChunk_BODY, h3])]
      rfl)
  exact ⟨st3, more, hsteps, LoadLBM_reaches env [] [0, 0, 0, 0] _ rfl 3 _ st3 hsteps, hle, hi⟩

/-! ## Theorems: pixel data without a header-info chunk -/

/-- A file without "BHMD" chunk, with a palette chunk and a compressed "BODY" chunk of
valid runs, when the storage of the uninitialised `compression` holds 256 and that of
`width` a non-zero value: the run-length decoder runs with that width and the loader
returns 0. The width and height of the item itself were never set. -/
theorem LoadLBM_rle_without_header (env : Env) (items : ArchivInfo)
    (len pal pad : List Byte) (runs : List RleRun) (hl : len.length = 4)
    (hp : pal.length = 768) (hc : env.compression0 % 2 ^ 16 = 256)
    (hw0 : 0 < env.width0 % 2 ^ 16) (hv : ∀ r ∈ runs, r.Valid)
    (hy : (runPixels runs).length / (env.width0 % 2 ^ 16) < 2 ^ 16)
    (hpad : pad.length = (encodeRuns runs).length % 2)
    (hN : (encodeRuns runs).length + pad.length < 2 ^ 32) :
    ∃ st', LoadLBM env
        (lbmFile len (cmapChunk 768 pal ++
          bodyChunk (encodeRuns runs).length (encodeRuns runs ++ pad))) items =
        some (.returned 0, st') ∧
      st'.items = items.set0
        ⟨0, 0, some pal, true, gridWrites (env.width0 % 2 ^ 16) 0 (runPixels runs)⟩ := by
  have hw16 : env.width0 % 2 ^ 16 < 2 ^ 16 := Nat.mod_lt _ (by norm_num)
  have r0 := loopStart_rest env items len
    (cmapChunk 768 pal ++ bodyChunk (encodeRuns runs).length (encodeRuns runs ++ pad)) hl
    (beNat len)
  have hlen := lbmFile_length len
    (cmapChunk 768 pal ++ bodyChunk (encodeRuns runs).length (encodeRuns runs ++ pad)) hl
  rw [LoadLBM_valid_header env items len _ hl]
  generalize lbmFile len
    (cmapChunk 768 pal ++ bodyChunk (encodeRuns runs).length (encodeRuns runs ++ pad))
    = file at r0 hlen ⊢
  have hN1 : file.length + 1 = (file.length - 2) + 1 + 1 + 1 := by
    simp only [List.length_append, cmapChunk, tagCMAP, List.length_cons, List.length_nil]
      at hlen
    omega
  have hst : loopStart env file items (beNat len) =
      ⟨(IStream.ofBytes file).skip 12, some Bitmap.new, items, beNat len,
        env.width0 % 2 ^ 16, env.height0 % 2 ^ 16, 256⟩ := by
    unfold loopStart
    rw [hc]
  rw [hst] at r0 ⊢
  have r0' : ((IStream.ofBytes file).skip 12).rest =
      tagCMAP ++ (u32be 768 ++ (pal ++ (tagBODY ++ (u32be (encodeRuns runs).length ++
        (encodeRuns runs ++ (pad ++ [])))))) := by
    rw [show ((IStream.ofBytes file).skip 12).rest = _ from r0]
    simp [cmapChunk, bodyChunk]
  have r1 := IStream.rest_skip _ 4 tagCMAP _ r0' rfl
  have s1 := chunkCMAP_ok env
    ⟨((IStream.ofBytes file).skip 12).skip 4, some Bitmap.new, items, beNat len,
      env.width0 % 2 ^ 16, env.height0 % 2 ^ 16, 256⟩
    Bitmap.new (u32be 768) pal _ rfl r1 rfl (by decide) hp rfl
  have r2 : ((((IStream.ofBytes file).skip 12).skip 4).skip 772).rest =
      tagBODY ++ (u32be (encodeRuns runs).length ++ (encodeRuns runs ++ (pad ++ []))) := by
    have h : (((IStream.ofBytes file).skip 12).skip 4).rest =
        (u32be 768 ++ pal) ++ (tagBODY ++ (u32be (encodeRuns runs).length ++
          (encodeRuns runs ++ (pad ++ [])))) := by
      rw [r1]; simp
    exact IStream.rest_skip _ 772 _ _ h (by simp [hp, u32be])
  have r3 := IStream.rest_skip _ 4 tagBODY _ r2 rfl
  have s2 := chunkBODY_rle_ok env
    ⟨((((IStream.ofBytes file).skip 12).skip 4).skip 772).skip 4,
      some (Bitmap.new.setPalette pal), items, 768, env.width0 % 2 ^ 16,
      env.height0 % 2 ^ 16, 256⟩
    (Bitmap.new.setPalette pal) runs pad [] rfl r3 hpad hN rfl
    (by simp [Bitmap.setPalette]) rfl hw0 hw16 hv hy
  have r4 : (((((((IStream.ofBytes file).skip 12).skip 4).skip 772).skip 4).skip 4).skip
      ((encodeRuns runs).length + pad.length)).rest = [] := by
    have h4 := IStream.rest_skip _ 4 (u32be (encodeRuns runs).length) _ r3 rfl
    rw [← List.append_assoc] at h4
    exact IStream.rest_skip _ _ (encodeRuns runs ++ pad) [] h4 (by simp)
  rw [hN1, chunkLoop_tag env _
    ⟨(IStream.ofBytes file).skip 12, some Bitmap.new, items, beNat len,
      env.width0 % 2 ^ 16, env.height0 % 2 ^ 16, 256⟩ tagCMAP _ rfl r0' rfl,
    handleChunk_CMAP, s1]
  dsimp only
  rw [chunkLoop_tag env _
    ⟨(((IStream.ofBytes file).skip 12).skip 4).skip 772,
      some (Bitmap.new.setPalette pal), items, 768, env.width0 % 2 ^ 16,
      env.height0 % 2 ^ 16, 256⟩
    tagBODY _ rfl r2 rfl, handleChunk_BODY, s2]
  dsimp only
  rw [chunkLoop_end env _
    ⟨((((((IStream.ofBytes file).skip 12).skip 4).skip 772).skip 4).skip 4).skip
        ((encodeRuns runs).length + pad.length), none,
      items.set0 { (Bitmap.new.setPalette pal).tex_alloc with
        writes := (Bitmap.new.setPalette pal).writes ++
          gridWrites (env.width0 % 2 ^ 16) 0 (runPixels runs) }, 0, env.width0 % 2 ^ 16,
      env.height0 % 2 ^ 16, 256⟩
    rfl (by rw [r4]; decide)]
  exact ⟨_, rfl, rfl⟩

/-- C14: pixels are written although no "BHMD" chunk has set width, height and compression.
The file "FORM", 0, "PBM ", a "CMAP" chunk of 768 bytes and a "BODY" chunk of declared
length 2 with the bytes FF 05 has no "BHMD" chunk, so at the "BODY" chunk `width`, `height`
and `compression` still hold what their uninitialised storage held. When that is
compression 256 and width 1, the run-length decoder runs: the pixel buffer is allocated,
the writes (0, 0, 5) and (0, 1, 5) are made, the item (its own width and height still 0)
is handed over, and the loader returns 0. -/
theorem LoadLBM_pixels_without_header (env : Env)
    (hc : env.compression0 % 2 ^ 16 = 256) (hw : env.width0 % 2 ^ 16 = 1) :
    ∃ st', LoadLBM env
        (lbmFile [0, 0, 0, 0] (cmapChunk 768 zeroPalette ++ bodyChunk 2 ([255, 5] ++ []))) [] =
        some (.returned 0, st') ∧
      st'.items = [some ⟨0, 0, some zeroPalette, true, [(0, 0, 5), (0, 1, 5)]⟩] := by
  obtain ⟨st', h1, h2⟩ := LoadLBM_rle_without_header env [] [0, 0, 0, 0] zeroPalette []
    [RleRun.replicate 2 5] rfl zeroPalette_length hc (by rw [hw]; decide)
    (by simp [RleRun.Valid]) (by rw [hw]; decide) rfl (by decide)
  rw [hw] at h2
  exact ⟨st', h1, h2⟩

/-- The witness of C14: the storage of `width` holds 1 and that of `compression` 256. -/
theorem LoadLBM_pixels_without_header_witness :
    ∃ st', LoadLBM ⟨fun _ => 0, [], [], 1, 0, 256⟩
        (lbmFile [0, 0, 0, 0] (cmapChunk 768 zeroPalette ++ bodyChunk 2 ([255, 5] ++ []))) [] =
        some (.returned 0, st') ∧
      st'.items = [some ⟨0, 0, some zeroPalette, true, [(0, 0, 5), (0, 1, 5)]⟩] :=
  LoadLBM_pixels_without_header ⟨fun _ => 0, [], [], 1, 0, 256⟩ (by decide) (by decide)

/-! ## Theorems: the result check behind the chunk loop -/

theorem IStream.readRaw_settled (s : IStream) (n : Nat) (h : s.Settled) :
    (s.readRaw n).2.Settled := by
  unfold IStream.Settled at h ⊢
  unfold IStream.readRaw
  cases hs : s.state with
  | good =>
    dsimp only
    split
    · intro hc
      exact absurd rfl hc
    · rename_i hlen
      intro _
      unfold IStream.rest
      apply List.drop_eq_nil_of_le
      simp only [IStream.rest, List.length_take, List.length_drop] at hlen ⊢
      omega
  | eofOnly =>
    intro _
    exact h (by rw [hs]; decide)
  | eofFail =>
    intro _
    exact h (by rw [hs]; decide)

theorem IStream.ignore_settled (s : IStream) (n : Nat) (h : s.Settled) :
    (s.ignore n).Settled := by
  unfold IStream.Settled at h ⊢
  unfold IStream.ignore
  cases hs : s.state with
  | good =>
    dsimp only
    split
    · intro hc
      exact absurd rfl hc
    · rename_i hlen
      intro _
      unfold IStream.rest
      apply List.drop_eq_nil_of_le
      simp only [IStream.rest, List.length_drop] at hlen ⊢
      omega
  | eofOnly =>
    intro _
    exact h (by rw [hs]; decide)
  | eofFail =>
    intro _
    exact h (by rw [hs]; decide)

theorem IStream.readBE_settled (s : IStream) (junk : Nat → Nat) (n : Nat) (h : s.Settled) :
    (s.readBE junk n).2.Settled := by
  rw [IStream.readBE_snd]
  exact IStream.readRaw_settled s n h

theorem IStream.readByte_settled (s : IStream) (junk : Nat → Nat) (h : s.Settled) :
    (s.readByte junk).2.Settled := by
  rw [IStream.readByte_snd]
  exact IStream.readRaw_settled s 1 h

theorem rawRow_settled (junk : Nat → Nat) (y n : Nat) :
    ∀ (x : Nat) (acc : Bitmap × IStream), acc.2.Settled →
      (rawRow junk y n x acc).2.Settled := by
  induction n with
  | zero => intro x acc h; exact h
  | succ n ih =>
    intro x acc h
    unfold rawRow
    exact ih _ _ (IStream.readByte_settled _ _ h)

theorem rawRows_settled (junk : Nat → Nat) (width n : Nat) :
    ∀ (y : Nat) (acc : Bitmap × IStream), acc.2.Settled →
      (rawRows junk width n y acc).2.Settled := by
  induction n with
  | zero => intro y acc h; exact h
  | succ n ih =>
    intro y acc h
    unfold rawRows
    exact ih _ _ (rawRow_settled _ _ _ _ _ h)

theorem rleLiteral_settled (junk : Nat → Nat) (width n : Nat) :
    ∀ st : RleState, st.lbm.Settled → (rleLiteral junk width n st).lbm.Settled := by
  induction n with
  | zero => intro st h; exact h
  | succ n ih =>
    intro st h
    unfold rleLiteral
    refine ih _ ?_
    rw [rlePut_lbm]
    exact IStream.readByte_settled _ _ h

theorem rleLoop_settled (junk : Nat → Nat) (width fuel : Nat) :
    ∀ st st' : RleState, rleLoop junk width fuel st = some st' → st.lbm.Settled →
      st'.lbm.Settled := by
  induction fuel with
  | zero =>
    intro st st' h hs
    rw [rleLoop_zero] at h
    split at h
    · cases h
    · cases h; exact hs
  | succ fuel ih =>
    intro st st' h hs
    rw [rleLoop_succ] at h
    split at h
    · split at h
      · exact ih { st with lbm := (st.lbm.readByte junk).2, length := dec32 st.length } st' h
          (IStream.readByte_settled _ _ hs)
      · split at h
        · exact ih _ _ h (rleLiteral_settled _ _ _
            { st with lbm := (st.lbm.readByte junk).2, length := dec32 st.length }
            (IStream.readByte_settled _ _ hs))
        · refine ih _ _ h ?_
          rw [rleRepeat_lbm]
          exact IStream.readByte_settled _ _ (IStream.readByte_settled _ _ hs)
    · cases h; exact hs

theorem chunkBHMD_settled (env : Env) (st : LbmState) (hs : st.lbm.Settled) :
    (chunkBHMD env st).state.lbm.Settled := by
  have h3 : (((st.lbm.readBE env.junk 4).2.readBE env.junk 2).2.readBE env.junk
      2).2.Settled :=
    IStream.readBE_settled _ _ _ (IStream.readBE_settled _ _ _
      (IStream.readBE_settled _ _ _ hs))
  have h4 := IStream.readBE_settled
    ((((st.lbm.readBE env.junk 4).2.readBE env.junk 2).2.readBE env.junk 2).2.ignore 4)
    env.junk 2 (IStream.ignore_settled _ _ h3)
  unfold chunkBHMD
  dsimp only
  split
  · exact h3
  · split
    · exact h4
    · split
      · exact IStream.readBE_settled _ _ _ h4
      · exact IStream.ignore_settled _ _ (IStream.readBE_settled _ _ _ h4)

theorem chunkCMAP_settled (env : Env) (st : LbmState) (hs : st.lbm.Settled) :
    (chunkCMAP env st).state.lbm.Settled := by
  have h1 := IStream.readBE_settled st.lbm env.junk 4 hs
  have h2 : (Palette.load (st.lbm.readBE env.junk 4).2).2.2.Settled :=
    IStream.readRaw_settled _ _ h1
  unfold chunkCMAP
  dsimp only
  split
  · exact h1
  · split
    · exact h1
    · split <;> exact h2

theorem chunkDefault_settled (env : Env) (st : LbmState) (hs : st.lbm.Settled) :
    (chunkDefault env st).state.lbm.Settled :=
  IStream.ignore_settled _ _ (IStream.readBE_settled _ _ _ hs)

theorem chunkBODY_settled (env : Env) (st : LbmState) (step : Step)
    (h : chunkBODY env st = some step) (hs : st.lbm.Settled) :
    step.state.lbm.Settled := by
  have h1 := IStream.readBE_settled st.lbm env.junk 4 hs
  unfold chunkBODY at h
  dsimp only at h
  split at h
  · cases h; exact h1
  · split at h
    · cases h; exact h1
    · split at h
      · split at h
        · cases h; exact h1
        · cases h
          exact rawRows_settled _ _ _ _ _ h1
      · split at h
        · split at h
          · cases h
          · rename_i r hr
            cases h
            exact rleLoop_settled _ _ _ _ _ hr h1
        · cases h; exact h1

theorem handleChunk_settled (env : Env) (st : LbmState) (chunk : Nat) (step : Step)
    (h : handleChunk env st chunk = some step) (hs : st.lbm.Settled) :
    step.state.lbm.Settled := by
  unfold handleChunk at h
  split at h
  · cases h; exact chunkBHMD_settled env st hs
  · split at h
    · cases h; exact chunkCMAP_settled env st hs
    · split at h
      · exact chunkBODY_settled env st step h hs
      · cases h; exact chunkDefault_settled env st hs

/-- At the head of every pass of the chunk loop a cursor with a raised flag stands at the
end of the input. -/
theorem chunkSteps_settled (env : Env) (k : Nat) :
    ∀ (st st' : LbmState) (tags : List Nat), chunkSteps env k st = some (tags, st') →
      st.lbm.Settled → st'.lbm.Settled := by
  induction k with
  | zero =>
    intro st st' tags h hs
    unfold chunkSteps at h
    cases h
    exact hs
  | succ k ih =>
    intro st st' tags h hs
    rw [chunkSteps_succ] at h
    split at h
    · split at h
      · rename_i st1 hh
        cases hk : chunkSteps env k st1 with
        | none => rw [hk] at h; cases h
        | some p =>
          rw [hk] at h
          cases h
          exact ih st1 p.2 p.1 hk
            (handleChunk_settled env
              { st with lbm := (st.lbm.readBE env.junk 4).2 } _ (.next st1) hh
              (IStream.readBE_settled _ _ _ hs))
      · cases h
    · cases h

theorem chunkBHMD_stop_ne (env : Env) (st st' : LbmState) (res : Outcome)
    (h : chunkBHMD env st = .stop res st') : res ≠ .returned 0 := by
  unfold chunkBHMD at h
  dsimp only at h
  split at h
  · cases h; intro e; cases e
  · split at h
    · cases h; intro e; cases e
    · split at h
      · cases h; intro e; cases e
      · cases h

theorem chunkCMAP_stop_ne (env : Env) (st st' : LbmState) (res : Outcome)
    (h : chunkCMAP env st = .stop res st') : res ≠ .returned 0 := by
  unfold chunkCMAP at h
  dsimp only at h
  split at h
  · cases h; intro e; cases e
  · split at h
    · cases h; intro e; cases e
    · split at h
      · cases h; intro e; cases e
      · cases h

theorem chunkBODY_stop_ne (env : Env) (st st' : LbmState) (res : Outcome)
    (h : chunkBODY env st = some (.stop res st')) : res ≠ .returned 0 := by
  unfold chunkBODY at h
  dsimp only at h
  split at h
  · cases h; intro e; cases e
  · split at h
    · cases h; intro e; cases e
    · split at h
      · split at h
        · cases h; intro e; cases e
        · cases h
      · split at h
        · split at h
          · cases h
          · cases h
        · cases h

/-- No case of the `switch` leaves the function with the return code 0. -/
theorem handleChunk_stop_ne (env : Env) (st st' : LbmState) (chunk : Nat) (res : Outcome)
    (h : handleChunk env st chunk = some (.stop res st')) : res ≠ .returned 0 := by
  unfold handleChunk at h
  split at h
  · exact chunkBHMD_stop_ne env st st' res (Option.some.inj h)
  · split at h
    · exact chunkCMAP_stop_ne env st st' res (Option.some.inj h)
    · split at h
      · exact chunkBODY_stop_ne env st st' res h
      · have e := Option.some.inj h
        unfold chunkDefault at e
        cases e

/-- A chunk loop that returns 0 has gone through some passes that each handled a chunk,
then failed to read a tag, with a non-empty output collection. -/
theorem chunkLoop_returned_zero (env : Env) (fuel : Nat) :
    ∀ st st' : LbmState, chunkLoop env fuel st = some (.returned 0, st') →
      ∃ (k : Nat) (tags : List Nat) (stk : LbmState),
        chunkSteps env k st = some (tags, stk) ∧
        (stk.lbm.readBE env.junk 4).2.fail = true ∧
        st' = { stk with lbm := (stk.lbm.readBE env.junk 4).2 } ∧
        stk.items.isEmpty = false := by
  induction fuel with
  | zero =>
    intro st st' h
    unfold chunkLoop at h
    cases h
  | succ fuel ih =>
    intro st st' h
    rw [chunkLoop_succ] at h
    split at h
    · rename_i hf
      split at h
      · cases h
      · rename_i res st1 hh
        have e := Option.some.inj h
        have e1 : res = .returned 0 := congrArg Prod.fst e
        exact absurd e1 (handleChunk_stop_ne env _ st1 _ res hh)
      · rename_i st1 hh
        obtain ⟨k, tags, stk, h1, h2, h3, h4⟩ := ih st1 st' h
        refine ⟨k + 1, (st.lbm.readBE env.junk 4).1 :: tags, stk, ?_, h2, h3, h4⟩
        rw [chunkSteps_succ, if_pos hf, hh]
        dsimp only
        rw [h1]
        rfl
    · rename_i hf
      split at h
      · have e := Option.some.inj h
        have e1 := congrArg Prod.fst e
        cases e1
      · rename_i hne
        have e := Option.some.inj h
        have e2 : { st with lbm := (st.lbm.readBE env.junk 4).2 } = st' := congrArg Prod.snd e
        refine ⟨0, [], st, rfl, ?_, e2.symm, ?_⟩
        · cases hb : (st.lbm.readBE env.junk 4).2.fail with
          | false => exact absurd hb hf
          | true => rfl
        · cases hb : st.items.isEmpty with
          | false => rfl
          | true => exact absurd (Or.inl hb) hne

/-- A chunk loop that ends after passes without a "BODY" chunk returns 25: the output
collection is still the empty one the caller passed. -/
theorem LoadLBM_incomplete (env : Env) (len chunks : List Byte) (k : Nat) (tags : List Nat)
    (st : LbmState) (hl : len.length = 4)
    (hreach : chunkSteps env k (loopStart env (lbmFile len chunks) [] (beNat len)) =
      some (tags, st))
    (hnb : beNat tagBODY ∉ tags) (hf : (st.lbm.readBE env.junk 4).2.fail = true) :
    LoadLBM env (lbmFile len chunks) [] =
      some (.returned 25, { st with lbm := (st.lbm.readBE env.junk 4).2 }) := by
  obtain ⟨hi, -⟩ :=
    chunkSteps_holds env [] true k _ _ _ hreach hnb (loopStart_holds env _ [] _ true)
  rw [LoadLBM_reaches env [] len chunks hl k tags st hreach, chunkLoop_succ,
    if_neg (by rw [hf]; decide), if_pos (Or.inl (by rw [hi]; rfl))]

/-- C11: the loader reports success only after a "BODY" chunk and at the end of the input.
For every file with a valid "FORM"/"PBM " header and the empty output collection: if the
loader returns 0, then the chunk loop went through passes among which a "BODY" chunk was
handled, the output collection is not empty, and the cursor stands at the end of the
input with its end-of-input flag raised. And if the chunk loop ends (a tag cannot be read)
after passes none of which handled a "BODY" chunk, the loader returns 25
(IncompleteDecode). -/
theorem LoadLBM_success_needs_body (env : Env) (len chunks : List Byte)
    (hl : len.length = 4) :
    (∀ st' : LbmState, LoadLBM env (lbmFile len chunks) [] = some (.returned 0, st') →
      (∃ (k : Nat) (tags : List Nat) (st : LbmState),
        chunkSteps env k (loopStart env (lbmFile len chunks) [] (beNat len)) =
          some (tags, st) ∧
        beNat tagBODY ∈ tags ∧ st'.items = st.items) ∧
      st'.items ≠ [] ∧ st'.lbm.rest = [] ∧ st'.lbm.eof = true) ∧
    (∀ (k : Nat) (tags : List Nat) (st : LbmState),
      chunkSteps env k (loopStart env (lbmFile len chunks) [] (beNat len)) = some (tags, st) →
      beNat tagBODY ∉ tags → (st.lbm.readBE env.junk 4).2.fail = true →
      ∃ st', LoadLBM env (lbmFile len chunks) [] = some (.returned 25, st')) := by
  constructor
  · intro st' h
    rw [LoadLBM_valid_header env [] len chunks hl] at h
    obtain ⟨k, tags, stk, h1, h2, h3, h4⟩ := chunkLoop_returned_zero env _ _ _ h
    have hset := IStream.readBE_settled _ env.junk 4
      (chunkSteps_settled env k _ _ _ h1 (fun hc => absurd rfl hc))
    have hst : (stk.lbm.readBE env.junk 4).2.state = .eofFail := by
      simpa [IStream.fail] using h2
    have hbody : beNat tagBODY ∈ tags := by
      by_contra hnb
      obtain ⟨hi, -⟩ :=
        chunkSteps_holds env [] true k _ _ _ h1 hnb (loopStart_holds env _ [] _ true)
      rw [hi] at h4
      cases h4
    subst h3
    refine ⟨⟨k, tags, stk, h1, hbody, rfl⟩, ?_, ?_, ?_⟩
    · intro e
      rw [show ({ stk with lbm := (stk.lbm.readBE env.junk 4).2 } : LbmState).items = stk.items
        from rfl] at e
      rw [e] at h4
      cases h4
    · exact hset (by rw [hst]; decide)
    · show ((stk.lbm.readBE env.junk 4).2.state != .good) = true
      rw [hst]
      rfl
  · intro k tags st hreach hnb hf
    exact ⟨_, LoadLBM_incomplete env len chunks k tags st hl hreach hnb hf⟩

/-- The witness of C11: the 2x1 uncompressed image is decoded with success, after a "BODY"
pass and with the cursor at the end; the file that ends behind its header is rejected
with 25. -/
theorem LoadLBM_success_needs_body_witness :
    (∃ st', LoadLBM Env.zero
        (lbmFile [0, 0, 0, 0] (bhmdChunk 2 1 0 [0, 0, 0, 0] ++ (cmapChunk 768 zeroPalette ++
          bodyChunk 2 [1, 2]))) [] = some (.returned 0, st') ∧
      (∃ (k : Nat) (tags : List Nat) (st : LbmState),
        chunkSteps Env.zero k
          (loopStart Env.zero
            (lbmFile [0, 0, 0, 0] (bhmdChunk 2 1 0 [0, 0, 0, 0] ++
              (cmapChunk 768 zeroPalette ++ bodyChunk 2 [1, 2]))) []
            (beNat [0, 0, 0, 0])) = some (tags, st) ∧
        beNat tagBODY ∈ tags ∧ st'.items = st.items) ∧
      st'.items ≠ [] ∧ st'.lbm.rest = [] ∧ st'.lbm.eof = true) ∧
    (∃ st', LoadLBM Env.zero (lbmFile [0, 0, 0, 0] []) [] = some (.returned 25, st')) := by
  obtain ⟨st', h, -⟩ := LoadLBM_raw_ok Env.zero [] [0, 0, 0, 0] [0, 0, 0, 0] zeroPalette
    [1, 2] 2 1 768 2 rfl (by decide) (by decide) (Or.inl rfl) rfl zeroPalette_length
    (by norm_num) (by decide) rfl
  exact ⟨⟨st', h, (LoadLBM_success_needs_body Env.zero [0, 0, 0, 0] _ rfl).1 st' h⟩,
    (LoadLBM_success_needs_body Env.zero [0, 0, 0, 0] [] rfl).2 0 [] _ rfl (by simp) rfl⟩

end libsiedler2
